import Mathlib

/-!
# Sonar scan evidence extractor: a shallow embedding of `main.go`

The program `examples/sonar-scan-example/main.go` reads a report-pointer file,
extracts the `ceTaskUrl` entry, fetches the task descriptor and then the
quality-gate status over HTTP, and writes the pair as one JSON document to
standard output.

Everything the process reads from its surroundings (argument vector, environment,
file system, HTTP peer) is gathered in a `World`; `main` is a function from a
`World` to an `Outcome` (bytes on standard output, how the process ended, the
files opened and the HTTP requests handed to the client).

Go strings are modelled as lists of Unicode code points (`Str`); wherever the
program counts bytes, the UTF-8 encoding of the code points is used.

The library functions `main.go` calls are modelled next to it, each under the name of
its package: `strings` (`TrimSpace`, `HasPrefix`, `SplitN`, `Replace`), `bufio` (the line
scanner with its token limit), `encoding/json` (scanner, decoding into the structs,
encoding), `fmt` (`Errorf` with operands the format has no verb for) and `net/http`
(building a request). Three conventions are fixed: `int` is 64 bits wide, a `Read` on
the pointer file returns data or an error but not both, and the encoder is the one of
Go 1.22 and later (`\b` and `\f` are written as such). Time, and with it the deadline of
the context, is not modelled: a request that times out is a request the client fails.
-/

namespace SonarScan

/-- A Go `string`: the sequence of its code points. -/
abbrev Str := List Char

/-! ## UTF-8 -/

/-- The UTF-8 encoding of one code point, as byte values. -/
def utf8Bytes (c : Char) : List Nat :=
  let n := c.toNat
  if n < 0x80 then [n]
  else if n < 0x800 then [0xC0 + n / 64, 0x80 + n % 64]
  else if n < 0x10000 then [0xE0 + n / 4096, 0x80 + n / 64 % 64, 0x80 + n % 64]
  else [0xF0 + n / 262144, 0x80 + n / 4096 % 64, 0x80 + n / 64 % 64, 0x80 + n % 64]

/-- The bytes of a Go string (`[]byte(s)`). -/
def bytesOf (s : Str) : List Nat :=
  s.flatMap utf8Bytes

/-- Go `len(s)`: the length of a string in bytes. -/
def byteLen (s : Str) : Nat :=
  (bytesOf s).length

/-! ## Package `strings` -/

/-- Go `unicode.IsSpace`: the Latin-1 spaces `\t \n \v \f \r`, space, U+0085, U+00A0,
and the further code points with the property White_Space. -/
def isSpace (c : Char) : Bool :=
  let n := c.toNat
  (9 ≤ n && n ≤ 13) || n == 0x20 || n == 0x85 || n == 0xA0 || n == 0x1680 ||
    (0x2000 ≤ n && n ≤ 0x200A) || n == 0x2028 || n == 0x2029 || n == 0x202F ||
    n == 0x205F || n == 0x3000

/-- Go `strings.TrimSpace`: drops the leading and the trailing white space. -/
def TrimSpace (s : Str) : Str :=
  ((s.dropWhile isSpace).reverse.dropWhile isSpace).reverse

/-- Go `strings.HasPrefix`. -/
def HasPrefix (s p : Str) : Bool :=
  p.isPrefixOf s

/-- The text before and after the first occurrence of `sep` in a string
(`strings.Index` followed by the two slices), `none` when `sep` does not occur. -/
def cut (sep : Str) : Str → Option (Str × Str)
  | [] => if sep = [] then some ([], []) else none
  | c :: cs =>
    if sep.isPrefixOf (c :: cs) then some ([], (c :: cs).drop sep.length)
    else match cut sep cs with
      | some (a, b) => some (c :: a, b)
      | none => none

/-- Go `strings.SplitN(s, sep, 2)` for a non-empty separator: the whole string when the
separator does not occur, else the parts before and after its first occurrence. -/
def SplitN2 (s sep : Str) : List Str :=
  match cut sep s with
  | some (a, b) => [a, b]
  | none => [s]

/-- Go `strings.Replace(s, old, new, 1)` for a non-empty `old`: only the first occurrence
of `old` is replaced. -/
def Replace1 (s old new : Str) : Str :=
  match cut old s with
  | some (a, b) => a ++ new ++ b
  | none => s

/-! ## Package `bufio`: the line scanner -/

/-- Go `bufio.MaxScanTokenSize`: the size of the largest buffer a `Scanner` made by
`bufio.NewScanner` allocates. A line that does not end within that many bytes makes
`Scan` stop with `bufio.ErrTooLong`. -/
def MaxScanTokenSize : Nat := 64 * 1024

/-- The pieces of a text between its `\n` bytes; the last piece is the text after the
last `\n` (empty when the text ends in `\n` or is empty). -/
def rawLines : Str → List Str
  | [] => [[]]
  | c :: cs =>
    if c = '\n' then [] :: rawLines cs
    else match rawLines cs with
      | [] => [[c]]
      | l :: ls => (c :: l) :: ls

/-- The helper `dropCR` of `bufio.ScanLines`: drops one trailing `\r`. -/
def dropCR (s : Str) : Str :=
  if s.getLast? = some '\r' then s.dropLast else s

/-- What was read from an opened file: the bytes delivered by `Read`, and whether the
stream then ended with an error other than end of file. -/
structure FileData where
  content : Str
  readErr : Bool
deriving DecidableEq, Repr

/-! ## The pointer-file scan of `main` (lines 106 to 126) -/

/-- The key looked up in the pointer file. -/
def ceTaskUrlKey : Str := "ceTaskUrl".toList

/-- The body of the `for scanner.Scan()` loop for one line: `none` when the loop goes on
to the next line, `some value` when the key matched, the value was recorded and the loop
was left by `break`. -/
def lineStep (line : Str) : Option Str :=
  if byteLen line == 0 || HasPrefix line "#".toList then none
  else match SplitN2 line "=".toList with
    | [k, v] => if TrimSpace k = ceTaskUrlKey then some (TrimSpace v) else none
    | _ => none

/-- The scan loop over the pieces of the file (see `rawLines`). The result is the value of
the variable `ceTaskUrl` after the loop and whether `scanner.Err()` is then non-nil.

A piece of `MaxScanTokenSize` bytes or more fills the buffer before its end is seen:
`Scan` returns false and `Err()` is `ErrTooLong`. The piece after the last `\n` is
delivered (when it is not empty) once the stream has ended, so a read error is already
recorded in the scanner when that line is processed. -/
def scanLoop (readErr : Bool) : List Str → Str × Bool
  | [] => ([], readErr)
  | l :: rest =>
    if MaxScanTokenSize ≤ byteLen l then ([], true)
    else match rest with
      | [] =>
        if l = [] then ([], readErr)
        else match lineStep (dropCR l) with
          | some v => (v, readErr)
          | none => ([], readErr)
      | _ :: _ =>
        match lineStep (dropCR l) with
        | some v => (v, false)
        | none => scanLoop readErr rest

/-- The scan of an opened pointer file: the recorded `ceTaskUrl` and whether
`scanner.Err()` is non-nil after the loop. -/
def scanFile (f : FileData) : Str × Bool :=
  scanLoop f.readErr (rawLines f.content)

/-! ## Package `encoding/json`: the scanner

The text of a JSON document is read by a state machine that consumes one byte at a time,
as `scanner.go` does, and builds the value it has read. -/

/-- A JSON value. A number keeps its literal text, an object its members in the order
of the document (a name may occur more than once). -/
inductive Json where
  | null
  | bool (b : Bool)
  | num (lit : Str)
  | str (s : Str)
  | arr (elems : List Json)
  | obj (members : List (Str × Json))
deriving Repr

/-- One item of a string literal: a character, or the value of a `\uXXXX` escape. -/
inductive StrUnit where
  | chr (c : Char)
  | esc (n : Nat)
deriving Repr

/-- The positions inside a number literal (`stateNeg`, `state0`, `state1`, `stateDot`,
`stateDot0`, `stateE`, `stateESign`, `stateE0`). -/
inductive NumState where
  | neg | zero | int | dot | frac | e | esign | exp
deriving Repr, DecidableEq

/-- A container that is still open: its items so far, latest first, and for an object
the name of the member being read. -/
inductive Frame where
  | arr (done : List Json)
  | obj (done : List (Str × Json)) (key : Str)
deriving Repr

/-- The position of the scanner between two bytes. -/
inductive Lex where
  | beginValue
  | beginValueOrEmpty
  | beginString
  | beginStringOrEmpty
  | inString (isKey : Bool) (acc : List StrUnit)
  | inStringEsc (isKey : Bool) (acc : List StrUnit)
  | inStringEscU (isKey : Bool) (acc : List StrUnit) (hex : List Nat)
  | endKey
  | endValue
  | inNum (ns : NumState) (acc : Str)
  | inLit (rest : Str) (v : Json)
  | endTop (v : Json)
  | error
deriving Repr

/-- The scanner: the open containers, innermost first, and the position. -/
structure Scanner where
  stack : List Frame
  lex : Lex
deriving Repr

/-- The double quote. -/
def dquote : Char := Char.ofNat 34

/-- The backslash. -/
def bslash : Char := Char.ofNat 92

/-- The limit `maxNestingDepth` of `scanner.go`. -/
def maxNestingDepth : Nat := 10000

/-- The white space of JSON: space, `\t`, `\r`, `\n`. -/
def isJsonSpace (c : Char) : Bool :=
  c == ' ' || c == '\t' || c == '\r' || c == '\n'

/-- Whether a character is a decimal digit. -/
def isDigit (c : Char) : Bool :=
  '0'.toNat ≤ c.toNat && c.toNat ≤ '9'.toNat

/-- The value of a hexadecimal digit. -/
def hexVal (c : Char) : Option Nat :=
  let n := c.toNat
  if 48 ≤ n ∧ n ≤ 57 then some (n - 48)
  else if 97 ≤ n ∧ n ≤ 102 then some (n - 87)
  else if 65 ≤ n ∧ n ≤ 70 then some (n - 55)
  else none

/-- Whether a number literal may end in this position. -/
def NumState.accepting : NumState → Bool
  | .zero | .int | .frac | .exp => true
  | _ => false

/-- The next position inside a number literal, `none` when the byte does not continue
the literal. -/
def numStep (ns : NumState) (c : Char) : Option NumState :=
  match ns with
  | .neg => if c = '0' then some .zero else if isDigit c then some .int else none
  | .zero => if c = '.' then some .dot else if c = 'e' ∨ c = 'E' then some .e else none
  | .int =>
    if isDigit c then some .int
    else if c = '.' then some .dot else if c = 'e' ∨ c = 'E' then some .e else none
  | .dot => if isDigit c then some .frac else none
  | .frac => if isDigit c then some .frac else if c = 'e' ∨ c = 'E' then some .e else none
  | .e => if c = '+' ∨ c = '-' then some .esign else if isDigit c then some .exp else none
  | .esign => if isDigit c then some .exp else none
  | .exp => if isDigit c then some .exp else none

/-- Whether a 16-bit value is a UTF-16 surrogate. -/
def isSurrogate (n : Nat) : Bool :=
  0xD800 ≤ n && n < 0xE000

/-- The character of a single `\uXXXX` escape: U+FFFD for a surrogate. -/
def escChar (n : Nat) : Char :=
  if isSurrogate n then Char.ofNat 0xFFFD else Char.ofNat n

/-- The function `unquote` of `decode.go` on the items of a string literal, `pending`
being a high surrogate escape read just before: a high surrogate escape directly followed
by a low surrogate escape is one character, any other surrogate escape is U+FFFD. -/
def unquoteFrom (pending : Option Nat) : List StrUnit → Str
  | [] =>
    match pending with
    | some _ => [Char.ofNat 0xFFFD]
    | none => []
  | .chr c :: r =>
    match pending with
    | some _ => Char.ofNat 0xFFFD :: c :: unquoteFrom none r
    | none => c :: unquoteFrom none r
  | .esc n :: r =>
    match pending with
    | some hi =>
      if 0xDC00 ≤ n ∧ n < 0xE000 then
        Char.ofNat (0x10000 + (hi - 0xD800) * 0x400 + (n - 0xDC00)) :: unquoteFrom none r
      else if 0xD800 ≤ n ∧ n < 0xDC00 then Char.ofNat 0xFFFD :: unquoteFrom (some n) r
      else Char.ofNat 0xFFFD :: escChar n :: unquoteFrom none r
    | none =>
      if 0xD800 ≤ n ∧ n < 0xDC00 then unquoteFrom (some n) r
      else escChar n :: unquoteFrom none r

/-- The text of a string literal from its items. -/
def unquote (units : List StrUnit) : Str :=
  unquoteFrom none units

/-- A value is complete: it is the document when no container is open, else it joins
the innermost open container. -/
def deliver (stack : List Frame) (v : Json) : Scanner :=
  match stack with
  | [] => ⟨[], .endTop v⟩
  | .arr done :: fs => ⟨.arr (v :: done) :: fs, .endValue⟩
  | .obj done key :: fs => ⟨.obj ((key, v) :: done) key :: fs, .endValue⟩

/-- Opens a container (`pushParseState`): an error past `maxNestingDepth`. -/
def push (stack : List Frame) (f : Frame) (next : Lex) : Scanner :=
  if stack.length + 1 ≤ maxNestingDepth then ⟨f :: stack, next⟩ else ⟨stack, .error⟩

/-- The state `stateBeginValue`: the first byte of a value. -/
def beginValue (stack : List Frame) (here : Lex) (c : Char) : Scanner :=
  if isJsonSpace c then ⟨stack, here⟩
  else if c = '{' then push stack (.obj [] []) .beginStringOrEmpty
  else if c = '[' then push stack (.arr []) .beginValueOrEmpty
  else if c = dquote then ⟨stack, .inString false []⟩
  else if c = '-' then ⟨stack, .inNum .neg [c]⟩
  else if c = '0' then ⟨stack, .inNum .zero [c]⟩
  else if isDigit c then ⟨stack, .inNum .int [c]⟩
  else if c = 't' then ⟨stack, .inLit "rue".toList (.bool true)⟩
  else if c = 'f' then ⟨stack, .inLit "alse".toList (.bool false)⟩
  else if c = 'n' then ⟨stack, .inLit "ull".toList .null⟩
  else ⟨stack, .error⟩

/-- The state `stateBeginString`: the opening quote of a member name. -/
def beginString (stack : List Frame) (here : Lex) (c : Char) : Scanner :=
  if isJsonSpace c then ⟨stack, here⟩
  else if c = dquote then ⟨stack, .inString true []⟩
  else ⟨stack, .error⟩

/-- The closing quote of a string: a member name is noted in the open object, any other
string is a complete value. -/
def endString (stack : List Frame) (isKey : Bool) (acc : List StrUnit) : Scanner :=
  if isKey then
    match stack with
    | .obj done _ :: fs => ⟨.obj done (unquote acc.reverse) :: fs, .endKey⟩
    | _ => ⟨stack, .error⟩
  else deliver stack (.str (unquote acc.reverse))

/-- The character a one-letter escape stands for. -/
def simpleEscape (c : Char) : Option Char :=
  if c = 'b' then some (Char.ofNat 8)
  else if c = 'f' then some (Char.ofNat 12)
  else if c = 'n' then some '\n'
  else if c = 'r' then some '\r'
  else if c = 't' then some '\t'
  else if c = '/' ∨ c = bslash ∨ c = dquote then some c
  else none

/-- One byte, in every position but inside a number. -/
def step (st : Scanner) (c : Char) : Scanner :=
  match st.lex with
  | .beginValue => beginValue st.stack .beginValue c
  | .beginValueOrEmpty =>
    if isJsonSpace c then st
    else if c = ']' then
      match st.stack with
      | .arr _ :: fs => deliver fs (.arr [])
      | _ => ⟨st.stack, .error⟩
    else beginValue st.stack .beginValue c
  | .beginString => beginString st.stack .beginString c
  | .beginStringOrEmpty =>
    if isJsonSpace c then st
    else if c = '}' then
      match st.stack with
      | .obj _ _ :: fs => deliver fs (.obj [])
      | _ => ⟨st.stack, .error⟩
    else beginString st.stack .beginString c
  | .inString isKey acc =>
    if c = dquote then endString st.stack isKey acc
    else if c = bslash then ⟨st.stack, .inStringEsc isKey acc⟩
    else if c.toNat < 0x20 then ⟨st.stack, .error⟩
    else ⟨st.stack, .inString isKey (.chr c :: acc)⟩
  | .inStringEsc isKey acc =>
    if c = 'u' then ⟨st.stack, .inStringEscU isKey acc []⟩
    else match simpleEscape c with
      | some x => ⟨st.stack, .inString isKey (.chr x :: acc)⟩
      | none => ⟨st.stack, .error⟩
  | .inStringEscU isKey acc hex =>
    match hexVal c with
    | some d =>
      match hex with
      | [d2, d1, d0] =>
        ⟨st.stack, .inString isKey (.esc (((d0 * 16 + d1) * 16 + d2) * 16 + d) :: acc)⟩
      | _ => ⟨st.stack, .inStringEscU isKey acc (d :: hex)⟩
    | none => ⟨st.stack, .error⟩
  | .endKey =>
    if isJsonSpace c then st
    else if c = ':' then ⟨st.stack, .beginValue⟩
    else ⟨st.stack, .error⟩
  | .endValue =>
    if isJsonSpace c then st
    else match st.stack with
      | .arr done :: fs =>
        if c = ',' then ⟨st.stack, .beginValue⟩
        else if c = ']' then deliver fs (.arr done.reverse)
        else ⟨st.stack, .error⟩
      | .obj done _ :: fs =>
        if c = ',' then ⟨st.stack, .beginString⟩
        else if c = '}' then deliver fs (.obj done.reverse)
        else ⟨st.stack, .error⟩
      | [] => ⟨st.stack, .error⟩
  | .inLit rest v =>
    match rest with
    | [] => ⟨st.stack, .error⟩
    | x :: xs =>
      if c = x then (if xs = [] then deliver st.stack v else ⟨st.stack, .inLit xs v⟩)
      else ⟨st.stack, .error⟩
  | .inNum _ _ => ⟨st.stack, .error⟩
  | .endTop _ => ⟨st.stack, .error⟩
  | .error => st

/-- Runs the scanner until the first value of the text is complete: the value and the
text after it, `none` for a syntax error or a text that ends too early. A number ends
at the first byte that does not continue it. -/
def scanValue (st : Scanner) : Str → Option (Json × Str)
  | [] =>
    match st.lex with
    | .endTop v => some (v, [])
    | .inNum ns acc =>
      if ns.accepting && st.stack.isEmpty then some (.num acc.reverse, []) else none
    | _ => none
  | c :: cs =>
    match st.lex with
    | .endTop v => some (v, c :: cs)
    | .error => none
    | .inNum ns acc =>
      match numStep ns c with
      | some ns2 => scanValue ⟨st.stack, .inNum ns2 (c :: acc)⟩ cs
      | none =>
        if ns.accepting then
          match deliver st.stack (.num acc.reverse) with
          | ⟨_, .endTop v⟩ => some (v, c :: cs)
          | st2 => scanValue (step st2 c) cs
        else none
    | _ => scanValue (step st c) cs

/-- The first JSON value of a text and the text after it. -/
def parsePrefix (s : Str) : Option (Json × Str) :=
  scanValue ⟨[], .beginValue⟩ s

/-- The JSON value of a text that holds one value and white space around it
(`checkValid`). -/
def parseAll (s : Str) : Option Json :=
  match parsePrefix s with
  | some (v, rest) => if rest.all isJsonSpace then some v else none
  | none => none

/-! ## The data model of `main.go` (lines 22 to 69) -/

/-- A Go slice as far as decoding and encoding observe it: whether it is `nil`, its
elements, and the elements an earlier decode left in the backing array past the length
(`array` in `decode.go` decodes element `i` into the slot `i` that is already there). -/
structure Slice (α : Type) where
  isNil : Bool
  elems : List α
  spare : List α
deriving DecidableEq, Repr

/-- The zero value of a slice type: `nil`. -/
def Slice.zero {α : Type} : Slice α := ⟨true, [], []⟩

/-- The struct `SonarTask`. The field `id` is not exported (lower-case initial), the ten
other fields are. -/
structure SonarTask where
  id : Str
  Status : Str
  AnalysisId : Str
  ComponentId : Str
  ComponentKey : Str
  ComponentName : Str
  Organization : Str
  SubmittedAt : Str
  SubmitterLogin : Str
  StartedAt : Str
  ExecutedAt : Str
deriving DecidableEq, Repr

/-- The struct `SonarTaskResponse`. -/
structure SonarTaskResponse where
  Task : SonarTask
deriving DecidableEq, Repr

/-- The struct `Condition`. -/
structure Condition where
  Status : Str
  MetricKey : Str
  Comparator : Str
  PeriodIndex : Int
  ErrorThreshold : Str
  ActualValue : Str
deriving DecidableEq, Repr

/-- The struct `Period`. -/
structure Period where
  Index : Int
  Mode : Str
  Date : Str
deriving DecidableEq, Repr

/-- The struct `ProjectStatus`. -/
structure ProjectStatus where
  Status : Str
  Conditions : Slice Condition
  Periods : Slice Period
  IgnoredConditions : Bool
deriving DecidableEq, Repr

/-- The struct `SonarAnalysis`. -/
structure SonarAnalysis where
  ProjectStatus : ProjectStatus
deriving DecidableEq, Repr

/-- The struct `SonarResponse`. -/
structure SonarResponse where
  Task : SonarTask
  Analysis : ProjectStatus
deriving DecidableEq, Repr

/-- The zero value of `SonarTask`. -/
def SonarTask.zero : SonarTask := ⟨[], [], [], [], [], [], [], [], [], [], []⟩

/-- The zero value of `Condition`. -/
def Condition.zero : Condition := ⟨[], [], [], 0, [], []⟩

/-- The zero value of `Period`. -/
def Period.zero : Period := ⟨0, [], []⟩

/-- The zero value of `ProjectStatus`. -/
def ProjectStatus.zero : ProjectStatus := ⟨[], Slice.zero, Slice.zero, false⟩

/-! ## Package `encoding/json`: decoding into the structs

A decoder takes the current value of its target and a JSON value, and gives the new value
of the target and whether no error was saved. A value of the wrong kind saves an
`UnmarshalTypeError` and leaves the target as it is; decoding goes on, and the call fails
at its end when an error was saved. -/

/-- The letter a member name is compared by: upper-case ASCII letters, U+017F and U+212A
fold to their lower-case ASCII letter. -/
def foldChar (c : Char) : Char :=
  let n := c.toNat
  if 65 ≤ n ∧ n ≤ 90 then Char.ofNat (n + 32)
  else if n = 0x17F then 's'
  else if n = 0x212A then 'k'
  else c

/-- Whether a member name of the document selects the field with this (ASCII) JSON
name: the names are equal under Unicode case folding. -/
def equalFold (key : Str) (name : String) : Bool :=
  key.map foldChar == name.toList.map foldChar

/-- Decoding into a `string`. -/
def decodeString (cur : Str) : Json → Str × Bool
  | .str s => (s, true)
  | .null => (cur, true)
  | _ => (cur, false)

/-- Decoding into a `bool`. -/
def decodeBool (cur : Bool) : Json → Bool × Bool
  | .bool b => (b, true)
  | .null => (cur, true)
  | _ => (cur, false)

/-- Go `strconv.ParseInt(s, 10, 64)` on the text of a JSON number: the text must be an
optional minus sign and digits, and the value must fit 64 bits. -/
def parseInt64 (lit : Str) : Option Int :=
  let neg := lit.head? = some '-'
  let ds := if neg then lit.tail else lit
  if ds ≠ [] ∧ ds.all isDigit then
    let n : Nat := ds.foldl (fun a c => a * 10 + (c.toNat - 48)) 0
    let v : Int := if neg then -(n : Int) else (n : Int)
    if -(2 : Int) ^ 63 ≤ v ∧ v < (2 : Int) ^ 63 then some v else none
  else none

/-- Decoding into an `int` (64 bits wide). -/
def decodeInt (cur : Int) : Json → Int × Bool
  | .num lit =>
    match parseInt64 lit with
    | some n => (n, true)
    | none => (cur, false)
  | .null => (cur, true)
  | _ => (cur, false)

/-- Decoding the members of an object into a struct, one after the other, with the
field setter of the struct. -/
def decodeMembers {α : Type} (set : α → Str → Json → α × Bool) :
    List (Str × Json) → α → α × Bool
  | [], cur => (cur, true)
  | (k, v) :: ms, cur =>
    let r := set cur k v
    let r2 := decodeMembers set ms r.1
    (r2.1, r.2 && r2.2)

/-- Decoding into a struct. -/
def decodeStruct {α : Type} (set : α → Str → Json → α × Bool) (cur : α) : Json → α × Bool
  | .obj ms => decodeMembers set ms cur
  | .null => (cur, true)
  | _ => (cur, false)

/-- Decoding the elements of an array into the slots of the backing array, a fresh zero
slot where the backing array has ended. -/
def decodeElems {α : Type} (dec : α → Json → α × Bool) (zero : α) :
    List Json → List α → List α × Bool
  | [], _ => ([], true)
  | j :: js, backing =>
    let r := dec (backing.headD zero) j
    let r2 := decodeElems dec zero js backing.tail
    (r.1 :: r2.1, r.2 && r2.2)

/-- Decoding into a slice: `null` gives `nil`, the empty array a fresh empty slice. -/
def decodeSlice {α : Type} (dec : α → Json → α × Bool) (zero : α) (cur : Slice α) :
    Json → Slice α × Bool
  | .arr js =>
    if js.isEmpty then (⟨false, [], []⟩, true)
    else
      let backing := cur.elems ++ cur.spare
      let r := decodeElems dec zero js backing
      (⟨false, r.1, backing.drop js.length⟩, r.2)
  | .null => (Slice.zero, true)
  | _ => (cur, false)

/-- The field of `SonarTask` a member goes to. The unexported field `id` is no target:
a member `id` is skipped like any unknown name. -/
def SonarTask.setField (t : SonarTask) (k : Str) (v : Json) : SonarTask × Bool :=
  if equalFold k "status" then
    let r := decodeString t.Status v; ({ t with Status := r.1 }, r.2)
  else if equalFold k "analysisId" then
    let r := decodeString t.AnalysisId v; ({ t with AnalysisId := r.1 }, r.2)
  else if equalFold k "componentId" then
    let r := decodeString t.ComponentId v; ({ t with ComponentId := r.1 }, r.2)
  else if equalFold k "componentKey" then
    let r := decodeString t.ComponentKey v; ({ t with ComponentKey := r.1 }, r.2)
  else if equalFold k "componentName" then
    let r := decodeString t.ComponentName v; ({ t with ComponentName := r.1 }, r.2)
  else if equalFold k "organization" then
    let r := decodeString t.Organization v; ({ t with Organization := r.1 }, r.2)
  else if equalFold k "submittedAt" then
    let r := decodeString t.SubmittedAt v; ({ t with SubmittedAt := r.1 }, r.2)
  else if equalFold k "submitterLogin" then
    let r := decodeString t.SubmitterLogin v; ({ t with SubmitterLogin := r.1 }, r.2)
  else if equalFold k "startedAt" then
    let r := decodeString t.StartedAt v; ({ t with StartedAt := r.1 }, r.2)
  else if equalFold k "executedAt" then
    let r := decodeString t.ExecutedAt v; ({ t with ExecutedAt := r.1 }, r.2)
  else (t, true)

/-- The field of `SonarTaskResponse` a member goes to. -/
def SonarTaskResponse.setField (t : SonarTaskResponse) (k : Str) (v : Json) :
    SonarTaskResponse × Bool :=
  if equalFold k "task" then
    let r := decodeStruct SonarTask.setField t.Task v; ({ t with Task := r.1 }, r.2)
  else (t, true)

/-- The field of `Condition` a member goes to. -/
def Condition.setField (c : Condition) (k : Str) (v : Json) : Condition × Bool :=
  if equalFold k "status" then
    let r := decodeString c.Status v; ({ c with Status := r.1 }, r.2)
  else if equalFold k "metricKey" then
    let r := decodeString c.MetricKey v; ({ c with MetricKey := r.1 }, r.2)
  else if equalFold k "comparator" then
    let r := decodeString c.Comparator v; ({ c with Comparator := r.1 }, r.2)
  else if equalFold k "periodIndex" then
    let r := decodeInt c.PeriodIndex v; ({ c with PeriodIndex := r.1 }, r.2)
  else if equalFold k "errorThreshold" then
    let r := decodeString c.ErrorThreshold v; ({ c with ErrorThreshold := r.1 }, r.2)
  else if equalFold k "actualValue" then
    let r := decodeString c.ActualValue v; ({ c with ActualValue := r.1 }, r.2)
  else (c, true)

/-- The field of `Period` a member goes to. -/
def Period.setField (p : Period) (k : Str) (v : Json) : Period × Bool :=
  if equalFold k "index" then
    let r := decodeInt p.Index v; ({ p with Index := r.1 }, r.2)
  else if equalFold k "mode" then
    let r := decodeString p.Mode v; ({ p with Mode := r.1 }, r.2)
  else if equalFold k "date" then
    let r := decodeString p.Date v; ({ p with Date := r.1 }, r.2)
  else (p, true)

/-- The field of `ProjectStatus` a member goes to. -/
def ProjectStatus.setField (s : ProjectStatus) (k : Str) (v : Json) : ProjectStatus × Bool :=
  if equalFold k "status" then
    let r := decodeString s.Status v; ({ s with Status := r.1 }, r.2)
  else if equalFold k "conditions" then
    let r := decodeSlice (decodeStruct Condition.setField) Condition.zero s.Conditions v
    ({ s with Conditions := r.1 }, r.2)
  else if equalFold k "periods" then
    let r := decodeSlice (decodeStruct Period.setField) Period.zero s.Periods v
    ({ s with Periods := r.1 }, r.2)
  else if equalFold k "ignoredConditions" then
    let r := decodeBool s.IgnoredConditions v; ({ s with IgnoredConditions := r.1 }, r.2)
  else (s, true)

/-- The field of `SonarAnalysis` a member goes to. -/
def SonarAnalysis.setField (a : SonarAnalysis) (k : Str) (v : Json) : SonarAnalysis × Bool :=
  if equalFold k "projectStatus" then
    let r := decodeStruct ProjectStatus.setField a.ProjectStatus v
    ({ a with ProjectStatus := r.1 }, r.2)
  else (a, true)

/-- The call `json.Unmarshal(body, &taskResponse)` of `getReport` on a zero
`SonarTaskResponse`: the decoded value, `none` when the call returns an error. -/
def UnmarshalTaskResponse (body : Str) : Option SonarTaskResponse :=
  match parseAll body with
  | none => none
  | some j =>
    let r := decodeStruct SonarTaskResponse.setField ⟨SonarTask.zero⟩ j
    if r.2 then some r.1 else none

/-- Whether a JSON value is an array or an object: the scanner sees the end of such a
value at its closing bracket, that of any other value only at the byte after it or at the
end of the stream. -/
def Json.isContainer : Json → Bool
  | .arr _ | .obj _ => true
  | _ => false

/-- The call `json.NewDecoder(resp.Body).Decode(analysisResponse)` of `getAnalysis` on a
zero `SonarAnalysis`: the first value of the stream is decoded and what follows it is
left unread; `streamErr` tells whether the stream ended with an error other than end of
file after `body`. -/
def DecodeAnalysis (body : Str) (streamErr : Bool) : Option SonarAnalysis :=
  match parsePrefix body with
  | none => none
  | some (j, rest) =>
    if !j.isContainer && rest.isEmpty && streamErr then none
    else
      let r := decodeStruct SonarAnalysis.setField ⟨ProjectStatus.zero⟩ j
      if r.2 then some r.1 else none

/-! ## Package `encoding/json`: encoding -/

/-- The digit of a value below sixteen, lower case. -/
def hexDigit (n : Nat) : Char :=
  "0123456789abcdef".toList.getD n '0'

/-- The encoding of one character inside a JSON string (`appendString` with HTML
escaping on, Go 1.22 and later): quote and backslash get a backslash, `\b \f \n \r \t`
their short escape, the other control characters and `<`, `>`, `&` the form `\u00XX`,
U+2028 and U+2029 the form `\u202X`. -/
def quoteChar (c : Char) : Str :=
  if c = bslash ∨ c = dquote then [bslash, c]
  else if c = Char.ofNat 8 then [bslash, 'b']
  else if c = Char.ofNat 12 then [bslash, 'f']
  else if c = '\n' then [bslash, 'n']
  else if c = '\r' then [bslash, 'r']
  else if c = '\t' then [bslash, 't']
  else if c.toNat < 0x20 ∨ c = '<' ∨ c = '>' ∨ c = '&' then
    [bslash, 'u', '0', '0', hexDigit (c.toNat / 16), hexDigit (c.toNat % 16)]
  else if c.toNat = 0x2028 ∨ c.toNat = 0x2029 then
    [bslash, 'u', '2', '0', '2', hexDigit (c.toNat % 16)]
  else [c]

/-- The encoding of a `string`. -/
def quote (s : Str) : Str :=
  dquote :: s.flatMap quoteChar ++ [dquote]

/-- The decimal digits of a natural number. -/
def decimal (n : Nat) : Str :=
  Nat.toDigits 10 n

/-- The decimal text of an `int` (`strconv.FormatInt(i, 10)`). -/
def formatInt : Int → Str
  | .ofNat n => decimal n
  | .negSucc n => '-' :: decimal (n + 1)

/-- The encoding of a `bool`. -/
def formatBool (b : Bool) : Str :=
  if b then "true".toList else "false".toList

/-- The encoding of a struct from its exported fields, as pairs of JSON name and
encoded value, in the order of declaration. -/
def encodeObject (members : List (String × Str)) : Str :=
  '{' :: List.intercalate [','] (members.map fun m => quote m.1.toList ++ ':' :: m.2) ++ ['}']

/-- The encoding of a slice: `null` for `nil`, else the elements in their order. -/
def encodeSlice {α : Type} (enc : α → Str) (s : Slice α) : Str :=
  if s.isNil then "null".toList
  else '[' :: List.intercalate [','] (s.elems.map enc) ++ [']']

/-- The fields of `SonarTask` the encoder emits: the exported ones. -/
def SonarTask.members (t : SonarTask) : List (String × Str) :=
  [("status", quote t.Status), ("analysisId", quote t.AnalysisId),
   ("componentId", quote t.ComponentId), ("componentKey", quote t.ComponentKey),
   ("componentName", quote t.ComponentName), ("organization", quote t.Organization),
   ("submittedAt", quote t.SubmittedAt), ("submitterLogin", quote t.SubmitterLogin),
   ("startedAt", quote t.StartedAt), ("executedAt", quote t.ExecutedAt)]

/-- The fields of `Condition` the encoder emits. -/
def Condition.members (c : Condition) : List (String × Str) :=
  [("status", quote c.Status), ("metricKey", quote c.MetricKey),
   ("comparator", quote c.Comparator), ("periodIndex", formatInt c.PeriodIndex),
   ("errorThreshold", quote c.ErrorThreshold), ("actualValue", quote c.ActualValue)]

/-- The fields of `Period` the encoder emits. -/
def Period.members (p : Period) : List (String × Str) :=
  [("index", formatInt p.Index), ("mode", quote p.Mode), ("date", quote p.Date)]

/-- The fields of `ProjectStatus` the encoder emits. -/
def ProjectStatus.members (s : ProjectStatus) : List (String × Str) :=
  [("status", quote s.Status),
   ("conditions", encodeSlice (fun c => encodeObject c.members) s.Conditions),
   ("periods", encodeSlice (fun p => encodeObject p.members) s.Periods),
   ("ignoredConditions", formatBool s.IgnoredConditions)]

/-- The fields of `SonarResponse` the encoder emits. -/
def SonarResponse.members (r : SonarResponse) : List (String × Str) :=
  [("task", encodeObject r.Task.members), ("analysis", encodeObject r.Analysis.members)]

/-- The call `json.Marshal(response)` of `main`. It cannot fail on this type: a struct of
strings, integers, booleans and slices of such structs. -/
def Marshal (r : SonarResponse) : Str :=
  encodeObject r.members

/-! ## Package `fmt`: the errors built by `fmt.Errorf` -/

/-- An error that comes from outside `main.go` (transport, stream, parser): the name of
its dynamic type and its text. -/
structure LibError where
  typ : Str
  msg : Str
deriving DecidableEq, Repr

/-- An operand handed to `fmt.Errorf` after the format. -/
inductive Arg where
  | str (s : Str)
  | int (n : Int)
  | bytes (b : List Nat)
  | err (e : LibError)
  | decodeErr
  | nil
deriving DecidableEq, Repr

/-- The error value `fmt.Errorf(format, args...)`. -/
structure GoError where
  format : Str
  args : List Arg
deriving DecidableEq, Repr

/-- How `fmt` prints an operand the format has no verb for: the type, `=`, and the value
under `%v`; `<nil>` for a nil operand. A byte slice under `%v` is the list of its bytes in
decimal between brackets. The text of a decoder error is not modelled (`none`). -/
def Arg.extra : Arg → Option Str
  | .str s => some ("string=".toList ++ s)
  | .int n => some ("int=".toList ++ formatInt n)
  | .bytes b =>
    some ("[]uint8=[".toList ++ List.intercalate [' '] (b.map decimal) ++ [']'])
  | .err e => some (e.typ ++ '=' :: e.msg)
  | .decodeErr => none
  | .nil => some "<nil>".toList

/-- The operands of a list, each printed by `Arg.extra`. -/
def extras : List Arg → Option (List Str)
  | [] => some []
  | a :: as =>
    match a.extra, extras as with
    | some x, some xs => some (x :: xs)
    | _, _ => none

/-- The method `Error()`: the text of the error. None of the formats of `main.go` holds a
verb, so the format is copied and every operand is reported as extra:
`%!(EXTRA type=value, type=value)`. -/
def GoError.Error (e : GoError) : Option Str :=
  match e.args, extras e.args with
  | [], _ => some e.format
  | _, some xs => some (e.format ++ "%!(EXTRA ".toList ++ List.intercalate ", ".toList xs ++ [')'])
  | _, none => none

/-! ## The surroundings of the process -/

/-- An HTTP GET request as `main.go` builds it: the URL and the `Authorization` header. -/
structure Request where
  url : Str
  authorization : Str
deriving DecidableEq, Repr

/-- An HTTP response: the status code, the bytes of the body, and the error (other than
end of file) the body stream ended with, if any. -/
structure Response where
  status : Nat
  body : Str
  bodyErr : Option LibError
deriving DecidableEq, Repr

/-- The result of `client.Do(req)`. -/
inductive RoundTrip where
  | failed (e : LibError)
  | response (r : Response)
deriving DecidableEq, Repr

/-- What the process finds around it. `roundTrip n req` is the answer of the HTTP client
to `req` when `n` requests were handed to it before; `urlParses` stands for the checks of
`url.Parse` that follow the control-character check. -/
structure World where
  args : List Str
  logFileOpens : Bool
  sonarToken : Str
  openFile : Str → Option FileData
  urlParses : Str → Bool
  roundTrip : Nat → Request → RoundTrip

/-- How a process ends: `os.Exit(code)` or return from `main` (code 0), or a run-time
panic. -/
inductive Termination where
  | exited (code : Nat)
  | panicked
deriving DecidableEq, Repr

/-- The exit code of the process: 2 after a panic. -/
def Termination.exitCode : Termination → Nat
  | .exited code => code
  | .panicked => 2

/-- What a run leaves behind: the bytes on standard output, how it ended, the paths
handed to `os.OpenFile` and `os.Open`, and the requests handed to `client.Do`. -/
structure Outcome where
  stdout : Str
  term : Termination
  opened : List Str
  requests : List Request
deriving DecidableEq, Repr

/-- How a call of `getReport` or `getAnalysis` ends: a panic, or a return with the requests
handed to the client and the pair of results (a value on success, else an error next to
the zero value). -/
inductive Call (α : Type) where
  | panicked
  | returned (requests : List Request) (result : Except GoError α)

/-- The requests a call handed to the client. -/
def Call.requests {α : Type} : Call α → List Request
  | .panicked => []
  | .returned reqs _ => reqs

/-! ## The constants of `main.go` (lines 71 to 75) -/

/-- The constant `ANALYSIS_URL`. -/
def ANALYSIS_URL : Str :=
  "https://sonarcloud.io/api/qualitygates/project_status?analysisId=$analysisId".toList

/-- The constant `LOG_FILE_LOCATION`. -/
def LOG_FILE_LOCATION : Str := "sonar-scan.log".toList

/-- The initial value of `reportTaskFile` (line 94). -/
def defaultReportTaskFile : Str := ".scannerwork/.report-task.txt".toList

/-! ## Package `net/http`: building a request -/

/-- The check `stringContainsCTLByte` of `net/url`: a byte below 0x20, or 0x7f. -/
def stringContainsCTLByte (s : Str) : Bool :=
  s.any fun c => c.toNat < 0x20 || c.toNat == 0x7f

/-- The call `http.NewRequestWithContext(ctx, "GET", url, nil)`: `none` stands for the
result `(nil, err)`. `url.Parse` refuses a text with a control byte before its first
`#`; its further checks are those of the world. -/
def NewRequestWithContext (w : World) (url : Str) : Option Request :=
  let u := match cut "#".toList url with
    | some (a, _) => a
    | none => url
  if stringContainsCTLByte u then none
  else if w.urlParses url then some ⟨url, []⟩
  else none

/-- The statement `req.Header.Set("Authorization", "Bearer " + sonar_token)`. -/
def setAuthorization (req : Request) (sonar_token : Str) : Request :=
  { req with authorization := "Bearer ".toList ++ sonar_token }

/-! ## `getReport` (lines 176 to 213) -/

/-- The function `getReport`, `n` requests having been handed to the client before. The
error of `NewRequestWithContext` is not looked at before `req.Header` is used: with a nil
request that statement panics. -/
def getReport (w : World) (n : Nat) (ceTaskUrl sonar_token : Str) : Call SonarTaskResponse :=
  match NewRequestWithContext w ceTaskUrl with
  | none => .panicked
  | some req0 =>
    let req := setAuthorization req0 sonar_token
    match w.roundTrip n req with
    | .failed e =>
      .returned [req] (.error ⟨"Error making the request, url:".toList,
        [.str ceTaskUrl, .str "error".toList, .err e]⟩)
    | .response resp =>
      match resp.bodyErr with
      | some e =>
        .returned [req] (.error ⟨"getReport error readinf body error:".toList, [.err e]⟩)
      | none =>
        if resp.status ≠ 200 then
          .returned [req] (.error ⟨"getReport error getting response from".toList,
            [.str ceTaskUrl, .str " returned ".toList, .int resp.status,
             .str " response body ".toList, .bytes (bytesOf resp.body)]⟩)
        else
          match UnmarshalTaskResponse resp.body with
          | none =>
            .returned [req] (.error ⟨"error decoding report response for report".toList,
              [.str ceTaskUrl, .str "error".toList, .decodeErr]⟩)
          | some taskResponse => .returned [req] (.ok taskResponse)

/-! ## `getAnalysis` (lines 215 to 246) -/

/-- The URL `getAnalysis` builds (line 217). -/
def analysisUrl (analysisId : Str) : Str :=
  Replace1 ANALYSIS_URL "$analysisId".toList analysisId

/-- The operand for the error of `io.ReadAll`. -/
def errArg : Option LibError → Arg
  | some e => .err e
  | none => .nil

/-- The function `getAnalysis`, `n` requests having been handed to the client before. -/
def getAnalysis (w : World) (n : Nat) (sonar_token analysisId : Str) : Call SonarAnalysis :=
  match NewRequestWithContext w (analysisUrl analysisId) with
  | none => .panicked
  | some req0 =>
    let req := setAuthorization req0 sonar_token
    match w.roundTrip n req with
    | .failed e =>
      .returned [req] (.error ⟨"Error making the request, url:".toList,
        [.str (analysisUrl analysisId), .str "error".toList, .err e]⟩)
    | .response resp =>
      if resp.status ≠ 200 then
        .returned [req] (.error ⟨"error getting response from".toList,
          [.str (analysisUrl analysisId), .str " returned ".toList, .int resp.status,
           .str " response body ".toList, .bytes (bytesOf resp.body),
           .str "error".toList, errArg resp.bodyErr]⟩)
      else
        match DecodeAnalysis resp.body resp.bodyErr.isSome with
        | none =>
          .returned [req] (.error ⟨"error decoding report response for report".toList,
            [.str (analysisUrl analysisId), .str "error".toList, .decodeErr]⟩)
        | some analysisResponse => .returned [req] (.ok analysisResponse)

/-! ## `main` (lines 76 to 173) -/

/-- The value of `reportTaskFile` at line 100: `none` when the index expression
`os.Args[1]` is out of range (a run-time panic). -/
def reportTaskFile (args : List Str) : Option Str :=
  if args.length > 0 then args.get? 1 else some defaultReportTaskFile

/-- The function `main`. Writes to the log sink do not influence the run and are left
out. -/
def main (w : World) : Outcome :=
  if !w.logFileOpens then ⟨[], .exited 1, [LOG_FILE_LOCATION], []⟩
  else if w.sonarToken = [] then ⟨[], .exited 1, [LOG_FILE_LOCATION], []⟩
  else
    match reportTaskFile w.args with
    | none => ⟨[], .panicked, [LOG_FILE_LOCATION], []⟩
    | some path =>
      match w.openFile path with
      | none => ⟨[], .exited 0, [LOG_FILE_LOCATION, path], []⟩
      | some file =>
        let scan := scanFile file
        if scan.2 then ⟨[], .exited 1, [LOG_FILE_LOCATION, path], []⟩
        else if scan.1 = [] then
          ⟨"ceTaskUrl Key not found".toList, .exited 1, [LOG_FILE_LOCATION, path], []⟩
        else
          match getReport w 0 scan.1 w.sonarToken with
          | .panicked => ⟨[], .panicked, [LOG_FILE_LOCATION, path], []⟩
          | .returned reqs (.error _) => ⟨[], .exited 1, [LOG_FILE_LOCATION, path], reqs⟩
          | .returned reqs (.ok taskResponse) =>
            match getAnalysis w reqs.length w.sonarToken taskResponse.Task.AnalysisId with
            | .panicked => ⟨[], .panicked, [LOG_FILE_LOCATION, path], reqs⟩
            | .returned reqs2 (.error _) =>
              ⟨[], .exited 1, [LOG_FILE_LOCATION, path], reqs ++ reqs2⟩
            | .returned reqs2 (.ok analysis) =>
              ⟨Marshal ⟨taskResponse.Task, analysis.ProjectStatus⟩, .exited 0,
                [LOG_FILE_LOCATION, path], reqs ++ reqs2⟩

/-! ## Vocabulary for statements about pointer files -/

/-- A line that is not a comment and reads `key = value` with the trimmed key
`ceTaskUrl` and the given trimmed value, the key ending at the first `=`. -/
def hasKeyValue (line value : Str) : Prop :=
  line.head? ≠ some '#' ∧
    ∃ k v, line = k ++ '=' :: v ∧ '=' ∉ k ∧ TrimSpace k = ceTaskUrlKey ∧ TrimSpace v = value

/-- A line the scan passes over: a blank line, a line starting with `#`, or a
`key=value` line whose trimmed key is not `ceTaskUrl`. -/
def isPassedOver (line : Str) : Prop :=
  (∀ c ∈ line, isSpace c = true) ∨ line.head? = some '#' ∨
    ∃ k v, line = k ++ '=' :: v ∧ '=' ∉ k ∧ TrimSpace k ≠ ceTaskUrlKey

/-- The line `ws1 ceTaskUrl ws2 = ws3 url ws4`. -/
def pointerLine (ws1 ws2 ws3 url ws4 : Str) : Str :=
  ws1 ++ ceTaskUrlKey ++ ws2 ++ '=' :: (ws3 ++ url ++ ws4)

/-- The text of the given lines, each ended by `\n`. -/
def joinLines (ls : List Str) : Str :=
  ls.flatMap fun l => l ++ ['\n']

/-- The lines of a file as the scanner hands them out (without the size limit): the
pieces between the `\n` bytes, each without one trailing `\r`. -/
def fileLines (f : FileData) : List Str :=
  (rawLines f.content).map dropCR

/-! ## Concrete runs -/

/-- The task body of scenario A of the specification. -/
def taskBodyA : Str :=
  "\x7b\"task\":\x7b\"id\":\"1\",\"status\":\"SUCCESS\",\"analysisId\":\"A1\"\x7d\x7d".toList

/-- The analysis body of scenario A of the specification. -/
def analysisBodyA : Str :=
  ("\x7b\"projectStatus\":\x7b\"status\":\"OK\",\"conditions\":[],\"periods\":[]," ++
    "\"ignoredConditions\":false\x7d\x7d").toList

/-- The files of a world that holds one file. -/
def oneFile (path content : Str) : Str → Option FileData :=
  fun p => if p = path then some ⟨content, false⟩ else none

/-- Scenario A: the pointer file names the task URL, both endpoints answer 200. -/
def scenarioA : World where
  args := ["sonar-scan".toList, "report-task.txt".toList]
  logFileOpens := true
  sonarToken := "token".toList
  openFile := oneFile "report-task.txt".toList "ceTaskUrl=https://x/task?id=1\n".toList
  urlParses := fun _ => true
  roundTrip := fun n _ =>
    if n = 0 then .response ⟨200, taskBodyA, none⟩ else .response ⟨200, analysisBodyA, none⟩

/-- Scenario B: as scenario A, but the analysis endpoint answers 500 with the body
`oops`. -/
def scenarioB : World :=
  { scenarioA with
    roundTrip := fun n _ =>
      if n = 0 then .response ⟨200, taskBodyA, none⟩
      else .response ⟨500, "oops".toList, none⟩ }

/-- Scenario C: the pointer file does not exist. -/
def scenarioC : World :=
  { scenarioA with openFile := fun _ => none }

/-- A run without command-line argument: the argument vector holds the program name
only. The default pointer file exists. -/
def noArgument : World :=
  { scenarioA with
    args := ["sonar-scan".toList]
    openFile := oneFile defaultReportTaskFile "ceTaskUrl=https://x/task?id=1\n".toList }

/-- A run whose pointer file has no `ceTaskUrl` line. -/
def noKey : World :=
  { scenarioA with openFile := oneFile "report-task.txt".toList "projectKey=demo\n".toList }

/-- A run whose pointer file has an empty `ceTaskUrl` before a filled one. -/
def emptyThenFilled : World :=
  { scenarioA with
    openFile := oneFile "report-task.txt".toList
      "ceTaskUrl=\nceTaskUrl=https://x/task?id=1\n".toList }

/-- A run whose task URL holds a tab. -/
def tabInUrl : World :=
  { scenarioA with
    openFile := oneFile "report-task.txt".toList "ceTaskUrl=https://x/ta\tsk\n".toList }

/-- A run whose task endpoint answers 500 with the body `oops`. -/
def taskFails : World :=
  { scenarioA with roundTrip := fun _ _ => .response ⟨500, "oops".toList, none⟩ }

/-- Whether a text occurs inside another. -/
def occursIn (sub s : Str) : Bool :=
  (cut sub s).isSome

/-! ## The document written on success, as a JSON value -/

/-- The item of a string literal by which `quoteChar` writes a character: a `\uXXXX`
escape for the characters it writes in that form, else the character. -/
def unitOf (c : Char) : StrUnit :=
  if c = bslash ∨ c = dquote ∨ c = Char.ofNat 8 ∨ c = Char.ofNat 12 ∨ c = '\n' ∨ c = '\r' ∨
      c = '\t' then .chr c
  else if c.toNat < 0x20 ∨ c = '<' ∨ c = '>' ∨ c = '&' ∨ c.toNat = 0x2028 ∨ c.toNat = 0x2029 then
    .esc c.toNat
  else .chr c

/-- The JSON value of a slice: `null` for `nil`, else the array of its elements. -/
def sliceJson {α : Type} (f : α → Json) (s : Slice α) : Json :=
  if s.isNil then .null else .arr (s.elems.map f)

/-- The JSON value `json.Marshal` writes for a `SonarTask`. -/
def SonarTask.json (t : SonarTask) : Json :=
  .obj [("status".toList, .str t.Status), ("analysisId".toList, .str t.AnalysisId),
    ("componentId".toList, .str t.ComponentId), ("componentKey".toList, .str t.ComponentKey),
    ("componentName".toList, .str t.ComponentName), ("organization".toList, .str t.Organization),
    ("submittedAt".toList, .str t.SubmittedAt), ("submitterLogin".toList, .str t.SubmitterLogin),
    ("startedAt".toList, .str t.StartedAt), ("executedAt".toList, .str t.ExecutedAt)]

/-- The JSON value `json.Marshal` writes for a `Condition`. -/
def Condition.json (c : Condition) : Json :=
  .obj [("status".toList, .str c.Status), ("metricKey".toList, .str c.MetricKey),
    ("comparator".toList, .str c.Comparator), ("periodIndex".toList, .num (formatInt c.PeriodIndex)),
    ("errorThreshold".toList, .str c.ErrorThreshold), ("actualValue".toList, .str c.ActualValue)]

/-- The JSON value `json.Marshal` writes for a `Period`. -/
def Period.json (p : Period) : Json :=
  .obj [("index".toList, .num (formatInt p.Index)), ("mode".toList, .str p.Mode),
    ("date".toList, .str p.Date)]

/-- The JSON value `json.Marshal` writes for a `ProjectStatus`. -/
def ProjectStatus.json (s : ProjectStatus) : Json :=
  .obj [("status".toList, .str s.Status),
    ("conditions".toList, sliceJson Condition.json s.Conditions),
    ("periods".toList, sliceJson Period.json s.Periods),
    ("ignoredConditions".toList, .bool s.IgnoredConditions)]

/-- The JSON value `json.Marshal` writes for a `SonarResponse`. -/
def SonarResponse.json (r : SonarResponse) : Json :=
  .obj [("task".toList, r.Task.json), ("analysis".toList, r.Analysis.json)]

/-- A text that the scanner, inside an open container and before one of the bytes that
can follow a value there, reads as the given value. The number bounds the depth of the
containers the text opens. -/
def Scans (d : Nat) (txt : Str) (v : Json) : Prop :=
  ∀ (stk : List Frame) (c : Char) (cs : Str), stk ≠ [] →
    stk.length + d ≤ maxNestingDepth → (c = ',' ∨ c = '}' ∨ c = ']') →
    scanValue ⟨stk, .beginValue⟩ (txt ++ c :: cs) = scanValue (deliver stk v) (c :: cs)

/-! ## Reading a response document

What the structs hold after decoding, told from the JSON value of the response alone:
a field holds the value of the member that bears its JSON name (names compared without
regard to case), a list the elements of the array in the order of the array. The
unexported field `id` is no part of the reading. -/

/-- The value of the first member of an object whose name is the given JSON name, names
compared under case folding. -/
def member (name : String) : List (Str × Json) → Option Json
  | [] => none
  | (k, v) :: ms => if equalFold k name then some v else member name ms

/-- Whether no two members of an object have names that are equal under case folding. -/
def distinctNames : List (Str × Json) → Bool
  | [] => true
  | (k, _) :: ms =>
    !(ms.any fun m => m.1.map foldChar == k.map foldChar) && distinctNames ms

/-- The string under a name, empty when the member is missing or no string. -/
def readStr (name : String) (ms : List (Str × Json)) : Str :=
  match member name ms with
  | some (.str s) => s
  | _ => []

/-- The integer under a name, zero when the member is missing or no 64-bit integer. -/
def readInt (name : String) (ms : List (Str × Json)) : Int :=
  match member name ms with
  | some (.num lit) => (parseInt64 lit).getD 0
  | _ => 0

/-- The boolean under a name, false when the member is missing or no boolean. -/
def readBool (name : String) (ms : List (Str × Json)) : Bool :=
  match member name ms with
  | some (.bool b) => b
  | _ => false

/-- The list under a name: the elements of the array in their order, `nil` when the
member is missing or no array. -/
def readList {α : Type} (read : Json → α) (name : String) (ms : List (Str × Json)) : Slice α :=
  match member name ms with
  | some (.arr js) => ⟨false, js.map read, []⟩
  | _ => Slice.zero

/-- The task descriptor a task object stands for. -/
def readTask : Json → SonarTask
  | .obj ms =>
    { id := []
      Status := readStr "status" ms
      AnalysisId := readStr "analysisId" ms
      ComponentId := readStr "componentId" ms
      ComponentKey := readStr "componentKey" ms
      ComponentName := readStr "componentName" ms
      Organization := readStr "organization" ms
      SubmittedAt := readStr "submittedAt" ms
      SubmitterLogin := readStr "submitterLogin" ms
      StartedAt := readStr "startedAt" ms
      ExecutedAt := readStr "executedAt" ms }
  | _ => SonarTask.zero

/-- The condition a condition object stands for. -/
def readCondition : Json → Condition
  | .obj ms =>
    { Status := readStr "status" ms
      MetricKey := readStr "metricKey" ms
      Comparator := readStr "comparator" ms
      PeriodIndex := readInt "periodIndex" ms
      ErrorThreshold := readStr "errorThreshold" ms
      ActualValue := readStr "actualValue" ms }
  | _ => Condition.zero

/-- The period a period object stands for. -/
def readPeriod : Json → Period
  | .obj ms =>
    { Index := readInt "index" ms
      Mode := readStr "mode" ms
      Date := readStr "date" ms }
  | _ => Period.zero

/-- The quality-gate status a project-status object stands for. -/
def readProjectStatus : Json → ProjectStatus
  | .obj ms =>
    { Status := readStr "status" ms
      Conditions := readList readCondition "conditions" ms
      Periods := readList readPeriod "periods" ms
      IgnoredConditions := readBool "ignoredConditions" ms }
  | _ => ProjectStatus.zero

/-- The task response a task document stands for. -/
def readTaskResponse : Json → SonarTaskResponse
  | .obj ms =>
    match member "task" ms with
    | some v => ⟨readTask v⟩
    | none => ⟨SonarTask.zero⟩
  | _ => ⟨SonarTask.zero⟩

/-- The analysis an analysis document stands for. -/
def readAnalysis : Json → SonarAnalysis
  | .obj ms =>
    match member "projectStatus" ms with
    | some v => ⟨readProjectStatus v⟩
    | none => ⟨ProjectStatus.zero⟩
  | _ => ⟨ProjectStatus.zero⟩

/-- An object whose member names are pairwise distinct; any other value passes. -/
def plainObject : Json → Bool
  | .obj ms => distinctNames ms
  | _ => true

/-- The array under a name holds plain objects. -/
def plainItems (name : String) (ms : List (Str × Json)) : Bool :=
  match member name ms with
  | some (.arr js) => js.all plainObject
  | _ => true

/-- A project-status object without repeated member names, in itself and in the
elements of its two lists. -/
def plainProjectStatus : Json → Bool
  | .obj ms => distinctNames ms && plainItems "conditions" ms && plainItems "periods" ms
  | _ => true

/-- A task document without repeated member names, in itself and in its task object. -/
def plainTaskDoc : Json → Bool
  | .obj ms =>
    distinctNames ms &&
      match member "task" ms with
      | some v => plainObject v
      | none => true
  | _ => true

/-- An analysis document without repeated member names at any level. -/
def plainAnalysisDoc : Json → Bool
  | .obj ms =>
    distinctNames ms &&
      match member "projectStatus" ms with
      | some v => plainProjectStatus v
      | none => true
  | _ => true

/-! ## A run with a failed quality gate -/

/-- A task body whose members stand in another order than the fields of `SonarTask`,
with a member `type` that has no field. -/
def taskBodyF : Str :=
  ("\x7b\"task\":\x7b\"organization\":\"acme\",\"id\":\"AU-1\",\"type\":\"REPORT\"," ++
    "\"componentKey\":\"demo\",\"analysisId\":\"AX-2\",\"status\":\"SUCCESS\"\x7d\x7d").toList

/-- The JSON value of `taskBodyF`. -/
def taskDocF : Json :=
  .obj [("task".toList, .obj [("organization".toList, .str "acme".toList),
    ("id".toList, .str "AU-1".toList), ("type".toList, .str "REPORT".toList),
    ("componentKey".toList, .str "demo".toList), ("analysisId".toList, .str "AX-2".toList),
    ("status".toList, .str "SUCCESS".toList)])]

/-- An analysis body with two conditions and two periods, neither list sorted by any of
its fields; the second condition has no `periodIndex`. -/
def analysisBodyF : Str :=
  ("\x7b\"projectStatus\":\x7b\"status\":\"ERROR\",\"ignoredConditions\":true," ++
    "\"conditions\":[" ++
    "\x7b\"status\":\"ERROR\",\"metricKey\":\"new_coverage\",\"comparator\":\"LT\"," ++
    "\"periodIndex\":1,\"errorThreshold\":\"80\",\"actualValue\":\"42.5\"\x7d," ++
    "\x7b\"actualValue\":\"0\",\"status\":\"OK\",\"metricKey\":\"bugs\",\"comparator\":\"GT\"," ++
    "\"errorThreshold\":\"0\"\x7d]," ++
    "\"periods\":[" ++
    "\x7b\"index\":2,\"mode\":\"days\",\"date\":\"2024-02-01\"\x7d," ++
    "\x7b\"index\":1,\"mode\":\"previous_version\",\"date\":\"2024-01-01\"\x7d]\x7d\x7d").toList

/-- The JSON value of `analysisBodyF`. -/
def analysisDocF : Json :=
  .obj [("projectStatus".toList, .obj [("status".toList, .str "ERROR".toList),
    ("ignoredConditions".toList, .bool true),
    ("conditions".toList, .arr [
      .obj [("status".toList, .str "ERROR".toList), ("metricKey".toList, .str "new_coverage".toList),
        ("comparator".toList, .str "LT".toList), ("periodIndex".toList, .num "1".toList),
        ("errorThreshold".toList, .str "80".toList), ("actualValue".toList, .str "42.5".toList)],
      .obj [("actualValue".toList, .str "0".toList), ("status".toList, .str "OK".toList),
        ("metricKey".toList, .str "bugs".toList), ("comparator".toList, .str "GT".toList),
        ("errorThreshold".toList, .str "0".toList)]]),
    ("periods".toList, .arr [
      .obj [("index".toList, .num "2".toList), ("mode".toList, .str "days".toList),
        ("date".toList, .str "2024-02-01".toList)],
      .obj [("index".toList, .num "1".toList), ("mode".toList, .str "previous_version".toList),
        ("date".toList, .str "2024-01-01".toList)]])])]

/-- A run whose quality gate has failed: the task endpoint answers `taskBodyF` at the
URL of the pointer file, the analysis endpoint answers `analysisBodyF` at the URL of the
analysis `AX-2`, and any other request is answered 404. -/
def failedGate : World where
  args := ["sonar-scan".toList, "report-task.txt".toList]
  logFileOpens := true
  sonarToken := "token".toList
  openFile := oneFile "report-task.txt".toList "ceTaskUrl=https://x/task?id=7\n".toList
  urlParses := fun _ => true
  roundTrip := fun _ req =>
    if req.url = "https://x/task?id=7".toList then .response ⟨200, taskBodyF, none⟩
    else if req.url =
        "https://sonarcloud.io/api/qualitygates/project_status?analysisId=AX-2".toList then
      .response ⟨200, analysisBodyF, none⟩
    else .response ⟨404, [], none⟩

/-! ## Theorems -/

set_option maxRecDepth 100000

/-! ## Lemmas on the string functions -/

theorem cut_append_sep (c : Char) (a b : Str) (h : c ∉ a) :
    cut [c] (a ++ c :: b) = some (a, b) := by
  induction a with
  | nil => simp [cut, List.isPrefixOf]
  | cons x xs ih =>
    have hx : x ≠ c := fun e => h (by simp [e])
    have hxs : c ∉ xs := fun e => h (by simp [e])
    have hc : (c == x) = false := by simpa using fun e => hx e.symm
    simp [cut, List.isPrefixOf, hc, ih hxs]

theorem cut_eq_some (c : Char) (s a b : Str) (h : cut [c] s = some (a, b)) :
    s = a ++ c :: b ∧ c ∉ a := by
  induction s generalizing a with
  | nil => simp [cut] at h
  | cons x xs ih =>
    by_cases hc : c = x
    · subst hc
      simp [cut, List.isPrefixOf] at h
      obtain ⟨rfl, rfl⟩ := h
      simp
    · have hc2 : (c == x) = false := by simpa using hc
      simp only [cut, List.isPrefixOf, hc2, Bool.false_and] at h
      cases hr : cut [c] xs with
      | none => simp [hr] at h
      | some p =>
        obtain ⟨a2, b2⟩ := p
        simp [hr] at h
        obtain ⟨rfl, rfl⟩ := h
        obtain ⟨h1, h2⟩ := ih a2 hr
        refine ⟨by simp [h1], ?_⟩
        simp only [List.mem_cons, not_or]
        exact ⟨hc, h2⟩

theorem dropWhile_space_append (ws s : Str) (hws : ∀ c ∈ ws, isSpace c = true)
    (hs : ∀ c, s.head? = some c → isSpace c = false) :
    (ws ++ s).dropWhile isSpace = s := by
  rw [List.dropWhile_append_of_pos hws]
  cases s with
  | nil => rfl
  | cons x xs => simp [List.dropWhile, hs x rfl]

theorem TrimSpace_pad (ws1 s ws2 : Str) (h1 : ∀ c ∈ ws1, isSpace c = true)
    (h2 : ∀ c ∈ ws2, isSpace c = true) (hne : s ≠ [])
    (hh : ∀ c, s.head? = some c → isSpace c = false)
    (hl : ∀ c, s.getLast? = some c → isSpace c = false) :
    TrimSpace (ws1 ++ s ++ ws2) = s := by
  unfold TrimSpace
  rw [List.append_assoc, dropWhile_space_append ws1 (s ++ ws2) h1]
  · rw [List.reverse_append, dropWhile_space_append ws2.reverse s.reverse]
    · simp
    · intro c hc; exact h2 c (by simpa using hc)
    · intro c hc; exact hl c (by simpa using hc)
  · intro c hc
    cases s with
    | nil => exact absurd rfl hne
    | cons x xs => exact hh c (by simpa using hc)

theorem dropCR_append_cons (a v : Str) (c : Char) (hc : c ≠ '\r') :
    dropCR (a ++ c :: v) = a ++ c :: dropCR v := by
  unfold dropCR
  cases v with
  | nil =>
    have : (a ++ [c]).getLast? = some c := List.getLast?_concat a
    simp [this, hc]
  | cons d v2 =>
    have h1 : (a ++ c :: d :: v2).getLast? = (d :: v2).getLast? := by
      simp [List.getLast?_append, List.getLast?_cons_cons]
      cases h : (d :: v2).getLast? with
      | none => simp at h
      | some x => simp
    rw [h1]
    by_cases h : (d :: v2).getLast? = some '\r'
    · simp only [h, if_true]
      rw [List.dropLast_append_cons]
      simp [List.dropLast]
    · simp only [h, if_false]

theorem dropCR_all_space (ws : Str) (h : ∀ c ∈ ws, isSpace c = true) :
    ∀ c ∈ dropCR ws, isSpace c = true := by
  intro c hc
  unfold dropCR at hc
  split at hc
  · exact h c (List.mem_of_mem_dropLast hc)
  · exact h c hc

theorem rawLines_ne_nil (s : Str) : rawLines s ≠ [] := by
  induction s with
  | nil => simp [rawLines]
  | cons c cs ih =>
    unfold rawLines
    split
    · simp
    · split <;> simp

theorem rawLines_append_newline (l rest : Str) (h : '\n' ∉ l) :
    rawLines (l ++ '\n' :: rest) = l :: rawLines rest := by
  induction l with
  | nil => simp [rawLines]
  | cons x xs ih =>
    have hx : x ≠ '\n' := fun e => h (by simp [e])
    have hxs : '\n' ∉ xs := fun e => h (by simp [e])
    simp [rawLines, hx, ih hxs]

theorem rawLines_single (l : Str) (h : '\n' ∉ l) : rawLines l = [l] := by
  induction l with
  | nil => simp [rawLines]
  | cons x xs ih =>
    have hx : x ≠ '\n' := fun e => h (by simp [e])
    have hxs : '\n' ∉ xs := fun e => h (by simp [e])
    simp [rawLines, hx, ih hxs]

theorem byteLen_eq_zero (s : Str) : byteLen s = 0 ↔ s = [] := by
  cases s with
  | nil => simp [byteLen, bytesOf]
  | cons c cs =>
    simp only [byteLen, bytesOf, List.flatMap_cons, List.length_append, reduceCtorEq, iff_false]
    have : 0 < (utf8Bytes c).length := by
      unfold utf8Bytes
      simp only
      split_ifs <;> simp
    omega

theorem byteLen_replicate (n : Nat) : byteLen (List.replicate n '#') = n := by
  induction n with
  | zero => rfl
  | succ k ih =>
    have h : utf8Bytes '#' = [35] := by decide
    simp only [byteLen, bytesOf, List.replicate_succ, List.flatMap_cons, h] at ih ⊢
    simp [ih]

theorem lineStep_eq_some_iff (line v : Str) : lineStep line = some v ↔ hasKeyValue line v := by
  have eqs : "=".toList = ['='] := rfl
  have hash : "#".toList = ['#'] := rfl
  unfold lineStep hasKeyValue
  rw [eqs, hash]
  constructor
  · intro h
    cases line with
    | nil => simp [byteLen, bytesOf] at h
    | cons x xs =>
      have hb : (byteLen (x :: xs) == 0) = false := by
        simpa using (byteLen_eq_zero (x :: xs)).not.mpr (by simp)
      by_cases hx : x = '#'
      · subst hx; simp [HasPrefix, List.isPrefixOf] at h
      · have hp : HasPrefix (x :: xs) ['#'] = false := by
          simpa [HasPrefix, List.isPrefixOf] using fun e => hx e.symm
        simp only [hb, hp, Bool.or_self, Bool.false_eq_true, if_false] at h
        unfold SplitN2 at h
        cases hc : cut ['='] (x :: xs) with
        | none => simp [hc] at h
        | some p =>
          obtain ⟨k, v0⟩ := p
          simp only [hc] at h
          split_ifs at h with hk
          obtain ⟨h1, h2⟩ := cut_eq_some '=' (x :: xs) k v0 hc
          refine ⟨by simpa using hx, k, v0, h1, h2, hk, ?_⟩
          simpa using h
  · rintro ⟨hh, k, v0, rfl, hk, hkey, rfl⟩
    have hne : k ++ '=' :: v0 ≠ [] := by simp
    have hb : (byteLen (k ++ '=' :: v0) == 0) = false := by
      simpa using (byteLen_eq_zero _).not.mpr hne
    have hp : HasPrefix (k ++ '=' :: v0) ['#'] = false := by
      cases hk2 : k ++ '=' :: v0 with
      | nil => exact absurd hk2 hne
      | cons y ys =>
        rw [hk2] at hh
        simpa [HasPrefix, List.isPrefixOf] using fun (e : '#' = y) => hh (by simp [← e])
    have hc : cut ['='] (k ++ '=' :: v0) = some (k, v0) := cut_append_sep '=' k v0 hk
    simp only [hb, hp, Bool.or_self, Bool.false_eq_true, if_false, SplitN2, hc, hkey, if_true]

theorem lineStep_dropCR_passedOver (l : Str) (h : isPassedOver l) :
    lineStep (dropCR l) = none := by
  cases hs : lineStep (dropCR l) with
  | none => rfl
  | some v =>
    exfalso
    obtain ⟨hh, k, v0, he, hk, hkey, -⟩ := (lineStep_eq_some_iff _ _).mp hs
    rcases h with h | h | ⟨k2, v2, rfl, hk2, hkey2⟩
    · have hmem : '=' ∈ dropCR l := by rw [he]; simp
      have := dropCR_all_space l h '=' hmem
      exact absurd this (by decide)
    · obtain ⟨r, rfl⟩ := List.head?_eq_some_iff.mp h
      have := dropCR_append_cons [] r '#' (by decide)
      simp only [List.nil_append] at this
      rw [this] at hh
      simp at hh
    · rw [dropCR_append_cons k2 v2 '=' (by decide)] at he
      have c1 := cut_append_sep '=' k2 (dropCR v2) hk2
      rw [he, cut_append_sep '=' k v0 hk] at c1
      simp only [Option.some.injEq, Prod.mk.injEq] at c1
      exact hkey2 (c1.1 ▸ hkey)


theorem scanLoop_result (readErr : Bool) (ls : List Str) :
    (scanLoop readErr ls).2 = true ∨ (scanLoop readErr ls).1 = [] ∨
      (ls.map dropCR).findSome? lineStep = some (scanLoop readErr ls).1 := by
  induction ls with
  | nil => simp [scanLoop]
  | cons l rest ih =>
    unfold scanLoop
    by_cases hlen : MaxScanTokenSize ≤ byteLen l
    · simp [hlen]
    · simp only [hlen, if_false]
      cases rest with
      | nil =>
        by_cases hl : l = []
        · simp [hl]
        · simp only [hl, if_false]
          cases hs : lineStep (dropCR l) with
          | none => simp
          | some v => simp [List.findSome?, hs]
      | cons r rs =>
        cases hs : lineStep (dropCR l) with
        | none =>
          simp only
          rcases ih with h | h | h
          · exact Or.inl h
          · exact Or.inr (Or.inl h)
          · refine Or.inr (Or.inr ?_)
            rw [List.map_cons, List.findSome?_cons, hs]
            exact h
        | some v => simp [List.findSome?, hs]

theorem findSome_lineStep_of_key (f : FileData)
    (hkey : (∀ l ∈ fileLines f, ∀ v, ¬ hasKeyValue l v) ∨
      (∃ pre l post, fileLines f = pre ++ l :: post ∧
        (∀ p ∈ pre, ∀ v, ¬ hasKeyValue p v) ∧ hasKeyValue l [])) :
    (fileLines f).findSome? lineStep = none ∨ (fileLines f).findSome? lineStep = some [] := by
  have none_of : ∀ ls : List Str, (∀ l ∈ ls, ∀ v, ¬ hasKeyValue l v) →
      ls.findSome? lineStep = none := by
    intro ls h
    rw [List.findSome?_eq_none_iff]
    intro l hl
    cases hs : lineStep l with
    | none => rfl
    | some v => exact absurd ((lineStep_eq_some_iff l v).mp hs) (h l hl v)
  rcases hkey with h | ⟨pre, l, post, he, hpre, hl⟩
  · exact Or.inl (none_of _ h)
  · right
    rw [he, List.findSome?_append, none_of pre hpre, List.findSome?_cons,
      (lineStep_eq_some_iff l []).mpr hl]
    rfl

/-- C5: a pointer file without a `ceTaskUrl` line, or whose first `ceTaskUrl` line has an
empty value, makes the run end with exit code 1 and without any HTTP request. -/
theorem C5_missing_or_empty_key_fails (w : World) (path : Str) (f : FileData)
    (hlog : w.logFileOpens = true) (htok : w.sonarToken ≠ [])
    (hpath : reportTaskFile w.args = some path) (hopen : w.openFile path = some f)
    (hkey : (∀ l ∈ fileLines f, ∀ v, ¬ hasKeyValue l v) ∨
      (∃ pre l post, fileLines f = pre ++ l :: post ∧
        (∀ p ∈ pre, ∀ v, ¬ hasKeyValue p v) ∧ hasKeyValue l [])) :
    (main w).term = .exited 1 ∧ (main w).term.exitCode ≠ 0 ∧ (main w).requests = [] := by
  have hscan : (scanFile f).2 = true ∨ (scanFile f).1 = [] := by
    rcases scanLoop_result f.readErr (rawLines f.content) with h | h | h
    · exact Or.inl h
    · exact Or.inr h
    · right
      have hf := findSome_lineStep_of_key f hkey
      unfold fileLines at hf
      rw [h] at hf
      rcases hf with hf | hf
      · exact absurd hf (by simp)
      · exact (Option.some.inj hf)
  unfold main
  simp only [hlog, htok, hpath, hopen, Bool.not_true, Bool.false_eq_true, if_false]
  by_cases h2 : (scanFile f).2 = true
  · simp [h2, Termination.exitCode]
  · have h1 : (scanFile f).1 = [] := hscan.resolve_left h2
    simp [h2, h1, Termination.exitCode]

/-- Witness for C5: the first `ceTaskUrl` line has an empty value, a later one a URL. -/
theorem C5_missing_or_empty_key_fails_witness :
    fileLines ⟨"ceTaskUrl=\nceTaskUrl=https://x/task?id=1\n".toList, false⟩ =
        ["ceTaskUrl=".toList, "ceTaskUrl=https://x/task?id=1".toList, []] ∧
      (main emptyThenFilled).term = .exited 1 ∧ (main emptyThenFilled).requests = [] :=
  have h := C5_missing_or_empty_key_fails emptyThenFilled "report-task.txt".toList
    ⟨"ceTaskUrl=\nceTaskUrl=https://x/task?id=1\n".toList, false⟩ rfl (by decide) rfl rfl
    (Or.inr ⟨[], "ceTaskUrl=".toList, ["ceTaskUrl=https://x/task?id=1".toList, []],
      by decide, by simp,
      ⟨by decide, "ceTaskUrl".toList, [], rfl, by decide, by decide, by decide⟩⟩)
  ⟨by decide, h.1, h.2.2⟩

theorem scanLoop_passedOver (readErr : Bool) (pre : List Str) (more : Str)
    (hpre : ∀ l ∈ pre, isPassedOver l ∧ '\n' ∉ l ∧ byteLen l < MaxScanTokenSize) :
    scanLoop readErr (rawLines (joinLines pre ++ more)) = scanLoop readErr (rawLines more) := by
  induction pre with
  | nil => simp [joinLines]
  | cons l ls ih =>
    obtain ⟨hp, hn, hb⟩ := hpre l (by simp)
    have hrest : ∀ x ∈ ls, isPassedOver x ∧ '\n' ∉ x ∧ byteLen x < MaxScanTokenSize :=
      fun x hx => hpre x (by simp [hx])
    have e : joinLines (l :: ls) ++ more = l ++ '\n' :: (joinLines ls ++ more) := by
      simp [joinLines]
    rw [e, rawLines_append_newline l _ hn]
    obtain ⟨r, rs, hr⟩ := List.exists_cons_of_ne_nil (rawLines_ne_nil (joinLines ls ++ more))
    rw [← ih hrest, hr]
    rw [scanLoop]
    simp only [Nat.not_le.mpr hb, if_false, lineStep_dropCR_passedOver l hp]

theorem lineStep_pointerLine (ws1 ws2 ws3 ws4 url : Str)
    (hws : ∀ c ∈ ws1 ++ ws2 ++ ws3 ++ ws4, isSpace c = true)
    (hne : url ≠ []) (hhead : ∀ c, url.head? = some c → isSpace c = false)
    (hlast : ∀ c, url.getLast? = some c → isSpace c = false) :
    lineStep (dropCR (pointerLine ws1 ws2 ws3 url ws4)) = some url := by
  have h1 : ∀ c ∈ ws1, isSpace c = true := fun c hc => hws c (by simp [hc])
  have h2 : ∀ c ∈ ws2, isSpace c = true := fun c hc => hws c (by simp [hc])
  have h3 : ∀ c ∈ ws3, isSpace c = true := fun c hc => hws c (by simp [hc])
  have h4 : ∀ c ∈ ws4, isSpace c = true := fun c hc => hws c (by simp [hc])
  obtain ⟨u0, c, rfl⟩ : ∃ u0 c, url = u0 ++ [c] := by
    rcases List.eq_nil_or_concat url with h | ⟨L, b, h⟩
    · exact absurd h hne
    · exact ⟨L, b, by simpa using h⟩
  have hc : isSpace c = false := hlast c (List.getLast?_concat u0)
  have hcr : c ≠ '\r' := by
    intro e; rw [e] at hc; exact absurd hc (by decide)
  have e1 : dropCR (pointerLine ws1 ws2 ws3 (u0 ++ [c]) ws4) =
      (ws1 ++ ceTaskUrlKey ++ ws2) ++ '=' :: (ws3 ++ (u0 ++ [c]) ++ dropCR ws4) := by
    have : pointerLine ws1 ws2 ws3 (u0 ++ [c]) ws4 =
        (ws1 ++ ceTaskUrlKey ++ ws2 ++ '=' :: (ws3 ++ u0)) ++ c :: ws4 := by
      simp [pointerLine]
    rw [this, dropCR_append_cons _ ws4 c hcr]
    simp
  rw [e1, lineStep_eq_some_iff]
  refine ⟨?_, ws1 ++ ceTaskUrlKey ++ ws2, ws3 ++ (u0 ++ [c]) ++ dropCR ws4, rfl, ?_, ?_, ?_⟩
  · cases ws1 with
    | nil => simp [ceTaskUrlKey]
    | cons x xs =>
      have hx : isSpace x = true := h1 x (by simp)
      simp only [List.cons_append, List.head?_cons, ne_eq, Option.some.injEq]
      intro e; rw [e] at hx; exact absurd hx (by decide)
  · intro hmem
    simp only [List.mem_append] at hmem
    rcases hmem with (hm | hm) | hm
    · exact absurd (h1 _ hm) (by decide)
    · exact absurd hm (by decide)
    · exact absurd (h2 _ hm) (by decide)
  · exact TrimSpace_pad ws1 ceTaskUrlKey ws2 h1 h2 (by decide) (by decide) (by decide)
  · exact TrimSpace_pad ws3 (u0 ++ [c]) (dropCR ws4) h3 (dropCR_all_space ws4 h4) hne hhead hlast

theorem not_newline_mem_replicate (n : Nat) : '\n' ∉ List.replicate n '#' := by
  intro h
  exact absurd (List.eq_of_mem_replicate h) (by decide)

theorem head_replicate_succ (n : Nat) : (List.replicate (n + 1) '#').head? = some '#' := by
  rw [List.replicate_succ]
  rfl

theorem scanFile_long_comment (n : Nat) (hn : MaxScanTokenSize ≤ n) (more : Str)
    (readErr : Bool) :
    scanFile ⟨joinLines [List.replicate n '#'] ++ more, readErr⟩ = ([], true) := by
  have e : joinLines [List.replicate n '#'] ++ more = List.replicate n '#' ++ '\n' :: more := by
    simp [joinLines]
  unfold scanFile
  simp only
  rw [e, rawLines_append_newline _ _ (not_newline_mem_replicate n), scanLoop.eq_def]
  simp only [byteLen_replicate, hn, if_true]

/-- C4 (amended): when every line up to and including the `ceTaskUrl` line is shorter than
`MaxScanTokenSize` bytes, the scan records exactly the URL of that line, whatever blank
lines, comment lines and other `key=value` lines precede it and whatever follows it. -/
theorem C4_scan_records_url (pre : List Str) (ws1 ws2 ws3 ws4 url tail : Str) (readErr : Bool)
    (hpre : ∀ l ∈ pre, isPassedOver l ∧ '\n' ∉ l ∧ byteLen l < MaxScanTokenSize)
    (hws : ∀ c ∈ ws1 ++ ws2 ++ ws3 ++ ws4, isSpace c = true ∧ c ≠ '\n')
    (hne : url ≠ []) (hhead : ∀ c, url.head? = some c → isSpace c = false)
    (hlast : ∀ c, url.getLast? = some c → isSpace c = false) (hnl : '\n' ∉ url)
    (htail : tail = [] ∨ tail.head? = some '\n')
    (hlen : byteLen (pointerLine ws1 ws2 ws3 url ws4) < MaxScanTokenSize) :
    (scanFile ⟨joinLines pre ++ (pointerLine ws1 ws2 ws3 url ws4 ++ tail), readErr⟩).1 = url := by
  have hstep := lineStep_pointerLine ws1 ws2 ws3 ws4 url (fun c hc => (hws c hc).1) hne hhead hlast
  have hline : '\n' ∉ pointerLine ws1 ws2 ws3 url ws4 := by
    intro hmem
    simp only [pointerLine, List.mem_append, List.mem_cons] at hmem
    rcases hmem with ((hm | hm) | hm) | hm | (hm | hm) | hm
    · exact (hws _ (by simp [hm])).2 rfl
    · exact absurd hm (by decide)
    · exact (hws _ (by simp [hm])).2 rfl
    · exact absurd hm (by decide)
    · exact (hws _ (by simp [hm])).2 rfl
    · exact hnl hm
    · exact (hws _ (by simp [hm])).2 rfl
  have hnonempty : pointerLine ws1 ws2 ws3 url ws4 ≠ [] := by simp [pointerLine]
  unfold scanFile
  simp only
  rw [scanLoop_passedOver readErr pre _ hpre]
  rcases htail with rfl | ht
  · rw [List.append_nil, rawLines_single _ hline, scanLoop]
    simp only [Nat.not_le.mpr hlen, if_false, hnonempty, hstep]
  · obtain ⟨r, rfl⟩ := List.head?_eq_some_iff.mp ht
    rw [rawLines_append_newline _ r hline]
    obtain ⟨x, xs, hx⟩ := List.exists_cons_of_ne_nil (rawLines_ne_nil r)
    rw [hx, scanLoop]
    simp only [Nat.not_le.mpr hlen, if_false, hstep]

/-- C4 as stated fails: after a comment line of 65536 bytes the scan stops with
`ErrTooLong` and records nothing, although a well-formed `ceTaskUrl` line follows. -/
theorem C4_long_line_counterexample :
    isPassedOver (List.replicate 65536 '#') ∧ '\n' ∉ List.replicate 65536 '#' ∧
      scanFile ⟨joinLines [List.replicate 65536 '#'] ++
        pointerLine [] [] [] "https://x/task?id=1".toList [], false⟩ = ([], true) ∧
      (scanFile ⟨joinLines [List.replicate 65536 '#'] ++
        pointerLine [] [] [] "https://x/task?id=1".toList [], false⟩).1 ≠
        "https://x/task?id=1".toList := by
  have hs := scanFile_long_comment 65536 (by decide)
    (pointerLine [] [] [] "https://x/task?id=1".toList []) false
  refine ⟨Or.inr (Or.inl (head_replicate_succ 65535)), not_newline_mem_replicate 65536, hs, ?_⟩
  rw [hs]
  decide

/-- Witness for C4: a comment, a blank line and another key before the padded
`ceTaskUrl` line, a further line after it; the URL itself holds `=`. -/
theorem C4_scan_records_url_witness :
    (scanFile ⟨joinLines ["# produced by the scanner".toList, [], "projectKey=demo\r".toList] ++
      (pointerLine " ".toList "\t".toList " ".toList "https://x/task?id=1".toList " \r".toList ++
        "\nserverVersion=1".toList), false⟩).1 = "https://x/task?id=1".toList :=
  C4_scan_records_url ["# produced by the scanner".toList, [], "projectKey=demo\r".toList]
    " ".toList "\t".toList " ".toList " \r".toList "https://x/task?id=1".toList
    "\nserverVersion=1".toList false
    (by
      intro l hl
      simp only [List.mem_cons, List.mem_singleton, List.not_mem_nil, or_false] at hl
      rcases hl with rfl | rfl | rfl
      · exact ⟨Or.inr (Or.inl rfl), by decide, by decide⟩
      · exact ⟨Or.inl (by simp), by decide, by decide⟩
      · exact ⟨Or.inr (Or.inr ⟨"projectKey".toList, "demo\r".toList, rfl, by decide, by decide⟩),
          by decide, by decide⟩)
    (by decide) (by decide) (by decide) (by decide) (by decide) (Or.inr rfl) (by decide)

theorem analysisUrl_eq (analysisId : Str) :
    analysisUrl analysisId =
      "https://sonarcloud.io/api/qualitygates/project_status?analysisId=".toList ++ analysisId := by
  have h : cut "$analysisId".toList ANALYSIS_URL =
      some ("https://sonarcloud.io/api/qualitygates/project_status?analysisId=".toList, []) := by
    decide
  unfold analysisUrl Replace1
  rw [h]
  simp

theorem NewRequestWithContext_url (w : World) (url : Str) (req : Request)
    (h : NewRequestWithContext w url = some req) : req = ⟨url, []⟩ := by
  unfold NewRequestWithContext at h
  simp only at h
  split_ifs at h
  exact (Option.some.inj h).symm

theorem getAnalysis_requests (w : World) (n : Nat) (sonar_token analysisId : Str) :
    (getAnalysis w n sonar_token analysisId).requests =
      if (NewRequestWithContext w (analysisUrl analysisId)).isSome then
        [⟨analysisUrl analysisId, "Bearer ".toList ++ sonar_token⟩]
      else [] := by
  unfold getAnalysis
  cases h : NewRequestWithContext w (analysisUrl analysisId) with
  | none => simp [Call.requests]
  | some req0 =>
    have hr := NewRequestWithContext_url w _ req0 h
    subst hr
    simp only [Option.isSome_some, if_true, setAuthorization]
    cases w.roundTrip n _ with
    | failed e => rfl
    | response resp =>
      simp only
      split_ifs
      · rfl
      · cases DecodeAnalysis resp.body resp.bodyErr.isSome <;> rfl

/-- C9: the URL `getAnalysis` builds is the fixed prefix followed by the identifier
unchanged, also for the empty identifier and for one that holds the placeholder text; a
request `getAnalysis` hands to the client goes to that URL. -/
theorem C9_analysis_url (w : World) (n : Nat) (sonar_token analysisId : Str) :
    analysisUrl analysisId =
        "https://sonarcloud.io/api/qualitygates/project_status?analysisId=".toList ++ analysisId ∧
      analysisUrl [] =
        "https://sonarcloud.io/api/qualitygates/project_status?analysisId=".toList ∧
      analysisUrl "a$analysisId".toList =
        "https://sonarcloud.io/api/qualitygates/project_status?analysisId=a$analysisId".toList ∧
      (getAnalysis w n sonar_token analysisId).requests.map Request.url =
        if (NewRequestWithContext w (analysisUrl analysisId)).isSome then
          ["https://sonarcloud.io/api/qualitygates/project_status?analysisId=".toList ++ analysisId]
        else [] := by
  refine ⟨analysisUrl_eq analysisId, by rw [analysisUrl_eq]; rfl, by rw [analysisUrl_eq]; rfl, ?_⟩
  rw [getAnalysis_requests]
  split_ifs
  · simp [analysisUrl_eq]
  · rfl

theorem main_opened (w : World) (path : Str) (hlog : w.logFileOpens = true)
    (htok : w.sonarToken ≠ []) (hpath : reportTaskFile w.args = some path) :
    (main w).opened = [LOG_FILE_LOCATION, path] := by
  unfold main
  simp only [hlog, htok, hpath, Bool.not_true, Bool.false_eq_true, if_false]
  repeat' split
  all_goals rfl

/-- C8: with a first command-line argument `main` opens the file at that path; with the
program name alone in the argument vector the index expression `os.Args[1]` is out of
range, the run panics and the default path is never opened. -/
theorem C8_report_path (w : World) (hlog : w.logFileOpens = true) (htok : w.sonarToken ≠ []) :
    (∀ prog path rest, w.args = prog :: path :: rest →
        (main w).opened = [LOG_FILE_LOCATION, path]) ∧
      (∀ prog, w.args = [prog] →
        reportTaskFile w.args = none ∧ (main w).term = .panicked ∧
          (main w).opened = [LOG_FILE_LOCATION] ∧ defaultReportTaskFile ∉ (main w).opened) := by
  constructor
  · intro prog path rest h
    exact main_opened w path hlog htok (by simp [reportTaskFile, h])
  · intro prog h
    have hp : reportTaskFile w.args = none := by simp [reportTaskFile, h]
    have hm : main w = ⟨[], .panicked, [LOG_FILE_LOCATION], []⟩ := by
      unfold main
      simp only [hlog, htok, hp, Bool.not_true, Bool.false_eq_true, if_false]
    rw [hm]
    exact ⟨hp, rfl, rfl, by decide⟩

/-- Witness for C8: the run with the program name alone, the default pointer file being
there, panics and opens only the log file. -/
theorem C8_report_path_witness :
    noArgument.args = ["sonar-scan".toList] ∧
      (noArgument.openFile defaultReportTaskFile).isSome = true ∧
      (main noArgument).term = .panicked ∧ (main noArgument).term.exitCode = 2 ∧
      (main noArgument).opened = [LOG_FILE_LOCATION] :=
  have h := (C8_report_path noArgument rfl (by decide)).2 "sonar-scan".toList rfl
  ⟨rfl, by decide, h.2.1, by rw [h.2.1]; rfl, h.2.2.1⟩

/-- C3: when the pointer file cannot be opened, `main` returns: the run writes nothing
to standard output and hands no request to the client, but its exit code is 0. -/
theorem C3_open_failure_exit_code (w : World) (path : Str) (hlog : w.logFileOpens = true)
    (htok : w.sonarToken ≠ []) (hpath : reportTaskFile w.args = some path)
    (hopen : w.openFile path = none) :
    main w = ⟨[], .exited 0, [LOG_FILE_LOCATION, path], []⟩ ∧ (main w).term.exitCode = 0 := by
  have h : main w = ⟨[], .exited 0, [LOG_FILE_LOCATION, path], []⟩ := by
    unfold main
    simp only [hlog, htok, hpath, hopen, Bool.not_true, Bool.false_eq_true, if_false]
  rw [h]
  exact ⟨rfl, rfl⟩

/-- Witness for C3: scenario C, the pointer file is missing. -/
theorem C3_open_failure_exit_code_witness :
    scenarioC.openFile "report-task.txt".toList = none ∧
      (main scenarioC).stdout = [] ∧ (main scenarioC).requests = [] ∧
      (main scenarioC).term.exitCode = 0 :=
  have h := C3_open_failure_exit_code scenarioC "report-task.txt".toList rfl (by decide) rfl rfl
  ⟨rfl, by rw [h.1], by rw [h.1], h.2⟩

/-- C10: the error of `http.NewRequestWithContext` is not checked. When the request
cannot be built, `getReport` and `getAnalysis` do not return: the use of the nil request
panics, and so does the run of `main` that called them. -/
theorem C10_nil_request_panics (w : World) (n : Nat) (url sonar_token analysisId : Str) :
    (NewRequestWithContext w url = none → getReport w n url sonar_token = .panicked) ∧
      (NewRequestWithContext w (analysisUrl analysisId) = none →
        getAnalysis w n sonar_token analysisId = .panicked) ∧
      (∀ path f, w.logFileOpens = true → w.sonarToken ≠ [] →
        reportTaskFile w.args = some path → w.openFile path = some f →
        scanFile f = (url, false) → url ≠ [] → NewRequestWithContext w url = none →
        (main w).term = .panicked) := by
  refine ⟨?_, ?_, ?_⟩
  · intro h
    unfold getReport
    rw [h]
  · intro h
    unfold getAnalysis
    rw [h]
  · intro path f hlog htok hpath hopen hscan hurl hreq
    have hg : getReport w 0 url w.sonarToken = .panicked := by
      unfold getReport
      rw [hreq]
    unfold main
    simp only [hlog, htok, hpath, hopen, hscan, hurl, hg, Bool.not_true, Bool.false_eq_true,
      if_false]

/-- Witness for C10: a task URL with a tab in it. -/
theorem C10_nil_request_panics_witness :
    scanFile ⟨"ceTaskUrl=https://x/ta\tsk\n".toList, false⟩ = ("https://x/ta\tsk".toList, false) ∧
      NewRequestWithContext tabInUrl "https://x/ta\tsk".toList = none ∧
      getReport tabInUrl 0 "https://x/ta\tsk".toList "token".toList = .panicked ∧
      (main tabInUrl).term = .panicked :=
  have h := C10_nil_request_panics tabInUrl 0 "https://x/ta\tsk".toList "token".toList []
  ⟨by decide, by decide, h.1 (by decide),
    h.2.2 "report-task.txt".toList ⟨"ceTaskUrl=https://x/ta\tsk\n".toList, false⟩ rfl
      (by decide) rfl rfl (by decide) (by decide) (by decide)⟩


/-! ## The scanner on the text the encoder writes -/

theorem scanValue_step (stk : List Frame) (l : Lex) (c : Char) (cs : Str)
    (h1 : ∀ ns acc, l ≠ .inNum ns acc) (h2 : ∀ v, l ≠ .endTop v) (h3 : l ≠ .error) :
    scanValue ⟨stk, l⟩ (c :: cs) = scanValue (step ⟨stk, l⟩ c) cs := by
  cases l with
  | inNum ns acc => exact absurd rfl (h1 ns acc)
  | endTop v => exact absurd rfl (h2 v)
  | error => exact absurd rfl h3
  | _ => rfl

theorem scanValue_inString (stk : List Frame) (k : Bool) (acc : List StrUnit) (c : Char)
    (cs : Str) :
    scanValue ⟨stk, .inString k acc⟩ (c :: cs) = scanValue (step ⟨stk, .inString k acc⟩ c) cs :=
  rfl

theorem hexVal_hexDigit (k : Nat) (h : k < 16) : hexVal (hexDigit k) = some k := by
  interval_cases k <;> rfl

theorem char_eq_of_toNat (c : Char) (n : Nat) (h : c.toNat = n) : c = Char.ofNat n := by
  rw [← h, Char.ofNat_toNat]

theorem scanValue_inStringEsc (stk : List Frame) (k : Bool) (acc : List StrUnit) (c : Char)
    (cs : Str) :
    scanValue ⟨stk, .inStringEsc k acc⟩ (c :: cs) =
      scanValue (step ⟨stk, .inStringEsc k acc⟩ c) cs :=
  rfl

theorem scanValue_inStringEscU (stk : List Frame) (k : Bool) (acc : List StrUnit)
    (hex : List Nat) (c : Char) (cs : Str) :
    scanValue ⟨stk, .inStringEscU k acc hex⟩ (c :: cs) =
      scanValue (step ⟨stk, .inStringEscU k acc hex⟩ c) cs :=
  rfl

theorem scan_escU (stk : List Frame) (k : Bool) (acc : List StrUnit) (w x y z : Char)
    (a b c d : Nat) (rest : Str) (hw : hexVal w = some a) (hx : hexVal x = some b)
    (hy : hexVal y = some c) (hz : hexVal z = some d) :
    scanValue ⟨stk, .inStringEsc k acc⟩ ('u' :: w :: x :: y :: z :: rest) =
      scanValue ⟨stk, .inString k (.esc (((a * 16 + b) * 16 + c) * 16 + d) :: acc)⟩ rest := by
  simp only [scanValue_inStringEsc, scanValue_inStringEscU, step, if_true, hw, hx, hy, hz]

theorem unitOf_esc (c : Char)
    (h1 : ¬(c = bslash ∨ c = dquote ∨ c = Char.ofNat 8 ∨ c = Char.ofNat 12 ∨ c = '\n' ∨
      c = '\r' ∨ c = '\t'))
    (h2 : c.toNat < 0x20 ∨ c = '<' ∨ c = '>' ∨ c = '&' ∨ c.toNat = 0x2028 ∨ c.toNat = 0x2029) :
    unitOf c = .esc c.toNat := by
  unfold unitOf
  rw [if_neg h1, if_pos h2]

theorem unitOf_chr (c : Char)
    (h2 : ¬(c.toNat < 0x20 ∨ c = '<' ∨ c = '>' ∨ c = '&' ∨ c.toNat = 0x2028 ∨ c.toNat = 0x2029)) :
    unitOf c = .chr c := by
  unfold unitOf
  split
  · rfl
  · simp only [h2, if_false]

theorem scan_quoteChar (stk : List Frame) (k : Bool) (acc : List StrUnit) (c : Char)
    (rest : Str) :
    scanValue ⟨stk, .inString k acc⟩ (quoteChar c ++ rest) =
      scanValue ⟨stk, .inString k (unitOf c :: acc)⟩ rest := by
  by_cases h1 : c = bslash ∨ c = dquote
  · rcases h1 with rfl | rfl <;> rfl
  by_cases h2 : c = Char.ofNat 8
  · subst h2; rfl
  by_cases h3 : c = Char.ofNat 12
  · subst h3; rfl
  by_cases h4 : c = '\n'
  · subst h4; rfl
  by_cases h5 : c = '\r'
  · subst h5; rfl
  by_cases h6 : c = '\t'
  · subst h6; rfl
  have hn1 : ¬(c = bslash ∨ c = dquote ∨ c = Char.ofNat 8 ∨ c = Char.ofNat 12 ∨ c = '\n' ∨
      c = '\r' ∨ c = '\t') := by
    simp only [not_or] at h1 ⊢
    exact ⟨h1.1, h1.2, h2, h3, h4, h5, h6⟩
  unfold quoteChar
  rw [if_neg h1, if_neg h2, if_neg h3, if_neg h4, if_neg h5, if_neg h6]
  by_cases h7 : c.toNat < 0x20 ∨ c = '<' ∨ c = '>' ∨ c = '&'
  · have h7b : c.toNat < 0x20 ∨ c = '<' ∨ c = '>' ∨ c = '&' ∨ c.toNat = 0x2028 ∨
        c.toNat = 0x2029 := by
      rcases h7 with h | h | h | h
      · exact Or.inl h
      · exact Or.inr (Or.inl h)
      · exact Or.inr (Or.inr (Or.inl h))
      · exact Or.inr (Or.inr (Or.inr (Or.inl h)))
    rw [if_pos h7, unitOf_esc c hn1 h7b]
    have hlt : c.toNat < 64 := by
      rcases h7 with h | rfl | rfl | rfl
      · omega
      · decide
      · decide
      · decide
    have ha := hexVal_hexDigit (c.toNat / 16) (by omega)
    have hb := hexVal_hexDigit (c.toNat % 16) (by omega)
    have h0 : hexVal '0' = some 0 := rfl
    have hstep : scanValue ⟨stk, .inString k acc⟩ (bslash :: 'u' :: '0' :: '0' ::
        hexDigit (c.toNat / 16) :: hexDigit (c.toNat % 16) :: rest) =
        scanValue ⟨stk, .inStringEsc k acc⟩ ('u' :: '0' :: '0' ::
        hexDigit (c.toNat / 16) :: hexDigit (c.toNat % 16) :: rest) := rfl
    have hv : ((0 * 16 + 0) * 16 + c.toNat / 16) * 16 + c.toNat % 16 = c.toNat := by omega
    simp only [List.cons_append, List.nil_append]
    rw [hstep, scan_escU stk k acc _ _ _ _ 0 0 _ _ rest h0 h0 ha hb, hv]
  · rw [if_neg h7]
    by_cases h8 : c.toNat = 0x2028 ∨ c.toNat = 0x2029
    · have h8b : c.toNat < 0x20 ∨ c = '<' ∨ c = '>' ∨ c = '&' ∨ c.toNat = 0x2028 ∨
          c.toNat = 0x2029 := by
        rcases h8 with h | h
        · exact Or.inr (Or.inr (Or.inr (Or.inr (Or.inl h))))
        · exact Or.inr (Or.inr (Or.inr (Or.inr (Or.inr h))))
      rw [if_pos h8, unitOf_esc c hn1 h8b]
      have hb := hexVal_hexDigit (c.toNat % 16) (by omega)
      have h0 : hexVal '0' = some 0 := rfl
      have h2x : hexVal '2' = some 2 := rfl
      have hstep : scanValue ⟨stk, .inString k acc⟩ (bslash :: 'u' :: '2' :: '0' :: '2' ::
          hexDigit (c.toNat % 16) :: rest) =
          scanValue ⟨stk, .inStringEsc k acc⟩ ('u' :: '2' :: '0' :: '2' ::
          hexDigit (c.toNat % 16) :: rest) := rfl
      have hv : ((2 * 16 + 0) * 16 + 2) * 16 + c.toNat % 16 = c.toNat := by
        rcases h8 with h | h <;> omega
      simp only [List.cons_append, List.nil_append]
      rw [hstep, scan_escU stk k acc _ _ _ _ 2 0 2 _ rest h2x h0 h2x hb, hv]
    · have h8b : ¬(c.toNat < 0x20 ∨ c = '<' ∨ c = '>' ∨ c = '&' ∨ c.toNat = 0x2028 ∨
          c.toNat = 0x2029) := by
        simp only [not_or] at h7 h8 ⊢
        exact ⟨h7.1, h7.2.1, h7.2.2.1, h7.2.2.2, h8.1, h8.2⟩
      rw [if_neg h8, unitOf_chr c h8b]
      simp only [not_or] at h1 h7
      simp only [List.cons_append, List.nil_append, scanValue_inString, step, h1.1, h1.2, h7.1,
        if_false]

theorem scan_quoted (stk : List Frame) (k : Bool) (s : Str) (acc : List StrUnit) (rest : Str) :
    scanValue ⟨stk, .inString k acc⟩ (s.flatMap quoteChar ++ rest) =
      scanValue ⟨stk, .inString k ((s.map unitOf).reverse ++ acc)⟩ rest := by
  induction s generalizing acc with
  | nil => rfl
  | cons c cs ih =>
    rw [List.flatMap_cons, List.append_assoc, scan_quoteChar, ih]
    simp

theorem unitOf_not_surrogate (c : Char) (n : Nat) (h : unitOf c = .esc n) :
    n = c.toNat ∧ ¬(0xD800 ≤ n ∧ n < 0xE000) := by
  unfold unitOf at h
  split at h
  · exact absurd h (by simp)
  · split at h
    · rename_i h2
      simp only [StrUnit.esc.injEq] at h
      subst h
      refine ⟨rfl, ?_⟩
      rcases h2 with h | rfl | rfl | rfl | h | h
      · omega
      · decide
      · decide
      · decide
      · omega
      · omega
    · exact absurd h (by simp)

theorem unquote_units (s : Str) : unquote (s.map unitOf) = s := by
  unfold unquote
  induction s with
  | nil => rfl
  | cons c cs ih =>
    rw [List.map_cons]
    cases hu : unitOf c with
    | chr x =>
      have hx : x = c := by
        unfold unitOf at hu
        split at hu
        · exact (StrUnit.chr.inj hu).symm
        · split at hu
          · exact absurd hu (by simp)
          · exact (StrUnit.chr.inj hu).symm
      subst hx
      simp only [unquoteFrom, ih]
    | esc n =>
      obtain ⟨hn, hs⟩ := unitOf_not_surrogate c n hu
      have h1 : ¬(0xD800 ≤ n ∧ n < 0xDC00) := fun h => hs ⟨h.1, by omega⟩
      have h2 : escChar n = c := by
        unfold escChar isSurrogate
        have : (decide (0xD800 ≤ n) && decide (n < 0xE000)) = false := by
          simpa using fun h => Nat.not_lt.mp (fun h2 => hs ⟨h, h2⟩)
        rw [this, hn]
        simp [Char.ofNat_toNat]
      simp only [unquoteFrom, h1, if_false, h2, ih]

theorem scan_string (stk : List Frame) (s rest : Str) :
    scanValue ⟨stk, .beginValue⟩ (quote s ++ rest) = scanValue (deliver stk (.str s)) rest := by
  have h1 : scanValue ⟨stk, .beginValue⟩ (quote s ++ rest) =
      scanValue ⟨stk, .inString false []⟩ (s.flatMap quoteChar ++ dquote :: rest) := by
    simp only [quote, List.cons_append, List.append_assoc, List.singleton_append]
    rfl
  rw [h1, scan_quoted]
  have h2 : ∀ acc, scanValue ⟨stk, .inString false acc⟩ (dquote :: rest) =
      scanValue (deliver stk (.str (unquote acc.reverse))) rest := fun _ => rfl
  rw [h2]
  simp [unquote_units]

theorem scan_key (done : List (Str × Json)) (key0 : Str) (fs : List Frame) (l : Lex)
    (hl : l = .beginString ∨ l = .beginStringOrEmpty) (name rest : Str) :
    scanValue ⟨.obj done key0 :: fs, l⟩ (quote name ++ rest) =
      scanValue ⟨.obj done name :: fs, .endKey⟩ rest := by
  have h1 : scanValue ⟨.obj done key0 :: fs, l⟩ (quote name ++ rest) =
      scanValue ⟨.obj done key0 :: fs, .inString true []⟩
        (name.flatMap quoteChar ++ dquote :: rest) := by
    simp only [quote, List.cons_append, List.append_assoc, List.singleton_append]
    rcases hl with rfl | rfl <;> rfl
  rw [h1, scan_quoted]
  have h2 : ∀ acc, scanValue ⟨.obj done key0 :: fs, .inString true acc⟩ (dquote :: rest) =
      scanValue ⟨.obj done (unquote acc.reverse) :: fs, .endKey⟩ rest := fun _ => rfl
  rw [h2]
  simp [unquote_units]

theorem scans_quote (s : Str) : Scans 0 (quote s) (.str s) := by
  intro stk c cs _ _ _
  exact scan_string stk s (c :: cs)

theorem scans_bool (b : Bool) : Scans 0 (formatBool b) (.bool b) := by
  intro stk c cs _ _ _
  cases b <;> rfl

theorem scans_null : Scans 0 "null".toList .null := by
  intro stk c cs _ _ _
  rfl

theorem isDigit_digitChar (k : Nat) (h : k < 10) :
    isDigit (Nat.digitChar k) = true ∧ (Nat.digitChar k).toNat - 48 = k := by
  interval_cases k <;> exact ⟨rfl, rfl⟩

theorem toDigitsCore_spec (fuel : Nat) : ∀ (n : Nat) (ds : List Char), n < fuel →
    ∃ pre, Nat.toDigitsCore 10 fuel n ds = pre ++ ds ∧ pre ≠ [] ∧
      (∀ c ∈ pre, isDigit c = true) ∧ (pre.head? = some '0' → pre = ['0']) ∧
      pre.foldl (fun a c => a * 10 + (c.toNat - 48)) 0 = n := by
  induction fuel with
  | zero => intro n ds h; omega
  | succ fuel ih =>
    intro n ds h
    obtain ⟨hd, hv⟩ := isDigit_digitChar (n % 10) (Nat.mod_lt n (by decide))
    unfold Nat.toDigitsCore
    by_cases h0 : n / 10 = 0
    · simp only [h0, if_true]
      refine ⟨[Nat.digitChar (n % 10)], rfl, by simp, ?_, ?_, ?_⟩
      · intro c hc
        rw [List.mem_singleton.mp hc]
        exact hd
      · intro hh
        simp only [List.head?_cons, Option.some.injEq] at hh
        rw [hh]
      · simp only [List.foldl_cons, List.foldl_nil, hv]
        omega
    · simp only [h0, if_false]
      obtain ⟨pre, he, hne, hall, hzero, hval⟩ :=
        ih (n / 10) (Nat.digitChar (n % 10) :: ds) (by omega)
      refine ⟨pre ++ [Nat.digitChar (n % 10)], by rw [he]; simp, by simp, ?_, ?_, ?_⟩
      · intro c hc
        rcases List.mem_append.mp hc with hc | hc
        · exact hall c hc
        · rw [List.mem_singleton.mp hc]
          exact hd
      · intro hh
        exfalso
        obtain ⟨x, xs, rfl⟩ := List.exists_cons_of_ne_nil hne
        simp only [List.cons_append, List.head?_cons, Option.some.injEq] at hh
        have := hzero (by simp [hh])
        rw [this] at hval
        simp at hval
        exact h0 hval.symm
      · rw [List.foldl_append, hval]
        simp only [List.foldl_cons, List.foldl_nil, hv]
        omega

theorem decimal_spec (n : Nat) :
    ∃ d ds, decimal n = d :: ds ∧ isDigit d = true ∧ (∀ c ∈ ds, isDigit c = true) ∧
      (d = '0' → ds = []) ∧
      (d :: ds).foldl (fun a c => a * 10 + (c.toNat - 48)) 0 = n := by
  obtain ⟨pre, he, hne, hall, hzero, hval⟩ := toDigitsCore_spec (n + 1) n [] (by omega)
  obtain ⟨d, ds, rfl⟩ := List.exists_cons_of_ne_nil hne
  refine ⟨d, ds, by simpa [decimal, Nat.toDigits] using he, hall d (by simp),
    fun c hc => hall c (by simp [hc]), ?_, hval⟩
  intro hd
  have := hzero (by simp [hd])
  simp only [List.cons.injEq] at this
  exact this.2

theorem isDigit_cases (d : Char) (h : isDigit d = true) :
    d = '0' ∨ d = '1' ∨ d = '2' ∨ d = '3' ∨ d = '4' ∨ d = '5' ∨ d = '6' ∨ d = '7' ∨
      d = '8' ∨ d = '9' := by
  unfold isDigit at h
  simp only [Bool.and_eq_true, decide_eq_true_eq] at h
  have h1 : 48 ≤ d.toNat := h.1
  have h2 : d.toNat ≤ 57 := h.2
  have e := char_eq_of_toNat d d.toNat rfl
  generalize d.toNat = k at h1 h2 e
  subst e
  interval_cases k <;> simp

theorem scanValue_inNum_some (stk : List Frame) (ns ns2 : NumState) (acc : Str) (d : Char)
    (rest : Str) (h : numStep ns d = some ns2) :
    scanValue ⟨stk, .inNum ns acc⟩ (d :: rest) = scanValue ⟨stk, .inNum ns2 (d :: acc)⟩ rest := by
  simp only [scanValue, h]

theorem scan_number_end (f : Frame) (fs : List Frame) (ns : NumState) (acc : Str) (c : Char)
    (cs : Str) (hns : ns = .zero ∨ ns = .int) (hc : c = ',' ∨ c = '}' ∨ c = ']') :
    scanValue ⟨f :: fs, .inNum ns acc⟩ (c :: cs) =
      scanValue (deliver (f :: fs) (.num acc.reverse)) (c :: cs) := by
  rcases hns with rfl | rfl <;> rcases hc with rfl | rfl | rfl <;> cases f <;> rfl

theorem scan_digits (f : Frame) (fs : List Frame) (ds : Str)
    (hd : ∀ c ∈ ds, isDigit c = true) (acc : Str) (c : Char) (cs : Str)
    (hc : c = ',' ∨ c = '}' ∨ c = ']') :
    scanValue ⟨f :: fs, .inNum .int acc⟩ (ds ++ c :: cs) =
      scanValue (deliver (f :: fs) (.num (acc.reverse ++ ds))) (c :: cs) := by
  induction ds generalizing acc with
  | nil =>
    rw [List.nil_append, List.append_nil]
    exact scan_number_end f fs .int acc c cs (Or.inr rfl) hc
  | cons d ds ih =>
    have hdd : isDigit d = true := hd d (by simp)
    have hs : numStep .int d = some .int := by simp [numStep, hdd]
    rw [List.cons_append, scanValue_inNum_some _ _ _ _ _ _ hs,
      ih (fun x hx => hd x (by simp [hx]))]
    simp

theorem scan_decimal (f : Frame) (fs : List Frame) (n : Nat) (sign : Str) (c : Char) (cs : Str)
    (hc : c = ',' ∨ c = '}' ∨ c = ']') (ns : NumState)
    (hns : ∀ d, isDigit d = true →
      numStep ns d = some (if d = '0' then NumState.zero else NumState.int)) :
    scanValue ⟨f :: fs, .inNum ns sign⟩ (decimal n ++ c :: cs) =
      scanValue (deliver (f :: fs) (.num (sign.reverse ++ decimal n))) (c :: cs) := by
  obtain ⟨d, ds, he, hd, hds, hz, -⟩ := decimal_spec n
  rw [he, List.cons_append, scanValue_inNum_some _ _ _ _ _ _ (hns d hd)]
  by_cases h0 : d = '0'
  · rw [if_pos h0, hz h0, List.nil_append,
      scan_number_end f fs .zero _ c cs (Or.inl rfl) hc]
    simp
  · rw [if_neg h0, scan_digits f fs ds hds _ c cs hc]
    simp

theorem scans_int (i : Int) : Scans 0 (formatInt i) (.num (formatInt i)) := by
  intro stk c cs hstk _ hc
  obtain ⟨f, fs, rfl⟩ := List.exists_cons_of_ne_nil hstk
  cases i with
  | ofNat n =>
    simp only [formatInt]
    obtain ⟨d, ds, he, hd, hds, hz, -⟩ := decimal_spec n
    rw [he, List.cons_append]
    by_cases h0 : d = '0'
    · subst h0
      rw [hz rfl, List.nil_append]
      have h1 : scanValue ⟨f :: fs, .beginValue⟩ ('0' :: c :: cs) =
          scanValue ⟨f :: fs, .inNum .zero ['0']⟩ (c :: cs) := rfl
      rw [h1, scan_number_end f fs .zero _ c cs (Or.inl rfl) hc]
      rfl
    · have h1 : scanValue ⟨f :: fs, .beginValue⟩ (d :: (ds ++ c :: cs)) =
          scanValue ⟨f :: fs, .inNum .int [d]⟩ (ds ++ c :: cs) := by
        rcases isDigit_cases d hd with rfl | rfl | rfl | rfl | rfl | rfl | rfl | rfl | rfl | rfl
        · exact absurd rfl h0
        all_goals rfl
      rw [h1, scan_digits f fs ds hds _ c cs hc]
      rfl
  | negSucc n =>
    simp only [formatInt, List.cons_append]
    have h1 : scanValue ⟨f :: fs, .beginValue⟩ ('-' :: (decimal (n + 1) ++ c :: cs)) =
        scanValue ⟨f :: fs, .inNum .neg ['-']⟩ (decimal (n + 1) ++ c :: cs) := rfl
    rw [h1, scan_decimal f fs (n + 1) ['-'] c cs hc .neg]
    · rfl
    · intro d hd
      by_cases h0 : d = '0'
      · simp [numStep, h0]
      · simp [numStep, h0, hd]

theorem Scans.mono {d e : Nat} {txt : Str} {v : Json} (h : Scans d txt v) (hde : d ≤ e) :
    Scans e txt v := by
  intro stk c cs hstk hlen hc
  exact h stk c cs hstk (by omega) hc

theorem intercalate_single {α : Type} (sep x : List α) : List.intercalate sep [x] = x := by
  simp [List.intercalate, List.intersperse]

theorem intercalate_cons_cons {α : Type} (sep x y : List α) (ys : List (List α)) :
    List.intercalate sep (x :: y :: ys) = x ++ sep ++ List.intercalate sep (y :: ys) := by
  simp [List.intercalate, List.intersperse]

theorem scan_members (d : Nat) (ts : List (String × Str × Json))
    (hts : ∀ t ∈ ts, Scans d t.2.1 t.2.2) (hne : ts ≠ []) :
    ∀ (done : List (Str × Json)) (key0 : Str) (fs : List Frame) (l : Lex) (rest : Str),
      (l = .beginString ∨ l = .beginStringOrEmpty) → fs.length + 1 + d ≤ maxNestingDepth →
      scanValue ⟨.obj done key0 :: fs, l⟩
          (List.intercalate [','] (ts.map fun t => quote t.1.toList ++ ':' :: t.2.1) ++
            '}' :: rest) =
        scanValue (deliver fs (.obj (done.reverse ++ ts.map fun t => (t.1.toList, t.2.2)))) rest := by
  induction ts with
  | nil => exact absurd rfl hne
  | cons t ts ih =>
    intro done key0 fs l rest hl hdepth
    have ht : Scans d t.2.1 t.2.2 := hts t (by simp)
    have hcolon : ∀ xs, scanValue ⟨.obj done t.1.toList :: fs, .endKey⟩ (':' :: xs) =
        scanValue ⟨.obj done t.1.toList :: fs, .beginValue⟩ xs := fun _ => rfl
    have hdel : deliver (.obj done t.1.toList :: fs) t.2.2 =
        ⟨.obj ((t.1.toList, t.2.2) :: done) t.1.toList :: fs, .endValue⟩ := rfl
    have hlen : (Frame.obj done t.1.toList :: fs).length + d ≤ maxNestingDepth := by
      rw [List.length_cons]; exact hdepth
    cases ts with
    | nil =>
      have e1 : List.intercalate [','] ([t].map fun t => quote t.1.toList ++ ':' :: t.2.1) ++
          '}' :: rest = quote t.1.toList ++ (':' :: (t.2.1 ++ '}' :: rest)) := by
        simp only [List.map_cons, List.map_nil, intercalate_single, List.append_assoc,
          List.cons_append]
      have hclose : scanValue ⟨.obj ((t.1.toList, t.2.2) :: done) t.1.toList :: fs, .endValue⟩
          ('}' :: rest) =
          scanValue (deliver fs (.obj ((t.1.toList, t.2.2) :: done).reverse)) rest := rfl
      rw [e1, scan_key done key0 fs l hl, hcolon,
        ht (.obj done t.1.toList :: fs) '}' rest (List.cons_ne_nil _ _) hlen
          (Or.inr (Or.inl rfl)), hdel, hclose, List.reverse_cons]
      rfl
    | cons t2 ts2 =>
      have e1 : List.intercalate [','] ((t :: t2 :: ts2).map fun t =>
            quote t.1.toList ++ ':' :: t.2.1) ++ '}' :: rest =
          quote t.1.toList ++ (':' :: (t.2.1 ++ ',' ::
            (List.intercalate [','] ((t2 :: ts2).map fun t =>
              quote t.1.toList ++ ':' :: t.2.1) ++ '}' :: rest))) := by
        simp only [List.map_cons, intercalate_cons_cons, List.append_assoc, List.cons_append,
          List.singleton_append, List.nil_append]
      have hcomma : ∀ xs,
          scanValue ⟨.obj ((t.1.toList, t.2.2) :: done) t.1.toList :: fs, .endValue⟩ (',' :: xs) =
          scanValue ⟨.obj ((t.1.toList, t.2.2) :: done) t.1.toList :: fs, .beginString⟩ xs :=
        fun _ => rfl
      rw [e1, scan_key done key0 fs l hl, hcolon,
        ht (.obj done t.1.toList :: fs) ',' _ (List.cons_ne_nil _ _) hlen (Or.inl rfl), hdel,
        hcomma,
        ih (fun x hx => hts x (List.mem_cons_of_mem _ hx)) (List.cons_ne_nil _ _)
          ((t.1.toList, t.2.2) :: done) t.1.toList fs .beginString rest (Or.inl rfl) hdepth,
        List.reverse_cons, List.append_assoc]
      rfl

theorem scan_object (d : Nat) (ts : List (String × Str × Json))
    (hts : ∀ t ∈ ts, Scans d t.2.1 t.2.2) (hne : ts ≠ []) (stk : List Frame) (rest : Str)
    (hdepth : stk.length + 1 + d ≤ maxNestingDepth) :
    scanValue ⟨stk, .beginValue⟩ (encodeObject (ts.map fun t => (t.1, t.2.1)) ++ rest) =
      scanValue (deliver stk (.obj (ts.map fun t => (t.1.toList, t.2.2)))) rest := by
  have hpush : stk.length + 1 ≤ maxNestingDepth := by omega
  have h1 : ∀ xs, scanValue ⟨stk, .beginValue⟩ ('{' :: xs) =
      scanValue ⟨.obj [] [] :: stk, .beginStringOrEmpty⟩ xs := by
    intro xs
    have hs : step ⟨stk, .beginValue⟩ '{' = ⟨.obj [] [] :: stk, .beginStringOrEmpty⟩ := by
      show beginValue stk .beginValue '{' = _
      unfold beginValue
      rw [if_neg (by decide), if_pos rfl]
      unfold push
      rw [if_pos hpush]
    rw [scanValue_step stk .beginValue '{' xs (by intros; simp) (by intros; simp) (by simp), hs]
  have h2 := scan_members d ts hts hne [] [] stk .beginStringOrEmpty rest (Or.inr rfl) hdepth
  have e : encodeObject (ts.map fun t => (t.1, t.2.1)) ++ rest =
      '{' :: (List.intercalate [','] (ts.map fun t => quote t.1.toList ++ ':' :: t.2.1) ++
        '}' :: rest) := by
    simp only [encodeObject, List.map_map, List.cons_append, List.append_assoc,
      List.singleton_append]
    rfl
  rw [e, h1, h2]
  rfl

theorem scans_object (d : Nat) (ts : List (String × Str × Json))
    (hts : ∀ t ∈ ts, Scans d t.2.1 t.2.2) (hne : ts ≠ []) :
    Scans (d + 1) (encodeObject (ts.map fun t => (t.1, t.2.1)))
      (.obj (ts.map fun t => (t.1.toList, t.2.2))) := by
  intro stk c cs _ hlen _
  exact scan_object d ts hts hne stk (c :: cs) (by omega)

theorem scan_elems (d : Nat) (es : List (Str × Json)) (hes : ∀ e ∈ es, Scans d e.1 e.2)
    (hne : es ≠ []) :
    ∀ (done : List Json) (fs : List Frame) (rest : Str),
      fs.length + 1 + d ≤ maxNestingDepth →
      scanValue ⟨.arr done :: fs, .beginValue⟩
          (List.intercalate [','] (es.map Prod.fst) ++ ']' :: rest) =
        scanValue (deliver fs (.arr (done.reverse ++ es.map Prod.snd))) rest := by
  induction es with
  | nil => exact absurd rfl hne
  | cons e es ih =>
    intro done fs rest hdepth
    have he : Scans d e.1 e.2 := hes e (by simp)
    have hdel : deliver (.arr done :: fs) e.2 = ⟨.arr (e.2 :: done) :: fs, .endValue⟩ := rfl
    have hlen : (Frame.arr done :: fs).length + d ≤ maxNestingDepth := by
      rw [List.length_cons]; exact hdepth
    cases es with
    | nil =>
      have e1 : List.intercalate [','] ([e].map Prod.fst) ++ ']' :: rest =
          e.1 ++ ']' :: rest := by
        simp only [List.map_cons, List.map_nil, intercalate_single]
      have hclose : scanValue ⟨.arr (e.2 :: done) :: fs, .endValue⟩ (']' :: rest) =
          scanValue (deliver fs (.arr (e.2 :: done).reverse)) rest := rfl
      rw [e1, he (.arr done :: fs) ']' rest (List.cons_ne_nil _ _) hlen (Or.inr (Or.inr rfl)),
        hdel, hclose, List.reverse_cons]
      rfl
    | cons e2 es2 =>
      have e1 : List.intercalate [','] ((e :: e2 :: es2).map Prod.fst) ++ ']' :: rest =
          e.1 ++ ',' :: (List.intercalate [','] ((e2 :: es2).map Prod.fst) ++ ']' :: rest) := by
        simp only [List.map_cons, intercalate_cons_cons, List.append_assoc, List.cons_append,
          List.singleton_append, List.nil_append]
      have hcomma : ∀ xs, scanValue ⟨.arr (e.2 :: done) :: fs, .endValue⟩ (',' :: xs) =
          scanValue ⟨.arr (e.2 :: done) :: fs, .beginValue⟩ xs := fun _ => rfl
      rw [e1, he (.arr done :: fs) ',' _ (List.cons_ne_nil _ _) hlen (Or.inl rfl), hdel, hcomma,
        ih (fun x hx => hes x (List.mem_cons_of_mem _ hx)) (List.cons_ne_nil _ _)
          (e.2 :: done) fs rest hdepth,
        List.reverse_cons, List.append_assoc]
      rfl

theorem scans_slice {α : Type} (d : Nat) (enc : α → Str) (f : α → Json)
    (h : ∀ x, Scans d (enc x) (f x)) (hbrace : ∀ x, (enc x).head? = some '{') (s : Slice α) :
    Scans (d + 1) (encodeSlice enc s) (sliceJson f s) := by
  unfold encodeSlice sliceJson
  by_cases hnil : s.isNil = true
  · rw [if_pos hnil, if_pos hnil]
    exact scans_null.mono (Nat.zero_le _)
  · rw [if_neg hnil, if_neg hnil]
    intro stk c cs hstk hlen hc
    have hpush : stk.length + 1 ≤ maxNestingDepth := by omega
    have h1 : ∀ xs, scanValue ⟨stk, .beginValue⟩ ('[' :: xs) =
        scanValue ⟨.arr [] :: stk, .beginValueOrEmpty⟩ xs := by
      intro xs
      have hs : step ⟨stk, .beginValue⟩ '[' = ⟨.arr [] :: stk, .beginValueOrEmpty⟩ := by
        show beginValue stk .beginValue '[' = _
        unfold beginValue
        rw [if_neg (by decide), if_neg (by decide), if_pos rfl]
        unfold push
        rw [if_pos hpush]
      rw [scanValue_step stk .beginValue '[' xs (by intros; simp) (by intros; simp) (by simp), hs]
    show scanValue ⟨stk, .beginValue⟩
      ('[' :: ((List.intercalate [','] (s.elems.map enc) ++ [']']) ++ c :: cs)) = _
    rw [h1]
    cases hel : s.elems with
    | nil =>
      show scanValue ⟨.arr [] :: stk, .beginValueOrEmpty⟩ (']' :: c :: cs) = _
      rfl
    | cons x xs =>
      have hopen : ∀ ys, scanValue ⟨.arr [] :: stk, .beginValueOrEmpty⟩ ('{' :: ys) =
          scanValue ⟨.arr [] :: stk, .beginValue⟩ ('{' :: ys) := fun _ => rfl
      have hfirst : ∃ ys, List.intercalate [','] ((x :: xs).map enc) ++ [']'] ++ c :: cs =
          '{' :: ys := by
        obtain ⟨zs, hz⟩ := List.head?_eq_some_iff.mp (hbrace x)
        have htl : ∃ tl, List.intercalate [','] ((x :: xs).map enc) = enc x ++ tl := by
          cases xs with
          | nil => exact ⟨[], by rw [List.map_cons, List.map_nil, intercalate_single,
              List.append_nil]⟩
          | cons y ys => exact ⟨_, by rw [List.map_cons, List.map_cons, intercalate_cons_cons,
              List.append_assoc]⟩
        obtain ⟨tl, htl⟩ := htl
        exact ⟨zs ++ tl ++ [']'] ++ c :: cs, by
          rw [htl, hz]
          simp only [List.cons_append, List.append_assoc]⟩
      obtain ⟨ys, hys⟩ := hfirst
      have hsc := scan_elems d ((x :: xs).map fun a => (enc a, f a))
        (by
          intro e he
          obtain ⟨a, -, rfl⟩ := List.mem_map.mp he
          exact h a)
        (by simp) [] stk (c :: cs) (by omega)
      simp only [List.map_map, List.reverse_nil, List.nil_append] at hsc
      have hf : (Prod.fst ∘ fun a => (enc a, f a)) = enc := rfl
      have hg : (Prod.snd ∘ fun a => (enc a, f a)) = f := rfl
      rw [hf, hg] at hsc
      rw [hys, hopen, ← hys, List.append_assoc, List.singleton_append, hsc]

theorem head_encodeObject (ms : List (String × Str)) : (encodeObject ms).head? = some '{' := rfl

theorem scans_task (t : SonarTask) : Scans 1 (encodeObject t.members) t.json :=
  scans_object 0
    [("status", quote t.Status, .str t.Status), ("analysisId", quote t.AnalysisId, .str t.AnalysisId),
     ("componentId", quote t.ComponentId, .str t.ComponentId),
     ("componentKey", quote t.ComponentKey, .str t.ComponentKey),
     ("componentName", quote t.ComponentName, .str t.ComponentName),
     ("organization", quote t.Organization, .str t.Organization),
     ("submittedAt", quote t.SubmittedAt, .str t.SubmittedAt),
     ("submitterLogin", quote t.SubmitterLogin, .str t.SubmitterLogin),
     ("startedAt", quote t.StartedAt, .str t.StartedAt),
     ("executedAt", quote t.ExecutedAt, .str t.ExecutedAt)]
    (by
      intro x hx
      simp only [List.mem_cons, List.mem_singleton, List.not_mem_nil, or_false] at hx
      rcases hx with rfl | rfl | rfl | rfl | rfl | rfl | rfl | rfl | rfl | rfl <;>
        exact scans_quote _)
    (by simp)

theorem scans_condition (c : Condition) : Scans 1 (encodeObject c.members) c.json :=
  scans_object 0
    [("status", quote c.Status, .str c.Status), ("metricKey", quote c.MetricKey, .str c.MetricKey),
     ("comparator", quote c.Comparator, .str c.Comparator),
     ("periodIndex", formatInt c.PeriodIndex, .num (formatInt c.PeriodIndex)),
     ("errorThreshold", quote c.ErrorThreshold, .str c.ErrorThreshold),
     ("actualValue", quote c.ActualValue, .str c.ActualValue)]
    (by
      intro x hx
      simp only [List.mem_cons, List.mem_singleton, List.not_mem_nil, or_false] at hx
      rcases hx with rfl | rfl | rfl | rfl | rfl | rfl
      · exact scans_quote _
      · exact scans_quote _
      · exact scans_quote _
      · exact scans_int _
      · exact scans_quote _
      · exact scans_quote _)
    (by simp)

theorem scans_period (p : Period) : Scans 1 (encodeObject p.members) p.json :=
  scans_object 0
    [("index", formatInt p.Index, .num (formatInt p.Index)), ("mode", quote p.Mode, .str p.Mode),
     ("date", quote p.Date, .str p.Date)]
    (by
      intro x hx
      simp only [List.mem_cons, List.mem_singleton, List.not_mem_nil, or_false] at hx
      rcases hx with rfl | rfl | rfl
      · exact scans_int _
      · exact scans_quote _
      · exact scans_quote _)
    (by simp)

theorem scans_projectStatus (s : ProjectStatus) : Scans 3 (encodeObject s.members) s.json := by
  have h := scans_object 2
    [("status", quote s.Status, .str s.Status),
     ("conditions", encodeSlice (fun c => encodeObject c.members) s.Conditions,
        sliceJson Condition.json s.Conditions),
     ("periods", encodeSlice (fun p => encodeObject p.members) s.Periods,
        sliceJson Period.json s.Periods),
     ("ignoredConditions", formatBool s.IgnoredConditions, .bool s.IgnoredConditions)]
    (by
      intro x hx
      simp only [List.mem_cons, List.mem_singleton, List.not_mem_nil, or_false] at hx
      rcases hx with rfl | rfl | rfl | rfl
      · exact (scans_quote _).mono (by decide)
      · exact scans_slice 1 _ _ scans_condition (fun c => head_encodeObject _) _
      · exact scans_slice 1 _ _ scans_period (fun p => head_encodeObject _) _
      · exact (scans_bool _).mono (by decide))
    (by simp)
  simp only [List.map_cons, List.map_nil] at h
  exact h

theorem parsePrefix_Marshal (r : SonarResponse) : parsePrefix (Marshal r) = some (r.json, []) := by
  have h := scan_object 3
    [("task", encodeObject r.Task.members, r.Task.json),
     ("analysis", encodeObject r.Analysis.members, r.Analysis.json)]
    (by
      intro x hx
      simp only [List.mem_cons, List.mem_singleton, List.not_mem_nil, or_false] at hx
      rcases hx with rfl | rfl
      · exact (scans_task _).mono (by decide)
      · exact scans_projectStatus _)
    (by simp) [] [] (by decide)
  simp only [List.map_cons, List.map_nil, List.append_nil] at h
  exact h

theorem parseAll_Marshal (r : SonarResponse) : parseAll (Marshal r) = some r.json := by
  unfold parseAll
  rw [parsePrefix_Marshal]
  rfl

theorem SonarTask_setField_id (t : SonarTask) (k : Str) (v : Json) :
    (t.setField k v).1.id = t.id := by
  simp only [SonarTask.setField, apply_ite Prod.fst, apply_ite SonarTask.id, ite_self]

theorem decodeMembers_task_id (ms : List (Str × Json)) (t : SonarTask) :
    (decodeMembers SonarTask.setField ms t).1.id = t.id := by
  induction ms generalizing t with
  | nil => rfl
  | cons m ms ih =>
    obtain ⟨k, v⟩ := m
    simp only [decodeMembers]
    rw [ih, SonarTask_setField_id]

theorem decodeStruct_task_id (t : SonarTask) (j : Json) :
    (decodeStruct SonarTask.setField t j).1.id = t.id := by
  cases j <;> simp [decodeStruct, decodeMembers_task_id]

theorem decodeMembers_response_id (ms : List (Str × Json)) (r : SonarTaskResponse) :
    (decodeMembers SonarTaskResponse.setField ms r).1.Task.id = r.Task.id := by
  induction ms generalizing r with
  | nil => rfl
  | cons m ms ih =>
    obtain ⟨k, v⟩ := m
    simp only [decodeMembers]
    rw [ih]
    unfold SonarTaskResponse.setField
    split_ifs
    · exact decodeStruct_task_id r.Task v
    · rfl

theorem Unmarshal_id (body : Str) (tr : SonarTaskResponse)
    (h : UnmarshalTaskResponse body = some tr) : tr.Task.id = [] := by
  unfold UnmarshalTaskResponse at h
  cases hp : parseAll body with
  | none => simp [hp] at h
  | some j =>
    simp only [hp] at h
    split_ifs at h
    have e := Option.some.inj h
    rw [← e]
    cases j with
    | obj ms => exact decodeMembers_response_id ms _
    | _ => rfl

/-- C6: whatever the task body says under `id`, the `SonarTaskResponse` that `getReport`
decodes has an empty `id`, and the task object written by `json.Marshal` has no member
`id`: the field `id` of `SonarTask` is not exported, so `encoding/json` neither fills nor
emits it. -/
theorem C6_id_not_decoded (body : Str) (tr : SonarTaskResponse)
    (h : UnmarshalTaskResponse body = some tr) :
    tr.Task.id = [] ∧ (∀ t : SonarTask, "id" ∉ t.members.map Prod.fst) ∧
      (∀ t : SonarTask, ∃ ms, t.json = .obj ms ∧ "id".toList ∉ ms.map Prod.fst) ∧
      (∀ (r : SonarResponse) (x : Str),
        Marshal { r with Task := { r.Task with id := x } } = Marshal r) := by
  refine ⟨Unmarshal_id body tr h, ?_, ?_, ?_⟩
  · intro t
    simp [SonarTask.members]
  · intro t
    refine ⟨_, rfl, ?_⟩
    simp only [List.map_cons, List.map_nil]
    decide
  · intro r x
    rfl

/-- Witness for C6: the task body of scenario A carries `"id":"1"`; the decoded
descriptor has the status and the analysis identifier of the body and an empty `id`. -/
theorem C6_id_not_decoded_witness :
    UnmarshalTaskResponse taskBodyA =
        some ⟨{ SonarTask.zero with Status := "SUCCESS".toList, AnalysisId := "A1".toList }⟩ ∧
      ({ SonarTask.zero with Status := "SUCCESS".toList, AnalysisId := "A1".toList } :
        SonarTask).id = [] ∧
      ({ SonarTask.zero with Status := "SUCCESS".toList, AnalysisId := "A1".toList } :
        SonarTask).id ≠ "1".toList :=
  have hd : UnmarshalTaskResponse taskBodyA =
      some ⟨{ SonarTask.zero with Status := "SUCCESS".toList, AnalysisId := "A1".toList }⟩ := by
    decide
  ⟨hd, (C6_id_not_decoded taskBodyA _ hd).1, by decide⟩

theorem formatInt_natCast (n : Nat) : formatInt (n : Int) = decimal n := rfl

/-- C7: for a response whose status is not 200 and whose body was read in full,
`getReport` and `getAnalysis` return an error and no decoded value, whatever the body.
The text of the error holds the URL and the status code in decimal; the body is in it as
the list of its bytes in decimal, not as its text. -/
theorem C7_non200_error (w : World) (n : Nat) (url sonar_token analysisId : Str)
    (resp : Response) (hst : resp.status ≠ 200) (hbody : resp.bodyErr = none) :
    (∀ req0, NewRequestWithContext w url = some req0 →
        w.roundTrip n (setAuthorization req0 sonar_token) = .response resp →
        ∃ e, getReport w n url sonar_token =
            .returned [setAuthorization req0 sonar_token] (.error e) ∧
          e.Error = some ("getReport error getting response from%!(EXTRA string=".toList ++ url ++
            ", string= returned , int=".toList ++ decimal resp.status ++
            ", string= response body , []uint8=[".toList ++
            List.intercalate [' '] ((bytesOf resp.body).map decimal) ++ "])".toList)) ∧
      (∀ req0, NewRequestWithContext w (analysisUrl analysisId) = some req0 →
        w.roundTrip n (setAuthorization req0 sonar_token) = .response resp →
        ∃ e, getAnalysis w n sonar_token analysisId =
            .returned [setAuthorization req0 sonar_token] (.error e) ∧
          e.Error = some ("error getting response from%!(EXTRA string=".toList ++
            analysisUrl analysisId ++
            ", string= returned , int=".toList ++ decimal resp.status ++
            ", string= response body , []uint8=[".toList ++
            List.intercalate [' '] ((bytesOf resp.body).map decimal) ++
            "], string=error, <nil>)".toList)) := by
  constructor
  · intro req0 hreq hrt
    unfold getReport
    simp only [hreq, hrt, hbody, hst, ne_eq, not_false_eq_true, if_true]
    refine ⟨_, rfl, ?_⟩
    simp [GoError.Error, extras, Arg.extra, formatInt_natCast, List.intercalate]
  · intro req0 hreq hrt
    unfold getAnalysis
    simp only [hreq, hrt, hbody, hst, ne_eq, not_false_eq_true, if_true]
    refine ⟨_, rfl, ?_⟩
    simp [GoError.Error, extras, Arg.extra, errArg, formatInt_natCast, List.intercalate]

/-- Witness for C7: the task endpoint answers 500 with the body `oops`. The error text
holds the URL and `500`; of the body it holds `111 111 112 115`, and `oops` does not occur
in it. -/
theorem C7_non200_error_witness :
    ∃ e, getReport taskFails 0 "https://x/task?id=1".toList "token".toList =
        .returned [⟨"https://x/task?id=1".toList, "Bearer token".toList⟩] (.error e) ∧
      e.Error = some ("getReport error getting response from%!(EXTRA string=https://x/task?id=1" ++
        ", string= returned , int=500, string= response body , []uint8=[111 111 112 115])").toList ∧
      occursIn "https://x/task?id=1".toList (e.Error.getD []) = true ∧
      occursIn "500".toList (e.Error.getD []) = true ∧
      occursIn "oops".toList (e.Error.getD []) = false := by
  obtain ⟨e, h1, h2⟩ := (C7_non200_error taskFails 0 "https://x/task?id=1".toList "token".toList []
    ⟨500, "oops".toList, none⟩ (by decide) rfl).1 ⟨"https://x/task?id=1".toList, []⟩
    (by decide) (by decide)
  have h3 : e.Error = some ("getReport error getting response from%!(EXTRA string=https://x/task?id=1" ++
      ", string= returned , int=500, string= response body , []uint8=[111 111 112 115])").toList := by
    rw [h2]
    decide
  refine ⟨e, h1, h3, ?_, ?_, ?_⟩ <;> rw [h3] <;> decide

theorem main_of_scan (w : World) (path : Str) (f : FileData) (hlog : w.logFileOpens = true)
    (htok : w.sonarToken ≠ []) (hpath : reportTaskFile w.args = some path)
    (hopen : w.openFile path = some f) (herr : (scanFile f).2 = false)
    (hurl : (scanFile f).1 ≠ []) :
    main w =
      match getReport w 0 (scanFile f).1 w.sonarToken with
      | .panicked => ⟨[], .panicked, [LOG_FILE_LOCATION, path], []⟩
      | .returned reqs (.error _) => ⟨[], .exited 1, [LOG_FILE_LOCATION, path], reqs⟩
      | .returned reqs (.ok taskResponse) =>
        match getAnalysis w reqs.length w.sonarToken taskResponse.Task.AnalysisId with
        | .panicked => ⟨[], .panicked, [LOG_FILE_LOCATION, path], reqs⟩
        | .returned reqs2 (.error _) =>
          ⟨[], .exited 1, [LOG_FILE_LOCATION, path], reqs ++ reqs2⟩
        | .returned reqs2 (.ok analysis) =>
          ⟨Marshal ⟨taskResponse.Task, analysis.ProjectStatus⟩, .exited 0,
            [LOG_FILE_LOCATION, path], reqs ++ reqs2⟩ := by
  unfold main
  simp only [hlog, htok, hpath, hopen, herr, hurl, Bool.not_true, Bool.false_eq_true, if_false]

/-- C2 (amended): standard output is empty, or holds the text `ceTaskUrl Key not found`
(exit code 1, no request; the pointer file was read without error and gave no value), or
holds the JSON encoding of the response, one complete JSON document (exit code 0). A run
with a non-zero exit code has written nothing or that text. -/
theorem C2_stdout_on_failure (w : World) :
    ((main w).stdout = [] ∨
      ((main w).stdout = "ceTaskUrl Key not found".toList ∧ (main w).term = .exited 1 ∧
        (main w).requests = [] ∧
        ∃ path f, reportTaskFile w.args = some path ∧ w.openFile path = some f ∧
          scanFile f = ([], false)) ∨
      ∃ r : SonarResponse, (main w).stdout = Marshal r ∧
        parseAll (main w).stdout = some r.json ∧ (main w).term = .exited 0) ∧
    ((main w).term.exitCode ≠ 0 →
      (main w).stdout = [] ∨ (main w).stdout = "ceTaskUrl Key not found".toList) := by
  have key : (main w).stdout = [] ∨
      ((main w).stdout = "ceTaskUrl Key not found".toList ∧ (main w).term = .exited 1 ∧
        (main w).requests = [] ∧
        ∃ path f, reportTaskFile w.args = some path ∧ w.openFile path = some f ∧
          scanFile f = ([], false)) ∨
      ∃ r : SonarResponse, (main w).stdout = Marshal r ∧
        parseAll (main w).stdout = some r.json ∧ (main w).term = .exited 0 := by
    by_cases hlog : w.logFileOpens = true
    swap
    · left; unfold main; simp [hlog]
    by_cases htok : w.sonarToken = []
    · left; unfold main; simp [hlog, htok]
    cases hpath : reportTaskFile w.args with
    | none => left; unfold main; simp [hlog, htok, hpath]
    | some path =>
      cases hopen : w.openFile path with
      | none => left; unfold main; simp [hlog, htok, hpath, hopen]
      | some f =>
        by_cases herr : (scanFile f).2 = true
        · left; unfold main; simp [hlog, htok, hpath, hopen, herr]
        · have herr2 : (scanFile f).2 = false := by simpa using herr
          by_cases hurl : (scanFile f).1 = []
          · right; left
            have hm : main w = ⟨"ceTaskUrl Key not found".toList, .exited 1,
                [LOG_FILE_LOCATION, path], []⟩ := by
              unfold main
              simp only [hlog, htok, hpath, hopen, herr2, hurl, Bool.not_true,
                Bool.false_eq_true, if_false, if_true]
            rw [hm]
            exact ⟨rfl, rfl, rfl, path, f, rfl, hopen, Prod.ext hurl herr2⟩
          · rw [main_of_scan w path f hlog htok hpath hopen herr2 hurl]
            cases getReport w 0 (scanFile f).1 w.sonarToken with
            | panicked => left; rfl
            | returned reqs res =>
              cases res with
              | error e => left; rfl
              | ok tr =>
                simp only
                cases getAnalysis w reqs.length w.sonarToken tr.Task.AnalysisId with
                | panicked => left; rfl
                | returned reqs2 res2 =>
                  cases res2 with
                  | error e => left; rfl
                  | ok an => right; right; exact ⟨_, rfl, parseAll_Marshal _, rfl⟩
  refine ⟨key, ?_⟩
  intro hcode
  rcases key with h | h | ⟨r, -, -, h⟩
  · exact Or.inl h
  · exact Or.inr h.1
  · rw [h] at hcode
    exact absurd rfl hcode

/-- C2 as stated fails: when the pointer file has no `ceTaskUrl` line the run ends with
exit code 1 and has written the text `ceTaskUrl Key not found`, which is no JSON document,
to standard output. -/
theorem C2_not_found_counterexample :
    (main noKey).term.exitCode = 1 ∧
      (main noKey).stdout = "ceTaskUrl Key not found".toList ∧
      (main noKey).stdout ≠ [] ∧ (parseAll (main noKey).stdout).isSome = false := by
  decide

/-- Witness for C2: scenario B, the analysis endpoint answers 500; the exit code is 1 and
nothing is written. -/
theorem C2_stdout_on_failure_witness :
    (main scenarioB).term.exitCode ≠ 0 ∧
      ((main scenarioB).stdout = [] ∨
        (main scenarioB).stdout = "ceTaskUrl Key not found".toList) ∧
      (main scenarioB).stdout = [] :=
  ⟨by decide, (C2_stdout_on_failure scenarioB).2 (by decide), by decide⟩

/-! ## Decoding against the reading of the document -/

theorem equalFold_excl (k : Str) (a b : String)
    (hab : a.toList.map foldChar ≠ b.toList.map foldChar) (h : equalFold k a = true) :
    equalFold k b = false := by
  unfold equalFold at h ⊢
  have e : k.map foldChar = a.toList.map foldChar := by simpa using h
  rw [e]
  simpa using hab

theorem member_eq_none (nm : String) (ms : List (Str × Json))
    (h : ∀ m ∈ ms, equalFold m.1 nm = false) : member nm ms = none := by
  induction ms with
  | nil => rfl
  | cons m ms ih =>
    obtain ⟨k, v⟩ := m
    have hk : equalFold k nm = false := h (k, v) (by simp)
    simp only [member, hk, Bool.false_eq_true, if_false]
    exact ih fun x hx => h x (by simp [hx])

theorem decodeMembers_field {α β : Type} (set : α → Str → Json → α × Bool) (π : α → β)
    (nm : String) (dec : β → Json → β × Bool)
    (hset : ∀ t k v,
      π (set t k v).1 = if equalFold k nm = true then (dec (π t) v).1 else π t) :
    ∀ (ms : List (Str × Json)) (t : α), distinctNames ms = true →
      π (decodeMembers set ms t).1 =
        match member nm ms with
        | some v => (dec (π t) v).1
        | none => π t := by
  intro ms
  induction ms with
  | nil => intro t _; rfl
  | cons m ms ih =>
    intro t hd
    obtain ⟨k, v⟩ := m
    simp only [distinctNames, Bool.and_eq_true, Bool.not_eq_true', List.any_eq_false,
      beq_iff_eq] at hd
    obtain ⟨hk, hrest⟩ := hd
    simp only [decodeMembers]
    rw [ih _ hrest, hset]
    by_cases hm : equalFold k nm = true
    · have hnone : member nm ms = none := by
        apply member_eq_none
        intro x hx
        cases hx2 : equalFold x.1 nm with
        | false => rfl
        | true =>
          exfalso
          unfold equalFold at hm hx2
          have e1 : k.map foldChar = nm.toList.map foldChar := by simpa using hm
          have e2 : x.1.map foldChar = nm.toList.map foldChar := by simpa using hx2
          exact hk x hx (e2.trans e1.symm)
      simp only [member, hm, if_true, hnone]
    · simp only [member, hm, Bool.false_eq_true, if_false]

theorem SonarTask_setField_Status (t : SonarTask) (k : Str) (v : Json) :
    (t.setField k v).1.Status =
      if equalFold k "status" = true then (decodeString t.Status v).1 else t.Status := by
  by_cases h : equalFold k "status" = true
  · have e0 : equalFold k "analysisId" = false :=
      equalFold_excl k "status" "analysisId" (by decide) h
    have e1 : equalFold k "componentId" = false :=
      equalFold_excl k "status" "componentId" (by decide) h
    have e2 : equalFold k "componentKey" = false :=
      equalFold_excl k "status" "componentKey" (by decide) h
    have e3 : equalFold k "componentName" = false :=
      equalFold_excl k "status" "componentName" (by decide) h
    have e4 : equalFold k "organization" = false :=
      equalFold_excl k "status" "organization" (by decide) h
    have e5 : equalFold k "submittedAt" = false :=
      equalFold_excl k "status" "submittedAt" (by decide) h
    have e6 : equalFold k "submitterLogin" = false :=
      equalFold_excl k "status" "submitterLogin" (by decide) h
    have e7 : equalFold k "startedAt" = false :=
      equalFold_excl k "status" "startedAt" (by decide) h
    have e8 : equalFold k "executedAt" = false :=
      equalFold_excl k "status" "executedAt" (by decide) h
    simp only [SonarTask.setField, h, e0, e1, e2, e3, e4, e5, e6, e7, e8, if_true, Bool.false_eq_true, if_false]
  · simp only [SonarTask.setField, apply_ite Prod.fst, apply_ite SonarTask.Status, h, Bool.false_eq_true, if_false, ite_self]

theorem SonarTask_setField_AnalysisId (t : SonarTask) (k : Str) (v : Json) :
    (t.setField k v).1.AnalysisId =
      if equalFold k "analysisId" = true then (decodeString t.AnalysisId v).1 else t.AnalysisId := by
  by_cases h : equalFold k "analysisId" = true
  · have e0 : equalFold k "status" = false :=
      equalFold_excl k "analysisId" "status" (by decide) h
    have e1 : equalFold k "componentId" = false :=
      equalFold_excl k "analysisId" "componentId" (by decide) h
    have e2 : equalFold k "componentKey" = false :=
      equalFold_excl k "analysisId" "componentKey" (by decide) h
    have e3 : equalFold k "componentName" = false :=
      equalFold_excl k "analysisId" "componentName" (by decide) h
    have e4 : equalFold k "organization" = false :=
      equalFold_excl k "analysisId" "organization" (by decide) h
    have e5 : equalFold k "submittedAt" = false :=
      equalFold_excl k "analysisId" "submittedAt" (by decide) h
    have e6 : equalFold k "submitterLogin" = false :=
      equalFold_excl k "analysisId" "submitterLogin" (by decide) h
    have e7 : equalFold k "startedAt" = false :=
      equalFold_excl k "analysisId" "startedAt" (by decide) h
    have e8 : equalFold k "executedAt" = false :=
      equalFold_excl k "analysisId" "executedAt" (by decide) h
    simp only [SonarTask.setField, h, e0, e1, e2, e3, e4, e5, e6, e7, e8, if_true, Bool.false_eq_true, if_false]
  · simp only [SonarTask.setField, apply_ite Prod.fst, apply_ite SonarTask.AnalysisId, h, Bool.false_eq_true, if_false, ite_self]

theorem SonarTask_setField_ComponentId (t : SonarTask) (k : Str) (v : Json) :
    (t.setField k v).1.ComponentId =
      if equalFold k "componentId" = true then (decodeString t.ComponentId v).1 else t.ComponentId := by
  by_cases h : equalFold k "componentId" = true
  · have e0 : equalFold k "status" = false :=
      equalFold_excl k "componentId" "status" (by decide) h
    have e1 : equalFold k "analysisId" = false :=
      equalFold_excl k "componentId" "analysisId" (by decide) h
    have e2 : equalFold k "componentKey" = false :=
      equalFold_excl k "componentId" "componentKey" (by decide) h
    have e3 : equalFold k "componentName" = false :=
      equalFold_excl k "componentId" "componentName" (by decide) h
    have e4 : equalFold k "organization" = false :=
      equalFold_excl k "componentId" "organization" (by decide) h
    have e5 : equalFold k "submittedAt" = false :=
      equalFold_excl k "componentId" "submittedAt" (by decide) h
    have e6 : equalFold k "submitterLogin" = false :=
      equalFold_excl k "componentId" "submitterLogin" (by decide) h
    have e7 : equalFold k "startedAt" = false :=
      equalFold_excl k "componentId" "startedAt" (by decide) h
    have e8 : equalFold k "executedAt" = false :=
      equalFold_excl k "componentId" "executedAt" (by decide) h
    simp only [SonarTask.setField, h, e0, e1, e2, e3, e4, e5, e6, e7, e8, if_true, Bool.false_eq_true, if_false]
  · simp only [SonarTask.setField, apply_ite Prod.fst, apply_ite SonarTask.ComponentId, h, Bool.false_eq_true, if_false, ite_self]

theorem SonarTask_setField_ComponentKey (t : SonarTask) (k : Str) (v : Json) :
    (t.setField k v).1.ComponentKey =
      if equalFold k "componentKey" = true then (decodeString t.ComponentKey v).1 else t.ComponentKey := by
  by_cases h : equalFold k "componentKey" = true
  · have e0 : equalFold k "status" = false :=
      equalFold_excl k "componentKey" "status" (by decide) h
    have e1 : equalFold k "analysisId" = false :=
      equalFold_excl k "componentKey" "analysisId" (by decide) h
    have e2 : equalFold k "componentId" = false :=
      equalFold_excl k "componentKey" "componentId" (by decide) h
    have e3 : equalFold k "componentName" = false :=
      equalFold_excl k "componentKey" "componentName" (by decide) h
    have e4 : equalFold k "organization" = false :=
      equalFold_excl k "componentKey" "organization" (by decide) h
    have e5 : equalFold k "submittedAt" = false :=
      equalFold_excl k "componentKey" "submittedAt" (by decide) h
    have e6 : equalFold k "submitterLogin" = false :=
      equalFold_excl k "componentKey" "submitterLogin" (by decide) h
    have e7 : equalFold k "startedAt" = false :=
      equalFold_excl k "componentKey" "startedAt" (by decide) h
    have e8 : equalFold k "executedAt" = false :=
      equalFold_excl k "componentKey" "executedAt" (by decide) h
    simp only [SonarTask.setField, h, e0, e1, e2, e3, e4, e5, e6, e7, e8, if_true, Bool.false_eq_true, if_false]
  · simp only [SonarTask.setField, apply_ite Prod.fst, apply_ite SonarTask.ComponentKey, h, Bool.false_eq_true, if_false, ite_self]

theorem SonarTask_setField_ComponentName (t : SonarTask) (k : Str) (v : Json) :
    (t.setField k v).1.ComponentName =
      if equalFold k "componentName" = true then (decodeString t.ComponentName v).1 else t.ComponentName := by
  by_cases h : equalFold k "componentName" = true
  · have e0 : equalFold k "status" = false :=
      equalFold_excl k "componentName" "status" (by decide) h
    have e1 : equalFold k "analysisId" = false :=
      equalFold_excl k "componentName" "analysisId" (by decide) h
    have e2 : equalFold k "componentId" = false :=
      equalFold_excl k "componentName" "componentId" (by decide) h
    have e3 : equalFold k "componentKey" = false :=
      equalFold_excl k "componentName" "componentKey" (by decide) h
    have e4 : equalFold k "organization" = false :=
      equalFold_excl k "componentName" "organization" (by decide) h
    have e5 : equalFold k "submittedAt" = false :=
      equalFold_excl k "componentName" "submittedAt" (by decide) h
    have e6 : equalFold k "submitterLogin" = false :=
      equalFold_excl k "componentName" "submitterLogin" (by decide) h
    have e7 : equalFold k "startedAt" = false :=
      equalFold_excl k "componentName" "startedAt" (by decide) h
    have e8 : equalFold k "executedAt" = false :=
      equalFold_excl k "componentName" "executedAt" (by decide) h
    simp only [SonarTask.setField, h, e0, e1, e2, e3, e4, e5, e6, e7, e8, if_true, Bool.false_eq_true, if_false]
  · simp only [SonarTask.setField, apply_ite Prod.fst, apply_ite SonarTask.ComponentName, h, Bool.false_eq_true, if_false, ite_self]

theorem SonarTask_setField_Organization (t : SonarTask) (k : Str) (v : Json) :
    (t.setField k v).1.Organization =
      if equalFold k "organization" = true then (decodeString t.Organization v).1 else t.Organization := by
  by_cases h : equalFold k "organization" = true
  · have e0 : equalFold k "status" = false :=
      equalFold_excl k "organization" "status" (by decide) h
    have e1 : equalFold k "analysisId" = false :=
      equalFold_excl k "organization" "analysisId" (by decide) h
    have e2 : equalFold k "componentId" = false :=
      equalFold_excl k "organization" "componentId" (by decide) h
    have e3 : equalFold k "componentKey" = false :=
      equalFold_excl k "organization" "componentKey" (by decide) h
    have e4 : equalFold k "componentName" = false :=
      equalFold_excl k "organization" "componentName" (by decide) h
    have e5 : equalFold k "submittedAt" = false :=
      equalFold_excl k "organization" "submittedAt" (by decide) h
    have e6 : equalFold k "submitterLogin" = false :=
      equalFold_excl k "organization" "submitterLogin" (by decide) h
    have e7 : equalFold k "startedAt" = false :=
      equalFold_excl k "organization" "startedAt" (by decide) h
    have e8 : equalFold k "executedAt" = false :=
      equalFold_excl k "organization" "executedAt" (by decide) h
    simp only [SonarTask.setField, h, e0, e1, e2, e3, e4, e5, e6, e7, e8, if_true, Bool.false_eq_true, if_false]
  · simp only [SonarTask.setField, apply_ite Prod.fst, apply_ite SonarTask.Organization, h, Bool.false_eq_true, if_false, ite_self]

theorem SonarTask_setField_SubmittedAt (t : SonarTask) (k : Str) (v : Json) :
    (t.setField k v).1.SubmittedAt =
      if equalFold k "submittedAt" = true then (decodeString t.SubmittedAt v).1 else t.SubmittedAt := by
  by_cases h : equalFold k "submittedAt" = true
  · have e0 : equalFold k "status" = false :=
      equalFold_excl k "submittedAt" "status" (by decide) h
    have e1 : equalFold k "analysisId" = false :=
      equalFold_excl k "submittedAt" "analysisId" (by decide) h
    have e2 : equalFold k "componentId" = false :=
      equalFold_excl k "submittedAt" "componentId" (by decide) h
    have e3 : equalFold k "componentKey" = false :=
      equalFold_excl k "submittedAt" "componentKey" (by decide) h
    have e4 : equalFold k "componentName" = false :=
      equalFold_excl k "submittedAt" "componentName" (by decide) h
    have e5 : equalFold k "organization" = false :=
      equalFold_excl k "submittedAt" "organization" (by decide) h
    have e6 : equalFold k "submitterLogin" = false :=
      equalFold_excl k "submittedAt" "submitterLogin" (by decide) h
    have e7 : equalFold k "startedAt" = false :=
      equalFold_excl k "submittedAt" "startedAt" (by decide) h
    have e8 : equalFold k "executedAt" = false :=
      equalFold_excl k "submittedAt" "executedAt" (by decide) h
    simp only [SonarTask.setField, h, e0, e1, e2, e3, e4, e5, e6, e7, e8, if_true, Bool.false_eq_true, if_false]
  · simp only [SonarTask.setField, apply_ite Prod.fst, apply_ite SonarTask.SubmittedAt, h, Bool.false_eq_true, if_false, ite_self]

theorem SonarTask_setField_SubmitterLogin (t : SonarTask) (k : Str) (v : Json) :
    (t.setField k v).1.SubmitterLogin =
      if equalFold k "submitterLogin" = true then (decodeString t.SubmitterLogin v).1 else t.SubmitterLogin := by
  by_cases h : equalFold k "submitterLogin" = true
  · have e0 : equalFold k "status" = false :=
      equalFold_excl k "submitterLogin" "status" (by decide) h
    have e1 : equalFold k "analysisId" = false :=
      equalFold_excl k "submitterLogin" "analysisId" (by decide) h
    have e2 : equalFold k "componentId" = false :=
      equalFold_excl k "submitterLogin" "componentId" (by decide) h
    have e3 : equalFold k "componentKey" = false :=
      equalFold_excl k "submitterLogin" "componentKey" (by decide) h
    have e4 : equalFold k "componentName" = false :=
      equalFold_excl k "submitterLogin" "componentName" (by decide) h
    have e5 : equalFold k "organization" = false :=
      equalFold_excl k "submitterLogin" "organization" (by decide) h
    have e6 : equalFold k "submittedAt" = false :=
      equalFold_excl k "submitterLogin" "submittedAt" (by decide) h
    have e7 : equalFold k "startedAt" = false :=
      equalFold_excl k "submitterLogin" "startedAt" (by decide) h
    have e8 : equalFold k "executedAt" = false :=
      equalFold_excl k "submitterLogin" "executedAt" (by decide) h
    simp only [SonarTask.setField, h, e0, e1, e2, e3, e4, e5, e6, e7, e8, if_true, Bool.false_eq_true, if_false]
  · simp only [SonarTask.setField, apply_ite Prod.fst, apply_ite SonarTask.SubmitterLogin, h, Bool.false_eq_true, if_false, ite_self]

theorem SonarTask_setField_StartedAt (t : SonarTask) (k : Str) (v : Json) :
    (t.setField k v).1.StartedAt =
      if equalFold k "startedAt" = true then (decodeString t.StartedAt v).1 else t.StartedAt := by
  by_cases h : equalFold k "startedAt" = true
  · have e0 : equalFold k "status" = false :=
      equalFold_excl k "startedAt" "status" (by decide) h
    have e1 : equalFold k "analysisId" = false :=
      equalFold_excl k "startedAt" "analysisId" (by decide) h
    have e2 : equalFold k "componentId" = false :=
      equalFold_excl k "startedAt" "componentId" (by decide) h
    have e3 : equalFold k "componentKey" = false :=
      equalFold_excl k "startedAt" "componentKey" (by decide) h
    have e4 : equalFold k "componentName" = false :=
      equalFold_excl k "startedAt" "componentName" (by decide) h
    have e5 : equalFold k "organization" = false :=
      equalFold_excl k "startedAt" "organization" (by decide) h
    have e6 : equalFold k "submittedAt" = false :=
      equalFold_excl k "startedAt" "submittedAt" (by decide) h
    have e7 : equalFold k "submitterLogin" = false :=
      equalFold_excl k "startedAt" "submitterLogin" (by decide) h
    have e8 : equalFold k "executedAt" = false :=
      equalFold_excl k "startedAt" "executedAt" (by decide) h
    simp only [SonarTask.setField, h, e0, e1, e2, e3, e4, e5, e6, e7, e8, if_true, Bool.false_eq_true, if_false]
  · simp only [SonarTask.setField, apply_ite Prod.fst, apply_ite SonarTask.StartedAt, h, Bool.false_eq_true, if_false, ite_self]

theorem SonarTask_setField_ExecutedAt (t : SonarTask) (k : Str) (v : Json) :
    (t.setField k v).1.ExecutedAt =
      if equalFold k "executedAt" = true then (decodeString t.ExecutedAt v).1 else t.ExecutedAt := by
  by_cases h : equalFold k "executedAt" = true
  · have e0 : equalFold k "status" = false :=
      equalFold_excl k "executedAt" "status" (by decide) h
    have e1 : equalFold k "analysisId" = false :=
      equalFold_excl k "executedAt" "analysisId" (by decide) h
    have e2 : equalFold k "componentId" = false :=
      equalFold_excl k "executedAt" "componentId" (by decide) h
    have e3 : equalFold k "componentKey" = false :=
      equalFold_excl k "executedAt" "componentKey" (by decide) h
    have e4 : equalFold k "componentName" = false :=
      equalFold_excl k "executedAt" "componentName" (by decide) h
    have e5 : equalFold k "organization" = false :=
      equalFold_excl k "executedAt" "organization" (by decide) h
    have e6 : equalFold k "submittedAt" = false :=
      equalFold_excl k "executedAt" "submittedAt" (by decide) h
    have e7 : equalFold k "submitterLogin" = false :=
      equalFold_excl k "executedAt" "submitterLogin" (by decide) h
    have e8 : equalFold k "startedAt" = false :=
      equalFold_excl k "executedAt" "startedAt" (by decide) h
    simp only [SonarTask.setField, h, e0, e1, e2, e3, e4, e5, e6, e7, e8, if_true, Bool.false_eq_true, if_false]
  · simp only [SonarTask.setField, apply_ite Prod.fst, apply_ite SonarTask.ExecutedAt, h, Bool.false_eq_true, if_false, ite_self]

theorem Condition_setField_Status (t : Condition) (k : Str) (v : Json) :
    (t.setField k v).1.Status =
      if equalFold k "status" = true then (decodeString t.Status v).1 else t.Status := by
  by_cases h : equalFold k "status" = true
  · have e0 : equalFold k "metricKey" = false :=
      equalFold_excl k "status" "metricKey" (by decide) h
    have e1 : equalFold k "comparator" = false :=
      equalFold_excl k "status" "comparator" (by decide) h
    have e2 : equalFold k "periodIndex" = false :=
      equalFold_excl k "status" "periodIndex" (by decide) h
    have e3 : equalFold k "errorThreshold" = false :=
      equalFold_excl k "status" "errorThreshold" (by decide) h
    have e4 : equalFold k "actualValue" = false :=
      equalFold_excl k "status" "actualValue" (by decide) h
    simp only [Condition.setField, h, e0, e1, e2, e3, e4, if_true, Bool.false_eq_true, if_false]
  · simp only [Condition.setField, apply_ite Prod.fst, apply_ite Condition.Status, h, Bool.false_eq_true, if_false, ite_self]

theorem Condition_setField_MetricKey (t : Condition) (k : Str) (v : Json) :
    (t.setField k v).1.MetricKey =
      if equalFold k "metricKey" = true then (decodeString t.MetricKey v).1 else t.MetricKey := by
  by_cases h : equalFold k "metricKey" = true
  · have e0 : equalFold k "status" = false :=
      equalFold_excl k "metricKey" "status" (by decide) h
    have e1 : equalFold k "comparator" = false :=
      equalFold_excl k "metricKey" "comparator" (by decide) h
    have e2 : equalFold k "periodIndex" = false :=
      equalFold_excl k "metricKey" "periodIndex" (by decide) h
    have e3 : equalFold k "errorThreshold" = false :=
      equalFold_excl k "metricKey" "errorThreshold" (by decide) h
    have e4 : equalFold k "actualValue" = false :=
      equalFold_excl k "metricKey" "actualValue" (by decide) h
    simp only [Condition.setField, h, e0, e1, e2, e3, e4, if_true, Bool.false_eq_true, if_false]
  · simp only [Condition.setField, apply_ite Prod.fst, apply_ite Condition.MetricKey, h, Bool.false_eq_true, if_false, ite_self]

theorem Condition_setField_Comparator (t : Condition) (k : Str) (v : Json) :
    (t.setField k v).1.Comparator =
      if equalFold k "comparator" = true then (decodeString t.Comparator v).1 else t.Comparator := by
  by_cases h : equalFold k "comparator" = true
  · have e0 : equalFold k "status" = false :=
      equalFold_excl k "comparator" "status" (by decide) h
    have e1 : equalFold k "metricKey" = false :=
      equalFold_excl k "comparator" "metricKey" (by decide) h
    have e2 : equalFold k "periodIndex" = false :=
      equalFold_excl k "comparator" "periodIndex" (by decide) h
    have e3 : equalFold k "errorThreshold" = false :=
      equalFold_excl k "comparator" "errorThreshold" (by decide) h
    have e4 : equalFold k "actualValue" = false :=
      equalFold_excl k "comparator" "actualValue" (by decide) h
    simp only [Condition.setField, h, e0, e1, e2, e3, e4, if_true, Bool.false_eq_true, if_false]
  · simp only [Condition.setField, apply_ite Prod.fst, apply_ite Condition.Comparator, h, Bool.false_eq_true, if_false, ite_self]

theorem Condition_setField_PeriodIndex (t : Condition) (k : Str) (v : Json) :
    (t.setField k v).1.PeriodIndex =
      if equalFold k "periodIndex" = true then (decodeInt t.PeriodIndex v).1 else t.PeriodIndex := by
  by_cases h : equalFold k "periodIndex" = true
  · have e0 : equalFold k "status" = false :=
      equalFold_excl k "periodIndex" "status" (by decide) h
    have e1 : equalFold k "metricKey" = false :=
      equalFold_excl k "periodIndex" "metricKey" (by decide) h
    have e2 : equalFold k "comparator" = false :=
      equalFold_excl k "periodIndex" "comparator" (by decide) h
    have e3 : equalFold k "errorThreshold" = false :=
      equalFold_excl k "periodIndex" "errorThreshold" (by decide) h
    have e4 : equalFold k "actualValue" = false :=
      equalFold_excl k "periodIndex" "actualValue" (by decide) h
    simp only [Condition.setField, h, e0, e1, e2, e3, e4, if_true, Bool.false_eq_true, if_false]
  · simp only [Condition.setField, apply_ite Prod.fst, apply_ite Condition.PeriodIndex, h, Bool.false_eq_true, if_false, ite_self]

theorem Condition_setField_ErrorThreshold (t : Condition) (k : Str) (v : Json) :
    (t.setField k v).1.ErrorThreshold =
      if equalFold k "errorThreshold" = true then (decodeString t.ErrorThreshold v).1 else t.ErrorThreshold := by
  by_cases h : equalFold k "errorThreshold" = true
  · have e0 : equalFold k "status" = false :=
      equalFold_excl k "errorThreshold" "status" (by decide) h
    have e1 : equalFold k "metricKey" = false :=
      equalFold_excl k "errorThreshold" "metricKey" (by decide) h
    have e2 : equalFold k "comparator" = false :=
      equalFold_excl k "errorThreshold" "comparator" (by decide) h
    have e3 : equalFold k "periodIndex" = false :=
      equalFold_excl k "errorThreshold" "periodIndex" (by decide) h
    have e4 : equalFold k "actualValue" = false :=
      equalFold_excl k "errorThreshold" "actualValue" (by decide) h
    simp only [Condition.setField, h, e0, e1, e2, e3, e4, if_true, Bool.false_eq_true, if_false]
  · simp only [Condition.setField, apply_ite Prod.fst, apply_ite Condition.ErrorThreshold, h, Bool.false_eq_true, if_false, ite_self]

theorem Condition_setField_ActualValue (t : Condition) (k : Str) (v : Json) :
    (t.setField k v).1.ActualValue =
      if equalFold k "actualValue" = true then (decodeString t.ActualValue v).1 else t.ActualValue := by
  by_cases h : equalFold k "actualValue" = true
  · have e0 : equalFold k "status" = false :=
      equalFold_excl k "actualValue" "status" (by decide) h
    have e1 : equalFold k "metricKey" = false :=
      equalFold_excl k "actualValue" "metricKey" (by decide) h
    have e2 : equalFold k "comparator" = false :=
      equalFold_excl k "actualValue" "comparator" (by decide) h
    have e3 : equalFold k "periodIndex" = false :=
      equalFold_excl k "actualValue" "periodIndex" (by decide) h
    have e4 : equalFold k "errorThreshold" = false :=
      equalFold_excl k "actualValue" "errorThreshold" (by decide) h
    simp only [Condition.setField, h, e0, e1, e2, e3, e4, if_true, Bool.false_eq_true, if_false]
  · simp only [Condition.setField, apply_ite Prod.fst, apply_ite Condition.ActualValue, h, Bool.false_eq_true, if_false, ite_self]

theorem Period_setField_Index (t : Period) (k : Str) (v : Json) :
    (t.setField k v).1.Index =
      if equalFold k "index" = true then (decodeInt t.Index v).1 else t.Index := by
  by_cases h : equalFold k "index" = true
  · have e0 : equalFold k "mode" = false :=
      equalFold_excl k "index" "mode" (by decide) h
    have e1 : equalFold k "date" = false :=
      equalFold_excl k "index" "date" (by decide) h
    simp only [Period.setField, h, e0, e1, if_true, Bool.false_eq_true, if_false]
  · simp only [Period.setField, apply_ite Prod.fst, apply_ite Period.Index, h, Bool.false_eq_true, if_false, ite_self]

theorem Period_setField_Mode (t : Period) (k : Str) (v : Json) :
    (t.setField k v).1.Mode =
      if equalFold k "mode" = true then (decodeString t.Mode v).1 else t.Mode := by
  by_cases h : equalFold k "mode" = true
  · have e0 : equalFold k "index" = false :=
      equalFold_excl k "mode" "index" (by decide) h
    have e1 : equalFold k "date" = false :=
      equalFold_excl k "mode" "date" (by decide) h
    simp only [Period.setField, h, e0, e1, if_true, Bool.false_eq_true, if_false]
  · simp only [Period.setField, apply_ite Prod.fst, apply_ite Period.Mode, h, Bool.false_eq_true, if_false, ite_self]

theorem Period_setField_Date (t : Period) (k : Str) (v : Json) :
    (t.setField k v).1.Date =
      if equalFold k "date" = true then (decodeString t.Date v).1 else t.Date := by
  by_cases h : equalFold k "date" = true
  · have e0 : equalFold k "index" = false :=
      equalFold_excl k "date" "index" (by decide) h
    have e1 : equalFold k "mode" = false :=
      equalFold_excl k "date" "mode" (by decide) h
    simp only [Period.setField, h, e0, e1, if_true, Bool.false_eq_true, if_false]
  · simp only [Period.setField, apply_ite Prod.fst, apply_ite Period.Date, h, Bool.false_eq_true, if_false, ite_self]

theorem ProjectStatus_setField_Status (t : ProjectStatus) (k : Str) (v : Json) :
    (t.setField k v).1.Status =
      if equalFold k "status" = true then (decodeString t.Status v).1 else t.Status := by
  by_cases h : equalFold k "status" = true
  · have e0 : equalFold k "conditions" = false :=
      equalFold_excl k "status" "conditions" (by decide) h
    have e1 : equalFold k "periods" = false :=
      equalFold_excl k "status" "periods" (by decide) h
    have e2 : equalFold k "ignoredConditions" = false :=
      equalFold_excl k "status" "ignoredConditions" (by decide) h
    simp only [ProjectStatus.setField, h, e0, e1, e2, if_true, Bool.false_eq_true, if_false]
  · simp only [ProjectStatus.setField, apply_ite Prod.fst, apply_ite ProjectStatus.Status, h, Bool.false_eq_true, if_false, ite_self]

theorem ProjectStatus_setField_Conditions (t : ProjectStatus) (k : Str) (v : Json) :
    (t.setField k v).1.Conditions =
      if equalFold k "conditions" = true then ((decodeSlice (decodeStruct Condition.setField) Condition.zero) t.Conditions v).1 else t.Conditions := by
  by_cases h : equalFold k "conditions" = true
  · have e0 : equalFold k "status" = false :=
      equalFold_excl k "conditions" "status" (by decide) h
    have e1 : equalFold k "periods" = false :=
      equalFold_excl k "conditions" "periods" (by decide) h
    have e2 : equalFold k "ignoredConditions" = false :=
      equalFold_excl k "conditions" "ignoredConditions" (by decide) h
    simp only [ProjectStatus.setField, h, e0, e1, e2, if_true, Bool.false_eq_true, if_false]
  · simp only [ProjectStatus.setField, apply_ite Prod.fst, apply_ite ProjectStatus.Conditions, h, Bool.false_eq_true, if_false, ite_self]

theorem ProjectStatus_setField_Periods (t : ProjectStatus) (k : Str) (v : Json) :
    (t.setField k v).1.Periods =
      if equalFold k "periods" = true then ((decodeSlice (decodeStruct Period.setField) Period.zero) t.Periods v).1 else t.Periods := by
  by_cases h : equalFold k "periods" = true
  · have e0 : equalFold k "status" = false :=
      equalFold_excl k "periods" "status" (by decide) h
    have e1 : equalFold k "conditions" = false :=
      equalFold_excl k "periods" "conditions" (by decide) h
    have e2 : equalFold k "ignoredConditions" = false :=
      equalFold_excl k "periods" "ignoredConditions" (by decide) h
    simp only [ProjectStatus.setField, h, e0, e1, e2, if_true, Bool.false_eq_true, if_false]
  · simp only [ProjectStatus.setField, apply_ite Prod.fst, apply_ite ProjectStatus.Periods, h, Bool.false_eq_true, if_false, ite_self]

theorem ProjectStatus_setField_IgnoredConditions (t : ProjectStatus) (k : Str) (v : Json) :
    (t.setField k v).1.IgnoredConditions =
      if equalFold k "ignoredConditions" = true then (decodeBool t.IgnoredConditions v).1 else t.IgnoredConditions := by
  by_cases h : equalFold k "ignoredConditions" = true
  · have e0 : equalFold k "status" = false :=
      equalFold_excl k "ignoredConditions" "status" (by decide) h
    have e1 : equalFold k "conditions" = false :=
      equalFold_excl k "ignoredConditions" "conditions" (by decide) h
    have e2 : equalFold k "periods" = false :=
      equalFold_excl k "ignoredConditions" "periods" (by decide) h
    simp only [ProjectStatus.setField, h, e0, e1, e2, if_true, Bool.false_eq_true, if_false]
  · simp only [ProjectStatus.setField, apply_ite Prod.fst, apply_ite ProjectStatus.IgnoredConditions, h, Bool.false_eq_true, if_false, ite_self]

theorem SonarTaskResponse_setField_Task (t : SonarTaskResponse) (k : Str) (v : Json) :
    (t.setField k v).1.Task =
      if equalFold k "task" = true then ((decodeStruct SonarTask.setField) t.Task v).1 else t.Task := by
  by_cases h : equalFold k "task" = true
  · simp only [SonarTaskResponse.setField, h, if_true, Bool.false_eq_true, if_false]
  · simp only [SonarTaskResponse.setField, apply_ite Prod.fst, apply_ite SonarTaskResponse.Task, h, Bool.false_eq_true, if_false, ite_self]

theorem SonarAnalysis_setField_ProjectStatus (t : SonarAnalysis) (k : Str) (v : Json) :
    (t.setField k v).1.ProjectStatus =
      if equalFold k "projectStatus" = true then ((decodeStruct ProjectStatus.setField) t.ProjectStatus v).1 else t.ProjectStatus := by
  by_cases h : equalFold k "projectStatus" = true
  · simp only [SonarAnalysis.setField, h, if_true, Bool.false_eq_true, if_false]
  · simp only [SonarAnalysis.setField, apply_ite Prod.fst, apply_ite SonarAnalysis.ProjectStatus, h, Bool.false_eq_true, if_false, ite_self]

theorem decodeElems_fresh {α : Type} (dec : α → Json → α × Bool) (zero : α) (js : List Json) :
    (decodeElems dec zero js []).1 = js.map fun j => (dec zero j).1 := by
  induction js with
  | nil => rfl
  | cons j js ih => simp [decodeElems, ih]

theorem readStr_eq (nm : String) (ms : List (Str × Json)) :
    (match member nm ms with
      | some v => (decodeString [] v).1
      | none => []) = readStr nm ms := by
  unfold readStr
  cases member nm ms with
  | none => rfl
  | some v => cases v <;> rfl

theorem readInt_eq (nm : String) (ms : List (Str × Json)) :
    (match member nm ms with
      | some v => (decodeInt 0 v).1
      | none => 0) = readInt nm ms := by
  unfold readInt
  cases member nm ms with
  | none => rfl
  | some v =>
    cases v with
    | num lit =>
      simp only [decodeInt]
      cases parseInt64 lit <;> rfl
    | _ => rfl

theorem readBool_eq (nm : String) (ms : List (Str × Json)) :
    (match member nm ms with
      | some v => (decodeBool false v).1
      | none => false) = readBool nm ms := by
  unfold readBool
  cases member nm ms with
  | none => rfl
  | some v => cases v <;> rfl

theorem readList_eq {α : Type} (dec : α → Json → α × Bool) (zero : α) (read : Json → α)
    (nm : String) (ms : List (Str × Json))
    (h : ∀ js, member nm ms = some (.arr js) → ∀ j ∈ js, (dec zero j).1 = read j) :
    (match member nm ms with
      | some v => (decodeSlice dec zero Slice.zero v).1
      | none => Slice.zero) = readList read nm ms := by
  unfold readList
  cases hm : member nm ms with
  | none => rfl
  | some v =>
    cases v with
    | arr js =>
      cases js with
      | nil => rfl
      | cons j js =>
        have hj := h (j :: js) hm
        simp only [decodeSlice, List.isEmpty_cons, Bool.false_eq_true, if_false, Slice.zero,
          List.append_nil, List.drop_nil, decodeElems_fresh]
        congr 1
        exact List.map_congr_left hj
    | _ => rfl

theorem SonarTask_eq_of_fields (a b : SonarTask) (h0 : a.id = b.id) (h1 : a.Status = b.Status)
    (h2 : a.AnalysisId = b.AnalysisId) (h3 : a.ComponentId = b.ComponentId)
    (h4 : a.ComponentKey = b.ComponentKey) (h5 : a.ComponentName = b.ComponentName)
    (h6 : a.Organization = b.Organization) (h7 : a.SubmittedAt = b.SubmittedAt)
    (h8 : a.SubmitterLogin = b.SubmitterLogin) (h9 : a.StartedAt = b.StartedAt)
    (h10 : a.ExecutedAt = b.ExecutedAt) : a = b := by
  cases a; cases b; simp_all

theorem Condition_eq_of_fields (a b : Condition) (h1 : a.Status = b.Status)
    (h2 : a.MetricKey = b.MetricKey) (h3 : a.Comparator = b.Comparator)
    (h4 : a.PeriodIndex = b.PeriodIndex) (h5 : a.ErrorThreshold = b.ErrorThreshold)
    (h6 : a.ActualValue = b.ActualValue) : a = b := by
  cases a; cases b; simp_all

theorem Period_eq_of_fields (a b : Period) (h1 : a.Index = b.Index) (h2 : a.Mode = b.Mode)
    (h3 : a.Date = b.Date) : a = b := by
  cases a; cases b; simp_all

theorem ProjectStatus_eq_of_fields (a b : ProjectStatus) (h1 : a.Status = b.Status)
    (h2 : a.Conditions = b.Conditions) (h3 : a.Periods = b.Periods)
    (h4 : a.IgnoredConditions = b.IgnoredConditions) : a = b := by
  cases a; cases b; simp_all

/-- Decoding a task object without repeated member names into a zero `SonarTask` gives
the reading of the object. -/
theorem decodeStruct_readTask (j : Json) (h : plainObject j = true) :
    (decodeStruct SonarTask.setField SonarTask.zero j).1 = readTask j := by
  cases j with
  | obj ms =>
    have hd : distinctNames ms = true := h
    exact SonarTask_eq_of_fields _ _ (decodeMembers_task_id ms SonarTask.zero)
      ((decodeMembers_field SonarTask.setField SonarTask.Status "status" decodeString
        SonarTask_setField_Status ms SonarTask.zero hd).trans (readStr_eq _ _))
      ((decodeMembers_field SonarTask.setField SonarTask.AnalysisId "analysisId" decodeString
        SonarTask_setField_AnalysisId ms SonarTask.zero hd).trans (readStr_eq _ _))
      ((decodeMembers_field SonarTask.setField SonarTask.ComponentId "componentId" decodeString
        SonarTask_setField_ComponentId ms SonarTask.zero hd).trans (readStr_eq _ _))
      ((decodeMembers_field SonarTask.setField SonarTask.ComponentKey "componentKey" decodeString
        SonarTask_setField_ComponentKey ms SonarTask.zero hd).trans (readStr_eq _ _))
      ((decodeMembers_field SonarTask.setField SonarTask.ComponentName "componentName"
        decodeString SonarTask_setField_ComponentName ms SonarTask.zero hd).trans
        (readStr_eq _ _))
      ((decodeMembers_field SonarTask.setField SonarTask.Organization "organization" decodeString
        SonarTask_setField_Organization ms SonarTask.zero hd).trans (readStr_eq _ _))
      ((decodeMembers_field SonarTask.setField SonarTask.SubmittedAt "submittedAt" decodeString
        SonarTask_setField_SubmittedAt ms SonarTask.zero hd).trans (readStr_eq _ _))
      ((decodeMembers_field SonarTask.setField SonarTask.SubmitterLogin "submitterLogin"
        decodeString SonarTask_setField_SubmitterLogin ms SonarTask.zero hd).trans
        (readStr_eq _ _))
      ((decodeMembers_field SonarTask.setField SonarTask.StartedAt "startedAt" decodeString
        SonarTask_setField_StartedAt ms SonarTask.zero hd).trans (readStr_eq _ _))
      ((decodeMembers_field SonarTask.setField SonarTask.ExecutedAt "executedAt" decodeString
        SonarTask_setField_ExecutedAt ms SonarTask.zero hd).trans (readStr_eq _ _))
  | _ => rfl

/-- Decoding a condition object without repeated member names into a zero `Condition`
gives the reading of the object. -/
theorem decodeStruct_readCondition (j : Json) (h : plainObject j = true) :
    (decodeStruct Condition.setField Condition.zero j).1 = readCondition j := by
  cases j with
  | obj ms =>
    have hd : distinctNames ms = true := h
    exact Condition_eq_of_fields _ _
      ((decodeMembers_field Condition.setField Condition.Status "status" decodeString
        Condition_setField_Status ms Condition.zero hd).trans (readStr_eq _ _))
      ((decodeMembers_field Condition.setField Condition.MetricKey "metricKey" decodeString
        Condition_setField_MetricKey ms Condition.zero hd).trans (readStr_eq _ _))
      ((decodeMembers_field Condition.setField Condition.Comparator "comparator" decodeString
        Condition_setField_Comparator ms Condition.zero hd).trans (readStr_eq _ _))
      ((decodeMembers_field Condition.setField Condition.PeriodIndex "periodIndex" decodeInt
        Condition_setField_PeriodIndex ms Condition.zero hd).trans (readInt_eq _ _))
      ((decodeMembers_field Condition.setField Condition.ErrorThreshold "errorThreshold"
        decodeString Condition_setField_ErrorThreshold ms Condition.zero hd).trans
        (readStr_eq _ _))
      ((decodeMembers_field Condition.setField Condition.ActualValue "actualValue" decodeString
        Condition_setField_ActualValue ms Condition.zero hd).trans (readStr_eq _ _))
  | _ => rfl

/-- Decoding a period object without repeated member names into a zero `Period` gives
the reading of the object. -/
theorem decodeStruct_readPeriod (j : Json) (h : plainObject j = true) :
    (decodeStruct Period.setField Period.zero j).1 = readPeriod j := by
  cases j with
  | obj ms =>
    have hd : distinctNames ms = true := h
    exact Period_eq_of_fields _ _
      ((decodeMembers_field Period.setField Period.Index "index" decodeInt
        Period_setField_Index ms Period.zero hd).trans (readInt_eq _ _))
      ((decodeMembers_field Period.setField Period.Mode "mode" decodeString
        Period_setField_Mode ms Period.zero hd).trans (readStr_eq _ _))
      ((decodeMembers_field Period.setField Period.Date "date" decodeString
        Period_setField_Date ms Period.zero hd).trans (readStr_eq _ _))
  | _ => rfl

theorem plainItems_mem (nm : String) (ms : List (Str × Json)) (h : plainItems nm ms = true)
    (js : List Json) (hm : member nm ms = some (.arr js)) : ∀ j ∈ js, plainObject j = true := by
  unfold plainItems at h
  rw [hm] at h
  exact List.all_eq_true.mp h

/-- Decoding a project-status object without repeated member names into a zero
`ProjectStatus` gives the reading of the object: the lists hold the readings of the
elements of the arrays, in the order of the arrays. -/
theorem decodeStruct_readProjectStatus (j : Json) (h : plainProjectStatus j = true) :
    (decodeStruct ProjectStatus.setField ProjectStatus.zero j).1 = readProjectStatus j := by
  cases j with
  | obj ms =>
    simp only [plainProjectStatus, Bool.and_eq_true] at h
    obtain ⟨⟨hd, hc⟩, hp⟩ := h
    exact ProjectStatus_eq_of_fields _ _
      ((decodeMembers_field ProjectStatus.setField ProjectStatus.Status "status" decodeString
        ProjectStatus_setField_Status ms ProjectStatus.zero hd).trans (readStr_eq _ _))
      ((decodeMembers_field ProjectStatus.setField ProjectStatus.Conditions "conditions"
        (decodeSlice (decodeStruct Condition.setField) Condition.zero)
        ProjectStatus_setField_Conditions ms ProjectStatus.zero hd).trans
        (readList_eq _ _ readCondition _ _ fun js hm j hj =>
          decodeStruct_readCondition j (plainItems_mem _ _ hc js hm j hj)))
      ((decodeMembers_field ProjectStatus.setField ProjectStatus.Periods "periods"
        (decodeSlice (decodeStruct Period.setField) Period.zero)
        ProjectStatus_setField_Periods ms ProjectStatus.zero hd).trans
        (readList_eq _ _ readPeriod _ _ fun js hm j hj =>
          decodeStruct_readPeriod j (plainItems_mem _ _ hp js hm j hj)))
      ((decodeMembers_field ProjectStatus.setField ProjectStatus.IgnoredConditions
        "ignoredConditions" decodeBool ProjectStatus_setField_IgnoredConditions ms
        ProjectStatus.zero hd).trans (readBool_eq _ _))
  | _ => rfl

/-- Decoding a task document without repeated member names into a zero
`SonarTaskResponse` gives the reading of the document. -/
theorem decodeStruct_readTaskResponse (j : Json) (h : plainTaskDoc j = true) :
    (decodeStruct SonarTaskResponse.setField ⟨SonarTask.zero⟩ j).1 = readTaskResponse j := by
  cases j with
  | obj ms =>
    simp only [plainTaskDoc, Bool.and_eq_true] at h
    obtain ⟨hd, ht⟩ := h
    have f := decodeMembers_field SonarTaskResponse.setField SonarTaskResponse.Task "task"
      (decodeStruct SonarTask.setField) SonarTaskResponse_setField_Task ms ⟨SonarTask.zero⟩ hd
    have e : ∀ a b : SonarTaskResponse, a.Task = b.Task → a = b := by
      intro a b hab; cases a; cases b; simp_all
    apply e
    simp only [decodeStruct, readTaskResponse]
    rw [f]
    cases hm : member "task" ms with
    | none => rfl
    | some v =>
      rw [hm] at ht
      exact decodeStruct_readTask v ht
  | _ => rfl

/-- Decoding an analysis document without repeated member names into a zero
`SonarAnalysis` gives the reading of the document. -/
theorem decodeStruct_readAnalysis (j : Json) (h : plainAnalysisDoc j = true) :
    (decodeStruct SonarAnalysis.setField ⟨ProjectStatus.zero⟩ j).1 = readAnalysis j := by
  cases j with
  | obj ms =>
    simp only [plainAnalysisDoc, Bool.and_eq_true] at h
    obtain ⟨hd, ht⟩ := h
    have f := decodeMembers_field SonarAnalysis.setField SonarAnalysis.ProjectStatus
      "projectStatus" (decodeStruct ProjectStatus.setField)
      SonarAnalysis_setField_ProjectStatus ms ⟨ProjectStatus.zero⟩ hd
    have e : ∀ a b : SonarAnalysis, a.ProjectStatus = b.ProjectStatus → a = b := by
      intro a b hab; cases a; cases b; simp_all
    apply e
    simp only [decodeStruct, readAnalysis]
    rw [f]
    cases hm : member "projectStatus" ms with
    | none => rfl
    | some v =>
      rw [hm] at ht
      exact decodeStruct_readProjectStatus v ht
  | _ => rfl

/-- What `json.Unmarshal` leaves in the task response is the reading of the body. -/
theorem Unmarshal_read (body : Str) (tj : Json) (tr : SonarTaskResponse)
    (hp : parseAll body = some tj) (hd : UnmarshalTaskResponse body = some tr)
    (hpl : plainTaskDoc tj = true) : tr = readTaskResponse tj := by
  unfold UnmarshalTaskResponse at hd
  simp only [hp] at hd
  split at hd
  · rw [← decodeStruct_readTaskResponse tj hpl]
    exact (Option.some.inj hd).symm
  · exact absurd hd (by simp)

/-- What `Decode` leaves in the analysis is the reading of the first value of the
body. -/
theorem Decode_read (body rest : Str) (streamErr : Bool) (aj : Json) (an : SonarAnalysis)
    (hp : parsePrefix body = some (aj, rest)) (hd : DecodeAnalysis body streamErr = some an)
    (hpl : plainAnalysisDoc aj = true) : an = readAnalysis aj := by
  unfold DecodeAnalysis at hd
  simp only [hp] at hd
  split at hd
  · exact absurd hd (by simp)
  · split at hd
    · rw [← decodeStruct_readAnalysis aj hpl]
      exact (Option.some.inj hd).symm
    · exact absurd hd (by simp)

/-- C1: when the pointer file yields a non-empty `ceTaskUrl`, the task endpoint answers
200 with a body that decodes (to `taskResponse`) and the analysis endpoint answers 200
with a body that decodes (to `analysis`), the run writes exactly the JSON encoding of the
pair of `taskResponse.Task` and `analysis.ProjectStatus` to standard output and ends with
exit code 0. That text is one JSON document: the object whose members hold the decoded
fields unchanged, the lists as arrays in their order. When no object of the response
documents `tj` and `aj` repeats a member name, the decoded values are the readings of
these documents, so the text written is the document of the fields and lists of the
remote responses: the conditions and the periods are the readings of the elements of
the arrays of the analysis response, in the order of these arrays. -/
theorem C1_success_output (w : World) (path url taskBody analysisBody rest : Str)
    (f : FileData) (streamErr : Option LibError) (tj aj : Json)
    (taskResponse : SonarTaskResponse) (analysis : SonarAnalysis)
    (hlog : w.logFileOpens = true) (htok : w.sonarToken ≠ [])
    (hpath : reportTaskFile w.args = some path) (hopen : w.openFile path = some f)
    (hscan : scanFile f = (url, false)) (hurl : url ≠ [])
    (hreq1 : (NewRequestWithContext w url).isSome = true)
    (hrt1 : w.roundTrip 0 ⟨url, "Bearer ".toList ++ w.sonarToken⟩ =
      .response ⟨200, taskBody, none⟩)
    (hdoc1 : parseAll taskBody = some tj)
    (hdec1 : UnmarshalTaskResponse taskBody = some taskResponse)
    (hreq2 : (NewRequestWithContext w (analysisUrl taskResponse.Task.AnalysisId)).isSome = true)
    (hrt2 : w.roundTrip 1
        ⟨analysisUrl taskResponse.Task.AnalysisId, "Bearer ".toList ++ w.sonarToken⟩ =
      .response ⟨200, analysisBody, streamErr⟩)
    (hdoc2 : parsePrefix analysisBody = some (aj, rest))
    (hdec2 : DecodeAnalysis analysisBody streamErr.isSome = some analysis) :
    main w = ⟨Marshal ⟨taskResponse.Task, analysis.ProjectStatus⟩, .exited 0,
        [LOG_FILE_LOCATION, path],
        [⟨url, "Bearer ".toList ++ w.sonarToken⟩,
         ⟨analysisUrl taskResponse.Task.AnalysisId, "Bearer ".toList ++ w.sonarToken⟩]⟩ ∧
      parseAll (main w).stdout =
        some (SonarResponse.json ⟨taskResponse.Task, analysis.ProjectStatus⟩) ∧
      (plainTaskDoc tj = true → taskResponse = readTaskResponse tj) ∧
      (plainAnalysisDoc aj = true → analysis = readAnalysis aj) ∧
      (plainTaskDoc tj = true → plainAnalysisDoc aj = true →
        parseAll (main w).stdout =
          some (SonarResponse.json
            ⟨(readTaskResponse tj).Task, (readAnalysis aj).ProjectStatus⟩)) ∧
      (plainAnalysisDoc aj = true → ∀ ms ps : List (Str × Json), aj = .obj ms →
        member "projectStatus" ms = some (.obj ps) →
        (∀ js, member "conditions" ps = some (.arr js) →
          analysis.ProjectStatus.Conditions.elems = js.map readCondition) ∧
        (∀ js, member "periods" ps = some (.arr js) →
          analysis.ProjectStatus.Periods.elems = js.map readPeriod)) := by
  have h1 : (scanFile f).2 = false := by rw [hscan]
  have h2 : (scanFile f).1 = url := by rw [hscan]
  obtain ⟨r1, hr1⟩ := Option.isSome_iff_exists.mp hreq1
  obtain ⟨r2, hr2⟩ := Option.isSome_iff_exists.mp hreq2
  have e1 := NewRequestWithContext_url w _ r1 hr1
  have e2 := NewRequestWithContext_url w _ r2 hr2
  subst e1 e2
  have hg : getReport w 0 url w.sonarToken =
      .returned [⟨url, "Bearer ".toList ++ w.sonarToken⟩] (.ok taskResponse) := by
    unfold getReport
    simp only [hr1, setAuthorization, hrt1, hdec1, ne_eq, not_true_eq_false, if_false]
  have ha : getAnalysis w 1 w.sonarToken taskResponse.Task.AnalysisId =
      .returned [⟨analysisUrl taskResponse.Task.AnalysisId, "Bearer ".toList ++ w.sonarToken⟩]
        (.ok analysis) := by
    unfold getAnalysis
    simp only [hr2, setAuthorization, hrt2, hdec2, ne_eq, not_true_eq_false, if_false]
  have hm : main w = ⟨Marshal ⟨taskResponse.Task, analysis.ProjectStatus⟩, .exited 0,
      [LOG_FILE_LOCATION, path],
      [⟨url, "Bearer ".toList ++ w.sonarToken⟩,
       ⟨analysisUrl taskResponse.Task.AnalysisId, "Bearer ".toList ++ w.sonarToken⟩]⟩ := by
    rw [main_of_scan w path f hlog htok hpath hopen h1 (by rw [h2]; exact hurl), h2, hg]
    simp only [List.length_singleton, ha]
    rfl
  have hout : parseAll (main w).stdout =
      some (SonarResponse.json ⟨taskResponse.Task, analysis.ProjectStatus⟩) := by
    rw [hm]
    exact parseAll_Marshal _
  have ht := Unmarshal_read taskBody tj taskResponse hdoc1 hdec1
  have hn := Decode_read analysisBody rest streamErr.isSome aj analysis hdoc2 hdec2
  refine ⟨hm, hout, ht, hn, ?_, ?_⟩
  · intro p1 p2
    rw [hout, ht p1, hn p2]
  · intro p2 ms ps hms hps
    have e := hn p2
    rw [hms] at e
    simp only [readAnalysis, hps] at e
    rw [e]
    constructor
    · intro js hjs
      simp only [readProjectStatus, readList, hjs]
    · intro js hjs
      simp only [readProjectStatus, readList, hjs]

/-- Witness for C1: a run whose analysis response holds two conditions (`new_coverage`
before `bugs`) and two periods (index 2 before index 1), and scenario A of the
specification. The conditions and periods of the document written stand in the order of
the response; the document of scenario A holds `"analysisId":"A1"` in the task object and
`"status":"OK"` in the analysis object. -/
theorem C1_success_output_witness :
    (plainTaskDoc taskDocF = true ∧ plainAnalysisDoc analysisDocF = true) ∧
      (main failedGate).term = .exited 0 ∧
      (main failedGate).stdout =
        ("\x7b\"task\":\x7b\"status\":\"SUCCESS\",\"analysisId\":\"AX-2\",\"componentId\":\"\"," ++
          "\"componentKey\":\"demo\",\"componentName\":\"\",\"organization\":\"acme\"," ++
          "\"submittedAt\":\"\",\"submitterLogin\":\"\",\"startedAt\":\"\",\"executedAt\":\"\"\x7d," ++
          "\"analysis\":\x7b\"status\":\"ERROR\",\"conditions\":[" ++
          "\x7b\"status\":\"ERROR\",\"metricKey\":\"new_coverage\",\"comparator\":\"LT\"," ++
          "\"periodIndex\":1,\"errorThreshold\":\"80\",\"actualValue\":\"42.5\"\x7d," ++
          "\x7b\"status\":\"OK\",\"metricKey\":\"bugs\",\"comparator\":\"GT\"," ++
          "\"periodIndex\":0,\"errorThreshold\":\"0\",\"actualValue\":\"0\"\x7d]," ++
          "\"periods\":[\x7b\"index\":2,\"mode\":\"days\",\"date\":\"2024-02-01\"\x7d," ++
          "\x7b\"index\":1,\"mode\":\"previous_version\",\"date\":\"2024-01-01\"\x7d]," ++
          "\"ignoredConditions\":true\x7d\x7d").toList ∧
      (main failedGate).requests.map Request.url =
        ["https://x/task?id=7".toList,
         "https://sonarcloud.io/api/qualitygates/project_status?analysisId=AX-2".toList] ∧
      (main scenarioA).term = .exited 0 ∧
      (main scenarioA).stdout =
        ("\x7b\"task\":\x7b\"status\":\"SUCCESS\",\"analysisId\":\"A1\",\"componentId\":\"\"," ++
          "\"componentKey\":\"\",\"componentName\":\"\",\"organization\":\"\"," ++
          "\"submittedAt\":\"\",\"submitterLogin\":\"\",\"startedAt\":\"\",\"executedAt\":\"\"\x7d," ++
          "\"analysis\":\x7b\"status\":\"OK\",\"conditions\":[],\"periods\":[]," ++
          "\"ignoredConditions\":false\x7d\x7d").toList :=
  have hF := C1_success_output failedGate "report-task.txt".toList "https://x/task?id=7".toList
    taskBodyF analysisBodyF [] ⟨"ceTaskUrl=https://x/task?id=7\n".toList, false⟩ none
    taskDocF analysisDocF (readTaskResponse taskDocF) (readAnalysis analysisDocF)
    rfl (by decide) rfl rfl (by decide) (by decide) (by decide) (by decide) rfl (by decide)
    (by decide) (by decide) rfl (by decide)
  have hA := (C1_success_output scenarioA "report-task.txt".toList "https://x/task?id=1".toList
    taskBodyA analysisBodyA [] ⟨"ceTaskUrl=https://x/task?id=1\n".toList, false⟩ none
    (.obj [("task".toList, .obj [("id".toList, .str "1".toList),
      ("status".toList, .str "SUCCESS".toList), ("analysisId".toList, .str "A1".toList)])])
    (.obj [("projectStatus".toList, .obj [("status".toList, .str "OK".toList),
      ("conditions".toList, .arr []), ("periods".toList, .arr []),
      ("ignoredConditions".toList, .bool false)])])
    ⟨{ SonarTask.zero with Status := "SUCCESS".toList, AnalysisId := "A1".toList }⟩
    ⟨{ ProjectStatus.zero with
        Status := "OK".toList, Conditions := ⟨false, [], []⟩, Periods := ⟨false, [], []⟩ }⟩
    rfl (by decide) rfl rfl (by decide) (by decide) (by decide) (by decide) rfl (by decide)
    (by decide) (by decide) rfl (by decide)).1
  ⟨⟨by decide, by decide⟩, by rw [hF.1], by rw [hF.1]; decide, by rw [hF.1]; decide,
    by rw [hA], by rw [hA]; decide⟩

end SonarScan
